import Mathlib

/-!
# Real-time price fan-out: the CryptoWebSocket manager and its binders

A shallow embedding of `src/utils/websocket.js` (class `CryptoWebSocket`) and of
`src/hooks/useRealtimePrice.js`, followed by the properties proved about them.

Conventions of the embedding:

* JavaScript values that reach `handleMessage` are values produced by `JSON.parse`;
  they are the inductive type `JSVal` (with `undefined` added for absent properties).
* The two library functions whose result is not determined by the repository,
  `String.prototype.toLowerCase` and `parseFloat`, are fields of `Builtins`.
* A callback is an opaque value of a type `κ`; invoking it is recorded as a `Call`.
  The `last_updated` field of a payload is a reading of the wall clock and is not
  part of the payload of the model.
* Sockets live in a table indexed by creation order; `ws` is an index into it.
-/

namespace CryptoWS

/-! ## JavaScript values -/

/-- A value produced by `JSON.parse`, or `undefined` (the value of an absent property). -/
inductive JSVal where
  | undefined : JSVal
  | null : JSVal
  | bool (b : Bool) : JSVal
  | num (q : ℚ) : JSVal
  | str (s : String) : JSVal
  | arr (items : List JSVal) : JSVal
  | obj (fields : List (String × JSVal)) : JSVal

/-- JavaScript truthiness (`ToBoolean`). -/
def truthy : JSVal → Bool
  | .undefined => false
  | .null => false
  | .bool b => b
  | .num q => decide (q ≠ 0)
  | .str s => decide (s ≠ "")
  | .arr _ => true
  | .obj _ => true

/-- Property read `v.name` for the names `s`, `c` and `P` used by `handleMessage`:
an own property of an object, `undefined` on every other value read here (no built-in
prototype defines these names). Reading a property of `null` or `undefined` throws and is
handled by the caller. -/
def prop (v : JSVal) (name : String) : JSVal :=
  match v with
  | .obj fields => (fields.lookup name).getD .undefined
  | _ => .undefined

/-- The expression `x || 0`. -/
def orZero (v : JSVal) : JSVal :=
  if truthy v then v else .num 0

/-- Library functions used by the manager whose results are inputs of the model. -/
structure Builtins (ν : Type) where
  /-- Models `String.prototype.toLowerCase`. -/
  toLowerCase : String → String
  /-- Models `parseFloat` applied to a value (converted to a string by the callee). -/
  parseFloat : JSVal → ν

/-! ## Identifier mapper -/

/-- The object literal `symbolMap` of `coinIdToSymbol`. -/
def symbolMap : List (String × String) :=
  [ ("bitcoin", "BTC"),
    ("ethereum", "ETH"),
    ("binancecoin", "BNB"),
    ("ripple", "XRP"),
    ("cardano", "ADA"),
    ("solana", "SOL"),
    ("polkadot", "DOT"),
    ("dogecoin", "DOGE"),
    ("matic-network", "MATIC"),
    ("litecoin", "LTC"),
    ("chainlink", "LINK"),
    ("bitcoin-cash", "BCH"),
    ("stellar", "XLM"),
    ("ethereum-classic", "ETC"),
    ("filecoin", "FIL"),
    ("tron", "TRX"),
    ("eos", "EOS"),
    ("monero", "XMR"),
    ("cosmos", "ATOM"),
    ("tezos", "XTZ"),
    ("avalanche-2", "AVAX"),
    ("algorand", "ALGO"),
    ("aave", "AAVE"),
    ("uniswap", "UNI"),
    ("maker", "MKR"),
    ("compound-governance-token", "COMP"),
    ("the-graph", "GRT"),
    ("theta-token", "THETA"),
    ("vechain", "VET"),
    ("internet-computer", "ICP"),
    ("fantom", "FTM"),
    ("decentraland", "MANA"),
    ("axie-infinity", "AXS"),
    ("the-sandbox", "SAND"),
    ("gala", "GALA"),
    ("enjincoin", "ENJ"),
    ("flow", "FLOW"),
    ("near", "NEAR"),
    ("aptos", "APT"),
    ("optimism", "OP"),
    ("arbitrum", "ARB") ]

/-- Property names that an object literal inherits from `Object.prototype`; a read
`symbolMap[k]` with one of these names finds the inherited member. -/
def objectPrototypeKeys : List String :=
  [ "constructor", "__proto__", "hasOwnProperty", "isPrototypeOf",
    "propertyIsEnumerable", "toLocaleString", "toString", "valueOf",
    "__defineGetter__", "__defineSetter__", "__lookupGetter__", "__lookupSetter__" ]

/-- The value returned by `coinIdToSymbol`: a feed symbol of the table, `null`, or a member
inherited from `Object.prototype` (truthy, and never equal to a string). -/
inductive SymbolResult where
  | symbol (s : String) : SymbolResult
  | inherited (name : String) : SymbolResult
  | null : SymbolResult
  deriving DecidableEq, Repr

/-- Embeds `coinIdToSymbol(coinId)`: `symbolMap[coinId.toLowerCase()] || null`. -/
def coinIdToSymbol {ν : Type} (B : Builtins ν) (coinId : String) : SymbolResult :=
  let key := B.toLowerCase coinId
  match symbolMap.lookup key with
  | some s => if s = "" then .null else .symbol s
  | none => if key ∈ objectPrototypeKeys then .inherited key else .null

/-! ## `String.prototype.replace` with a string pattern -/

/-- Replaces the first occurrence of `pat` in the list, scanning from the left. -/
def replaceFirst (pat rep : List Char) : List Char → List Char
  | [] => if pat = [] then rep else []
  | c :: cs =>
    if pat <+: (c :: cs) then rep ++ (c :: cs).drop pat.length
    else c :: replaceFirst pat rep cs

/-- Embeds `s.replace(pat, rep)` for string arguments: only the first occurrence. -/
def jsReplace (s pat rep : String) : String :=
  ⟨replaceFirst pat.data rep.data s.data⟩

/-- The expression `symbol.replace('USDT', '')` of `handleMessage`. -/
def baseSymbol (symbol : String) : String :=
  jsReplace symbol "USDT" ""

/-! ## Subscription registry (`Map` from coin id to callback) -/

/-- A `Map` in insertion order. -/
abbrev Registry (κ : Type) := List (String × κ)

/-- Embeds `Map.prototype.set`: an existing key keeps its position. -/
def mapSet {κ : Type} : Registry κ → String → κ → Registry κ
  | [], k, v => [(k, v)]
  | (k0, v0) :: rest, k, v =>
    if k0 = k then (k, v) :: rest else (k0, v0) :: mapSet rest k v

/-- Embeds `Map.prototype.delete`. -/
def mapDelete {κ : Type} (reg : Registry κ) (k : String) : Registry κ :=
  reg.filter (fun e => decide (e.1 ≠ k))

/-- The keys of the map, in insertion order. -/
def mapKeys {κ : Type} (reg : Registry κ) : List String :=
  reg.map Prod.fst

/-! ## Demultiplexer -/

/-- The object literal passed to a callback, without its `last_updated` field. -/
structure Payload (ν : Type) where
  id : String
  symbol : String
  current_price : ν
  price_change_percentage_24h : ν
  deriving DecidableEq, Repr

/-- One invocation `callback(payload)`. -/
structure Call (κ ν : Type) where
  callback : κ
  payload : Payload ν
  deriving DecidableEq, Repr

/-- What a run of `handleMessage` did: the callbacks it invoked, in order, and whether it
ended by throwing a `TypeError`. -/
structure Outcome (κ ν : Type) where
  calls : List (Call κ ν)
  threw : Bool

/-- Embeds the loop `this.subscriptions.forEach((callback, coinId) => ...)` of
`handleMessage` for one ticker. -/
def dispatch {κ ν : Type} (B : Builtins ν) (reg : Registry κ) (base : String)
    (price priceChange : ν) : List (Call κ ν) :=
  reg.filterMap fun e =>
    match coinIdToSymbol B e.1 with
    | .symbol expected =>
      if base = expected then
        some ⟨e.2, ⟨e.1, expected, price, priceChange⟩⟩
      else none
    | _ => none

/-- Embeds the body of `data.forEach((ticker) => ...)` in the array branch. A truthy
symbol that is not a string has no `replace` method: the call throws. -/
def handleTicker {κ ν : Type} (B : Builtins ν) (reg : Registry κ) (ticker : JSVal) :
    Outcome κ ν :=
  if !truthy ticker || !truthy (prop ticker "s") then ⟨[], false⟩
  else
    match prop ticker "s" with
    | .str symbol =>
      ⟨dispatch B reg (baseSymbol symbol) (B.parseFloat (orZero (prop ticker "c")))
        (B.parseFloat (orZero (prop ticker "P"))), false⟩
    | _ => ⟨[], true⟩

/-- Embeds `data.forEach` over the tickers of a batch: an exception ends the loop. -/
def forEachTicker {κ ν : Type} (B : Builtins ν) (reg : Registry κ) :
    List JSVal → Outcome κ ν
  | [] => ⟨[], false⟩
  | t :: ts =>
    let o := handleTicker B reg t
    if o.threw then o
    else
      let r := forEachTicker B reg ts
      ⟨o.calls ++ r.calls, r.threw⟩

/-- Embeds `handleMessage(data)`. -/
def handleMessage {κ ν : Type} (B : Builtins ν) (reg : Registry κ) (data : JSVal) :
    Outcome κ ν :=
  match data with
  | .arr items => forEachTicker B reg items
  | .undefined => ⟨[], true⟩
  | .null => ⟨[], true⟩
  | _ =>
    if truthy (prop data "s") then
      match prop data "s" with
      | .str symbol =>
        ⟨dispatch B reg (baseSymbol symbol) (B.parseFloat (orZero (prop data "c")))
          (B.parseFloat (orZero (prop data "P"))), false⟩
      | _ => ⟨[], true⟩
    else ⟨[], false⟩

/-- Embeds the handler `ws.onmessage`: a frame that `JSON.parse` rejects (`none`) and an
exception of `handleMessage` are caught and logged; the result is the list of callbacks
that were invoked. -/
def onmessageCalls {κ ν : Type} (B : Builtins ν) (reg : Registry κ) (parsed : Option JSVal) :
    List (Call κ ν) :=
  match parsed with
  | none => []
  | some data => (handleMessage B reg data).calls

/-! ## Connection manager -/

/-- The `readyState` of a `WebSocket`. -/
inductive ReadyState where
  | CONNECTING : ReadyState
  | OPEN : ReadyState
  | CLOSING : ReadyState
  | CLOSED : ReadyState
  deriving DecidableEq, Repr

/-- A timer created by `setTimeout` in `reconnect`; it stays in the table once fired. -/
structure Timer where
  delay : Nat
  fired : Bool
  deriving DecidableEq, Repr

/-- The constructor sets `this.maxReconnectAttempts = 5`; no code assigns it again. -/
def maxReconnectAttempts : Nat := 5

/-- The constructor sets `this.reconnectDelay = 3000`; no code assigns it again. -/
def reconnectDelay : Nat := 3000

/-- The fields of the `CryptoWebSocket` instance together with the sockets it has created
(`ws` is an index into `sockets`) and the timers it has set. -/
structure World (κ : Type) where
  ws : Option Nat
  subscriptions : Registry κ
  reconnectAttempts : Nat
  isConnecting : Bool
  sockets : List ReadyState
  timers : List Timer

/-- The state built by the constructor. -/
def World.init (κ : Type) : World κ :=
  { ws := none, subscriptions := [], reconnectAttempts := 0, isConnecting := false,
    sockets := [], timers := [] }

/-- The expression `this.ws && this.ws.readyState === WebSocket.OPEN`. -/
def wsIsOpen {κ : Type} (w : World κ) : Bool :=
  match w.ws with
  | some i => decide (w.sockets[i]? = some ReadyState.OPEN)
  | none => false

/-- Embeds `isConnected()`. -/
def isConnected {κ : Type} (w : World κ) : Bool :=
  wsIsOpen w

/-- The manager holds a socket that is open or being opened. -/
def openOrConnecting {κ : Type} (w : World κ) : Bool :=
  match w.ws with
  | some i =>
    decide (w.sockets[i]? = some ReadyState.OPEN ∨ w.sockets[i]? = some ReadyState.CONNECTING)
  | none => false

/-- Embeds `reconnect()`: the counter is incremented, then the delay is computed from it. -/
def reconnect {κ : Type} (w : World κ) : World κ :=
  if w.reconnectAttempts ≥ maxReconnectAttempts then w
  else
    let attempts := w.reconnectAttempts + 1
    { w with
      reconnectAttempts := attempts
      timers := w.timers ++ [⟨reconnectDelay * attempts, false⟩] }

/-- Embeds `connect()`. `ctorThrows` says whether `new WebSocket(...)` throws, which sends
control to the `catch` block. -/
def connect {κ : Type} (w : World κ) (ctorThrows : Bool) : World κ :=
  if w.isConnecting || wsIsOpen w then w
  else if ctorThrows then reconnect { w with isConnecting := false }
  else
    { w with
      isConnecting := true
      ws := some w.sockets.length
      sockets := w.sockets ++ [ReadyState.CONNECTING] }

/-- Effect of `socket.close()` on the ready state: an open or connecting socket starts
closing, a closing or closed one is left as it is. -/
def closeState : ReadyState → ReadyState
  | .CONNECTING => .CLOSING
  | .OPEN => .CLOSING
  | .CLOSING => .CLOSING
  | .CLOSED => .CLOSED

/-- Embeds `subscribe(coinId, callback)`. -/
def subscribe {κ : Type} (w : World κ) (coinId : String) (callback : κ)
    (ctorThrows : Bool) : World κ :=
  let w1 := { w with subscriptions := mapSet w.subscriptions coinId callback }
  if w1.ws.isNone || !wsIsOpen w1 then connect w1 ctorThrows else w1

/-- Embeds `unsubscribe(coinId)`. -/
def unsubscribe {κ : Type} (w : World κ) (coinId : String) : World κ :=
  let w1 := { w with subscriptions := mapDelete w.subscriptions coinId }
  match w1.ws with
  | some i =>
    if w1.subscriptions.length = 0 then
      { w1 with sockets := w1.sockets.modify closeState i, ws := none }
    else w1
  | none => w1

/-- Embeds `disconnect()`. -/
def disconnect {κ : Type} (w : World κ) : World κ :=
  let w1 : World κ :=
    match w.ws with
    | some i => { w with sockets := w.sockets.modify closeState i, ws := none }
    | none => w
  { w1 with subscriptions := [], isConnecting := false }

/-- Embeds the handler `ws.onopen`. -/
def onopen {κ : Type} (w : World κ) : World κ :=
  { w with isConnecting := false, reconnectAttempts := 0 }

/-- Embeds the handler `ws.onerror`. -/
def onerror {κ : Type} (w : World κ) : World κ :=
  { w with isConnecting := false }

/-- Embeds the handler `ws.onclose`. -/
def onclose {κ : Type} (w : World κ) : World κ :=
  reconnect { w with isConnecting := false }

/-- What can happen to the manager: a method call, a timer that fires, or an event of one
of its sockets. -/
inductive Action (κ : Type) where
  | subscribe (coinId : String) (callback : κ) (ctorThrows : Bool) : Action κ
  | unsubscribe (coinId : String) : Action κ
  | connect (ctorThrows : Bool) : Action κ
  | disconnect : Action κ
  | reconnect : Action κ
  | timeout (timer : Nat) (ctorThrows : Bool) : Action κ
  | openEvent (socket : Nat) : Action κ
  | messageEvent (socket : Nat) (parsed : Option JSVal) : Action κ
  | errorEvent (socket : Nat) : Action κ
  | closeEvent (socket : Nat) : Action κ

/-- One step of the manager. An event that the socket or timer table does not allow (an
open event on a socket that is not connecting, a message on a socket that is not open, an
error or close event on a closed socket, a timer that has fired) changes nothing. -/
def step {κ : Type} (w : World κ) : Action κ → World κ
  | .subscribe coinId callback ctorThrows => subscribe w coinId callback ctorThrows
  | .unsubscribe coinId => unsubscribe w coinId
  | .connect ctorThrows => connect w ctorThrows
  | .disconnect => disconnect w
  | .reconnect => reconnect w
  | .timeout t ctorThrows =>
    match w.timers[t]? with
    | some ⟨d, false⟩ => connect { w with timers := w.timers.set t ⟨d, true⟩ } ctorThrows
    | _ => w
  | .openEvent i =>
    if w.sockets[i]? = some ReadyState.CONNECTING then
      onopen { w with sockets := w.sockets.set i ReadyState.OPEN }
    else w
  | .messageEvent _ _ => w
  | .errorEvent i =>
    match w.sockets[i]? with
    | some ReadyState.CLOSED => w
    | some _ => onerror w
    | none => w
  | .closeEvent i =>
    match w.sockets[i]? with
    | some ReadyState.CLOSED => w
    | some _ => onclose { w with sockets := w.sockets.set i ReadyState.CLOSED }
    | none => w

/-- The state after a sequence of actions. -/
def run {κ : Type} (w : World κ) (acts : List (Action κ)) : World κ :=
  acts.foldl step w

/-! ## Binders (`src/hooks/useRealtimePrice.js`) -/

/-- A callback created by a hook: the closure remembers the hook instance that made it and
the `coinId` it was made for. -/
structure Closure where
  hook : Nat
  coinId : String
  deriving DecidableEq, Repr

/-- The argument a hook callback receives: the payload built by `handleMessage` together
with its `last_updated` time stamp. -/
structure Update (ν : Type) where
  payload : Payload ν
  last_updated : String

/-- State of one `useRealtimePrice` instance: its `useState` cells, `callbackRef.current`,
the dependency array of the effect that ran last (`none` before the first render) and the
`coinId` captured by the cleanup function that effect returned (`none` when it returned
nothing). The `error` cell only ever holds `null` and is left out. -/
structure PriceHook (ν : Type) where
  price : Option ν
  priceChange : Option ν
  isConnected : Bool
  callbackRef : Option Closure
  deps : Option (String × Bool × Option ν)
  cleanup : Option String

/-- A hook instance that has not rendered yet. -/
def PriceHook.unmounted (ν : Type) : PriceHook ν :=
  { price := none, priceChange := none, isConnected := false, callbackRef := none,
    deps := none, cleanup := none }

/-- The cleanup function returned by the effect of `useRealtimePrice`. -/
def PriceHook.runCleanup {ν : Type} (s : World Closure × PriceHook ν) :
    World Closure × PriceHook ν :=
  match s.2.cleanup with
  | some coinId =>
    let w := if s.2.callbackRef.isSome then unsubscribe s.1 coinId else s.1
    (w, { s.2 with cleanup := none })
  | none => s

/-- The body of the effect of `useRealtimePrice` (an empty `coinId` is falsy). -/
def PriceHook.runEffect {ν : Type} (owner : Nat) (s : World Closure × PriceHook ν)
    (coinId : String) (initialPrice : Option ν) (enabled : Bool) (ctorThrows : Bool) :
    World Closure × PriceHook ν :=
  if !enabled || coinId = "" then
    (s.1, { s.2 with deps := some (coinId, enabled, initialPrice), cleanup := none })
  else
    let price := if initialPrice.isSome then initialPrice else s.2.price
    let cb : Closure := ⟨owner, coinId⟩
    let w := subscribe s.1 coinId cb ctorThrows
    (w, { s.2 with
          price := price
          callbackRef := some cb
          isConnected := CryptoWS.isConnected w
          deps := some (coinId, enabled, initialPrice)
          cleanup := some coinId })

/-- One render of `useRealtimePrice(coinId, initialPrice, enabled)` by the hook instance
`owner`: the first render initialises the state cells; the effect (after the cleanup of the
previous one) runs on the first render and whenever the dependency array
`[coinId, enabled, initialPrice]` differs from the one of the previous render. -/
def PriceHook.render {ν : Type} [DecidableEq ν] (owner : Nat)
    (s : World Closure × PriceHook ν) (coinId : String) (initialPrice : Option ν)
    (enabled : Bool) (ctorThrows : Bool) : World Closure × PriceHook ν :=
  match s.2.deps with
  | none =>
    PriceHook.runEffect owner (s.1, { s.2 with price := initialPrice }) coinId initialPrice
      enabled ctorThrows
  | some d =>
    if d = (coinId, enabled, initialPrice) then s
    else
      PriceHook.runEffect owner (PriceHook.runCleanup s) coinId initialPrice enabled
        ctorThrows

/-- The callback `callbackRef.current = (data) => ...` made for `coinId`, applied to an
update. -/
def PriceHook.callback {ν : Type} (coinId : String) (h : PriceHook ν) (data : Update ν) :
    PriceHook ν :=
  if data.payload.id = coinId then
    { h with
      price := some data.payload.current_price
      priceChange := some data.payload.price_change_percentage_24h }
  else h

/-- The interval callback `checkConnection`, which runs while a cleanup is pending. -/
def PriceHook.checkConnection {ν : Type} (s : World Closure × PriceHook ν) :
    World Closure × PriceHook ν :=
  match s.2.cleanup with
  | some _ => (s.1, { s.2 with isConnected := CryptoWS.isConnected s.1 })
  | none => s

/-- What happens to a per-coin binder bound to one coin: a REST refresh re-renders it with
a new `initialPrice`, and a tick is an invocation of its registered callback. -/
inductive BinderEvent (ν : Type) where
  | rest (price : ν) (ctorThrows : Bool) : BinderEvent ν
  | tick (data : Update ν) : BinderEvent ν

/-- The price an event carries. -/
def BinderEvent.price {ν : Type} : BinderEvent ν → ν
  | .rest p _ => p
  | .tick data => data.payload.current_price

/-- The prices delivered by the REST refreshes of a sequence, in order. -/
def restPrices {ν : Type} : List (BinderEvent ν) → List (Option ν)
  | [] => []
  | .rest p _ :: evs => some p :: restPrices evs
  | .tick _ :: evs => restPrices evs

/-- One event of an enabled binder of instance `owner` bound to `coinId`. A tick reaches
the hook through the callback registered by the effect that ran last. -/
def PriceHook.event {ν : Type} [DecidableEq ν] (owner : Nat) (coinId : String)
    (s : World Closure × PriceHook ν) : BinderEvent ν → World Closure × PriceHook ν
  | .rest p ctorThrows => PriceHook.render owner s coinId (some p) true ctorThrows
  | .tick data =>
    match s.2.cleanup with
    | some registered => (s.1, PriceHook.callback registered s.2 data)
    | none => s

/-- An enabled binder bound to `coinId`, mounted with `initialPrice`, after a sequence of
events. -/
def PriceHook.runEvents {ν : Type} [DecidableEq ν] (owner : Nat) (coinId : String)
    (initialPrice : Option ν) (mountThrows : Bool) (evs : List (BinderEvent ν)) :
    World Closure × PriceHook ν :=
  evs.foldl (PriceHook.event owner coinId)
    (PriceHook.render owner (World.init Closure, PriceHook.unmounted ν) coinId initialPrice
      true mountThrows)

/-- An entry of the `prices` object of `useRealtimePrices`. -/
structure PriceEntry (ν : Type) where
  price : Option ν
  priceChange : Option ν
  lastUpdated : Option String

/-- State of one `useRealtimePrices` instance: the `prices` object, `isConnected`,
`callbacksRef.current`, the dependency array `[coinIds.join(','), enabled]` of the effect
that ran last, and whether that effect returned a cleanup function. -/
structure PricesHook (ν : Type) where
  prices : List (String × PriceEntry ν)
  isConnected : Bool
  callbacksRef : Registry Closure
  deps : Option (String × Bool)
  cleanup : Bool

/-- A hook instance that has not rendered yet. -/
def PricesHook.unmounted (ν : Type) : PricesHook ν :=
  { prices := [], isConnected := false, callbacksRef := [], deps := none, cleanup := false }

/-- The loop `callbacksRef.current.forEach((callback, coinId) => unsubscribe(coinId))`. -/
def unsubscribeAll (w : World Closure) (coinIds : List String) : World Closure :=
  coinIds.foldl unsubscribe w

/-- The loop `coinIds.forEach((coinId) => ...)` of the effect: each id gets a callback that
is stored in `callbacksRef.current` and subscribed. -/
def subscribeAll (owner : Nat) (ctorThrows : Bool) :
    List String → World Closure × Registry Closure → World Closure × Registry Closure
  | [], s => s
  | coinId :: rest, s =>
    subscribeAll owner ctorThrows rest
      (subscribe s.1 coinId ⟨owner, coinId⟩ ctorThrows, mapSet s.2 coinId ⟨owner, coinId⟩)

/-- The cleanup function returned by the effect of `useRealtimePrices`. -/
def PricesHook.runCleanup {ν : Type} (s : World Closure × PricesHook ν) :
    World Closure × PricesHook ν :=
  if s.2.cleanup then
    (unsubscribeAll s.1 (mapKeys s.2.callbacksRef),
      { s.2 with callbacksRef := [], cleanup := false })
  else s

/-- The body of the effect of `useRealtimePrices`. -/
def PricesHook.runEffect {ν : Type} (owner : Nat) (s : World Closure × PricesHook ν)
    (coinIds : List String) (initialPrices : List (String × PriceEntry ν)) (enabled : Bool)
    (ctorThrows : Bool) : World Closure × PricesHook ν :=
  let deps := some (String.intercalate "," coinIds, enabled)
  if !enabled || coinIds.length = 0 then
    (s.1, { s.2 with deps := deps, cleanup := false })
  else
    let r := subscribeAll owner ctorThrows coinIds (s.1, s.2.callbacksRef)
    (r.1, { s.2 with
            prices := initialPrices
            callbacksRef := r.2
            isConnected := CryptoWS.isConnected r.1
            deps := deps
            cleanup := true })

/-- One render of `useRealtimePrices(coinIds, initialPrices, enabled)` by the hook instance
`owner`. -/
def PricesHook.render {ν : Type} (owner : Nat) (s : World Closure × PricesHook ν)
    (coinIds : List String) (initialPrices : List (String × PriceEntry ν)) (enabled : Bool)
    (ctorThrows : Bool) : World Closure × PricesHook ν :=
  match s.2.deps with
  | none =>
    PricesHook.runEffect owner (s.1, { s.2 with prices := initialPrices }) coinIds
      initialPrices enabled ctorThrows
  | some d =>
    if d = (String.intercalate "," coinIds, enabled) then s
    else
      PricesHook.runEffect owner (PricesHook.runCleanup s) coinIds initialPrices enabled
        ctorThrows

/-- The expression `coins.map(coin => coin.id).slice(0, 50)` of `Dashboard`, applied to the
ids of the loaded coins. -/
def dashboardCoinIds (coinIdsOfCoins : List String) : List String :=
  coinIdsOfCoins.take 50

/-- One render of `Dashboard`: it passes the capped id list to `useRealtimePrices`. -/
def dashboardRender {ν : Type} (owner : Nat) (s : World Closure × PricesHook ν)
    (coinIdsOfCoins : List String) (initialPrices : List (String × PriceEntry ν))
    (realtimeEnabled : Bool) (ctorThrows : Bool) : World Closure × PricesHook ν :=
  PricesHook.render owner s (dashboardCoinIds coinIdsOfCoins) initialPrices realtimeEnabled
    ctorThrows

/-! ## A concrete instance of the library functions, for evaluation -/

/-- Lower-casing of the letters `A` to `Z`; `toLowerCase` agrees with it on ASCII text. -/
def asciiLower (c : Char) : Char :=
  if 65 ≤ c.toNat ∧ c.toNat ≤ 90 then Char.ofNat (c.toNat + 32) else c

/-- Value of a string of decimal digits, `none` (for `NaN`) on any other string. -/
def digitsValue : List Char → Option Nat
  | [] => none
  | cs => cs.foldl (fun acc c =>
      match acc with
      | some n => if 48 ≤ c.toNat ∧ c.toNat ≤ 57 then some (10 * n + (c.toNat - 48)) else none
      | none => none) (some 0)

/-- An instance of `Builtins` that agrees with JavaScript on ASCII identifiers and on
prices written as strings of decimal digits; `parseFloat(0)` is `0`. -/
def sampleBuiltins : Builtins (Option Nat) where
  toLowerCase s := ⟨s.data.map asciiLower⟩
  parseFloat v :=
    match v with
    | .str s => digitsValue s.data
    | .num q => if q = 0 then some 0 else none
    | _ => none

/-! ## Sample data, for evaluation -/

/-- The ticker `{s: "BTCUSDT", c: "50000", P: "2"}`. -/
def btcTicker : JSVal :=
  .obj [("s", .str "BTCUSDT"), ("c", .str "50000"), ("P", .str "2")]

/-- The ticker `{s: "ETHUSDT", c: "3000", P: "1"}`. -/
def ethTicker : JSVal :=
  .obj [("s", .str "ETHUSDT"), ("c", .str "3000"), ("P", .str "1")]

/-- The ticker `{s: "DOGEUSDT", c: "7", P: "0"}`. -/
def dogeTicker : JSVal :=
  .obj [("s", .str "DOGEUSDT"), ("c", .str "7"), ("P", .str "0")]

/-- A batch frame with the three sample tickers. -/
def sampleFrame : JSVal :=
  .arr [btcTicker, ethTicker, dogeTicker]

/-- A registry with `bitcoin` and `ethereum` subscribed (callbacks `1` and `2`). -/
def sampleRegistry : Registry Nat :=
  [("bitcoin", 1), ("ethereum", 2)]

/-! ## Vocabulary for traces of the manager -/

/-- An action that neither resets nor advances the reconnect schedule by itself: no open
event, no close event, no direct call of `reconnect()`, and no constructor call that
throws. -/
def Action.calm {κ : Type} : Action κ → Bool
  | .subscribe _ _ ctorThrows => !ctorThrows
  | .unsubscribe _ => true
  | .connect ctorThrows => !ctorThrows
  | .disconnect => true
  | .reconnect => false
  | .timeout _ ctorThrows => !ctorThrows
  | .openEvent _ => false
  | .messageEvent _ _ => true
  | .errorEvent _ => true
  | .closeEvent _ => false

/-- The action is a close event. -/
def Action.isClose {κ : Type} : Action κ → Bool
  | .closeEvent _ => true
  | _ => false

/-- The action is an open event. -/
def Action.isOpen {κ : Type} : Action κ → Bool
  | .openEvent _ => true
  | _ => false

/-- The action is a call of `subscribe` or of `connect`. -/
def Action.asksConnection {κ : Type} : Action κ → Bool
  | .subscribe _ _ _ => true
  | .connect _ => true
  | _ => false

/-- Socket `i` exists and is not closed yet, so a close event can occur on it. -/
def closeEnabled {κ : Type} (w : World κ) (i : Nat) : Bool :=
  match w.sockets[i]? with
  | some ReadyState.CLOSED => false
  | some _ => true
  | none => false

/-- Number of close events of the sequence that occur on a socket not yet closed, when the
sequence is run from `w`. -/
def closeCount {κ : Type} (w : World κ) : List (Action κ) → Nat
  | [] => 0
  | a :: rest =>
    (match a with
      | .closeEvent i => if closeEnabled w i then 1 else 0
      | _ => 0) + closeCount (step w a) rest

/-- The reconnect attempts are used up and nothing is pending: the counter has reached the
maximum, no `connect()` is in progress, every timer has fired and no socket is connecting
or open. -/
def exhausted {κ : Type} (w : World κ) : Prop :=
  maxReconnectAttempts ≤ w.reconnectAttempts ∧ w.isConnecting = false ∧
    (∀ t ∈ w.timers, t.fired = true) ∧
    (∀ s ∈ w.sockets, s = ReadyState.CLOSING ∨ s = ReadyState.CLOSED)

instance {κ : Type} (w : World κ) : Decidable (exhausted w) := by
  unfold exhausted; infer_instance

/-- The timers scheduled so far plus the reconnect attempts that are left. -/
def schedulePotential {κ : Type} (w : World κ) : Nat :=
  w.timers.length + (maxReconnectAttempts - w.reconnectAttempts)

/-- A subscription whose socket fails five times in a row, each reconnect timer firing
before the next failure, and then fails once more. -/
def exhaustingTrace : List (Action Nat) :=
  [ Action.subscribe "bitcoin" 1 false,
    Action.closeEvent 0, Action.timeout 0 false,
    Action.closeEvent 1, Action.timeout 1 false,
    Action.closeEvent 2, Action.timeout 2 false,
    Action.closeEvent 3, Action.timeout 3 false,
    Action.closeEvent 4, Action.timeout 4 false,
    Action.closeEvent 5 ]

/-- The price carried by the last event of a sequence. -/
def lastPrice {ν : Type} : List (BinderEvent ν) → Option ν
  | [] => none
  | [e] => some e.price
  | _ :: e :: rest => lastPrice (e :: rest)

/-- A tick for `coinId` with the given price (percent change 0). -/
def sampleTick (coinId : String) (price : Nat) : BinderEvent Nat :=
  .tick ⟨⟨coinId, "BTC", price, 0⟩, "2024-01-01T00:00:00.000Z"⟩

/-- The arguments of one render of `Dashboard`: the ids of the loaded coins, the initial
prices, the `realtimeEnabled` flag, and whether `new WebSocket` throws during the render. -/
structure DashboardProps (ν : Type) where
  coinIdsOfCoins : List String
  initialPrices : List (String × PriceEntry ν)
  realtimeEnabled : Bool
  ctorThrows : Bool

/-- A `Dashboard` whose binder is the only user of the manager, after a sequence of
renders. -/
def dashboardRun {ν : Type} (owner : Nat) (renders : List (DashboardProps ν)) :
    World Closure × PricesHook ν :=
  renders.foldl
    (fun s r => dashboardRender owner s r.coinIdsOfCoins r.initialPrices r.realtimeEnabled
      r.ctorThrows)
    (World.init Closure, PricesHook.unmounted ν)

/-- Sixty distinct coin ids. -/
def sixtyIds : List String :=
  [
    "coin01", "coin02", "coin03", "coin04", "coin05", "coin06",
    "coin07", "coin08", "coin09", "coin10", "coin11", "coin12",
    "coin13", "coin14", "coin15", "coin16", "coin17", "coin18",
    "coin19", "coin20", "coin21", "coin22", "coin23", "coin24",
    "coin25", "coin26", "coin27", "coin28", "coin29", "coin30",
    "coin31", "coin32", "coin33", "coin34", "coin35", "coin36",
    "coin37", "coin38", "coin39", "coin40", "coin41", "coin42",
    "coin43", "coin44", "coin45", "coin46", "coin47", "coin48",
    "coin49", "coin50", "coin51", "coin52", "coin53", "coin54",
    "coin55", "coin56", "coin57", "coin58", "coin59", "coin60" ]

/-! ## Callbacks that may throw, and the `onmessage` handler -/

/-- The subscription scan of `handleMessage` when a callback may throw: `throws call` says
whether the invocation `call` ends with an exception, which leaves the `forEach` at once.
The result lists the invocations made, the throwing one included. -/
def dispatchWith {κ ν : Type} (B : Builtins ν) (throws : Call κ ν → Bool) (base : String)
    (price priceChange : ν) : Registry κ → Outcome κ ν
  | [] => ⟨[], false⟩
  | e :: rest =>
    match coinIdToSymbol B e.1 with
    | .symbol expected =>
      if base = expected then
        let call : Call κ ν := ⟨e.2, ⟨e.1, expected, price, priceChange⟩⟩
        if throws call then ⟨[call], true⟩
        else
          let r := dispatchWith B throws base price priceChange rest
          ⟨call :: r.calls, r.threw⟩
      else dispatchWith B throws base price priceChange rest
    | _ => dispatchWith B throws base price priceChange rest

/-- The body of `data.forEach((ticker) => ...)` when a callback may throw. -/
def handleTickerWith {κ ν : Type} (B : Builtins ν) (throws : Call κ ν → Bool)
    (reg : Registry κ) (ticker : JSVal) : Outcome κ ν :=
  if !truthy ticker || !truthy (prop ticker "s") then ⟨[], false⟩
  else
    match prop ticker "s" with
    | .str symbol =>
      dispatchWith B throws (baseSymbol symbol) (B.parseFloat (orZero (prop ticker "c")))
        (B.parseFloat (orZero (prop ticker "P"))) reg
    | _ => ⟨[], true⟩

/-- The loop `data.forEach` over the tickers of a batch when a callback may throw. -/
def forEachTickerWith {κ ν : Type} (B : Builtins ν) (throws : Call κ ν → Bool)
    (reg : Registry κ) : List JSVal → Outcome κ ν
  | [] => ⟨[], false⟩
  | t :: ts =>
    let o := handleTickerWith B throws reg t
    if o.threw then o
    else
      let r := forEachTickerWith B throws reg ts
      ⟨o.calls ++ r.calls, r.threw⟩

/-- Embeds `handleMessage(data)` when a callback may throw. -/
def handleMessageWith {κ ν : Type} (B : Builtins ν) (throws : Call κ ν → Bool)
    (reg : Registry κ) (data : JSVal) : Outcome κ ν :=
  match data with
  | .arr items => forEachTickerWith B throws reg items
  | .undefined => ⟨[], true⟩
  | .null => ⟨[], true⟩
  | _ =>
    if truthy (prop data "s") then
      match prop data "s" with
      | .str symbol =>
        dispatchWith B throws (baseSymbol symbol) (B.parseFloat (orZero (prop data "c")))
          (B.parseFloat (orZero (prop data "P"))) reg
      | _ => ⟨[], true⟩
    else ⟨[], false⟩

/-- What one run of the handler `ws.onmessage` did: the manager afterwards, the callbacks
invoked, whether an error was logged, and whether an exception left the handler. -/
structure HandlerResult (κ ν : Type) where
  world : World κ
  calls : List (Call κ ν)
  logged : Bool
  raised : Bool

/-- Embeds the handler `ws.onmessage`: `parsed` is the result of `JSON.parse(event.data)`,
`none` when it throws. The `try` block covers the whole body and the `catch` block only
logs, so no exception leaves the handler. -/
def onmessage {κ ν : Type} (B : Builtins ν) (throws : Call κ ν → Bool) (w : World κ)
    (parsed : Option JSVal) : HandlerResult κ ν :=
  match parsed with
  | none => ⟨w, [], true, false⟩
  | some data =>
    let o := handleMessageWith B throws w.subscriptions data
    ⟨w, o.calls, o.threw, false⟩

/-! ## Suffix stripping as the specification words it -/

/-- The stripping rule as the specification words it, for comparison with `baseSymbol`:
the symbol with a trailing `USDT` removed, and the symbol itself when it does not end in
`USDT`. -/
def stripUsdtSuffix (symbol : String) : String :=
  if "USDT".data <:+ symbol.data then ⟨symbol.data.take (symbol.data.length - 4)⟩
  else symbol

/-- A state the manager can reach from its initial state. -/
def Reachable {κ : Type} (w : World κ) : Prop :=
  ∃ acts : List (Action κ), w = run (World.init κ) acts

/-- When the held socket is closed, no `connect()` is in progress. -/
def closedMeansIdle {κ : Type} (w : World κ) : Prop :=
  ∀ i, w.ws = some i → w.sockets[i]? = some ReadyState.CLOSED → w.isConnecting = false

/-! ## The multi-coin binder: callback, render sequences, release -/

/-- The callback made by `useRealtimePrices` for `coinId`, applied to an update: the
state update of `setPrices` that spreads the previous object and writes the property
`coinId`. The `prices` object is a list of properties in insertion order; writing an
existing property keeps its place. -/
def PricesHook.callback {ν : Type} (coinId : String) (h : PricesHook ν) (data : Update ν) :
    PricesHook ν :=
  if data.payload.id = coinId then
    { h with
      prices := mapSet h.prices coinId
        ⟨some data.payload.current_price, some data.payload.price_change_percentage_24h,
          some data.last_updated⟩ }
  else h

/-- The arguments of one render of `useRealtimePrices`, and whether `new WebSocket` throws
during the render. -/
structure PricesProps (ν : Type) where
  coinIds : List String
  initialPrices : List (String × PriceEntry ν)
  enabled : Bool
  ctorThrows : Bool

/-- A multi-coin binder that is the only user of the manager, after a sequence of
renders. -/
def pricesHookRun {ν : Type} (owner : Nat) (renders : List (PricesProps ν)) :
    World Closure × PricesHook ν :=
  renders.foldl
    (fun s r => PricesHook.render owner s r.coinIds r.initialPrices r.enabled r.ctorThrows)
    (World.init Closure, PricesHook.unmounted ν)

/-- Release of a multi-coin binder: the pending cleanup function runs. -/
def PricesHook.release {ν : Type} (s : World Closure × PricesHook ν) :
    World Closure × PricesHook ν :=
  PricesHook.runCleanup s

/-- The tickers of a batch whose symbol is a non-empty string with base symbol `m`. -/
def matchingTickers (m : String) (tickers : List JSVal) : List JSVal :=
  tickers.filter fun t =>
    match prop t "s" with
    | .str s => decide (s ≠ "" ∧ baseSymbol s = m)
    | _ => false

/-- The symbol of a batch entry is absent (or otherwise falsy) or a string, so that the
entry is skipped or dispatched and no `TypeError` arises. -/
def symbolWellTyped (t : JSVal) : Prop :=
  truthy (prop t "s") = false ∨ ∃ s : String, prop t "s" = JSVal.str s

/-! ## Favorites (`src/utils/localStorage.js`) -/

/-- The entry `cryptoFavorites` of `localStorage`: `none` when the key is absent, else the
array of coin ids whose JSON text is stored (`JSON.parse(JSON.stringify(a))` is `a` for an
array of strings). -/
abbrev FavoritesStore := Option (List String)

/-- Embeds `getFavorites()` on a store that holds a list of coin ids. -/
def getFavorites (store : FavoritesStore) : List String :=
  match store with
  | some favorites => favorites
  | none => []

/-- Embeds `saveFavorites(favorites)`: when `setItem` throws, the error is logged and the
store keeps its content. -/
def saveFavorites (store : FavoritesStore) (favorites : List String) (setItemThrows : Bool) :
    FavoritesStore :=
  if setItemThrows then store else some favorites

/-- Embeds `toggleFavorite(coinId)`: `indexOf` finds the first occurrence, `splice` removes
it, `push` appends. The result is the returned array and the store afterwards. -/
def toggleFavorite (store : FavoritesStore) (coinId : String) (setItemThrows : Bool) :
    List String × FavoritesStore :=
  let favorites := getFavorites store
  let updated := if coinId ∈ favorites then favorites.erase coinId else favorites ++ [coinId]
  (updated, saveFavorites store updated setItemThrows)

/-- Embeds `isFavorite(coinId)`. -/
def isFavorite (store : FavoritesStore) (coinId : String) : Bool :=
  decide (coinId ∈ getFavorites store)

/-! ## Properties -/

section Lemmas

variable {κ ν : Type}

@[simp] theorem reconnect_subscriptions (w : World κ) :
    (reconnect w).subscriptions = w.subscriptions := by
  unfold reconnect; split <;> rfl

@[simp] theorem connect_subscriptions (w : World κ) (t : Bool) :
    (connect w t).subscriptions = w.subscriptions := by
  unfold connect; split
  · rfl
  · split
    · simp
    · rfl

theorem subscribe_subscriptions (w : World κ) (c : String) (cb : κ) (t : Bool) :
    (subscribe w c cb t).subscriptions = mapSet w.subscriptions c cb := by
  unfold subscribe; dsimp only; split <;> simp

theorem unsubscribe_subscriptions (w : World κ) (c : String) :
    (unsubscribe w c).subscriptions = mapDelete w.subscriptions c := by
  unfold unsubscribe; dsimp only; split
  · split <;> rfl
  · rfl

@[simp] theorem disconnect_subscriptions (w : World κ) :
    (disconnect w).subscriptions = [] := by
  unfold disconnect; rfl

theorem mem_mapKeys_mapSet (reg : Registry κ) (k : String) (v : κ) (c : String) :
    c ∈ mapKeys (mapSet reg k v) ↔ c = k ∨ c ∈ mapKeys reg := by
  induction reg with
  | nil => simp [mapSet, mapKeys]
  | cons e rest ih =>
    obtain ⟨k0, v0⟩ := e
    unfold mapSet
    split
    · rename_i h; subst h; simp [mapKeys]
    · simp only [mapKeys, List.map_cons, List.mem_cons] at ih ⊢
      rw [ih]; tauto

theorem mem_mapDelete (reg : Registry κ) (k : String) (e : String × κ) :
    e ∈ mapDelete reg k ↔ e ∈ reg ∧ e.1 ≠ k := by
  simp [mapDelete]

theorem mem_mapKeys_mapDelete (reg : Registry κ) (k c : String) :
    c ∈ mapKeys (mapDelete reg k) ↔ c ∈ mapKeys reg ∧ c ≠ k := by
  simp only [mapKeys, List.mem_map, mem_mapDelete]
  constructor
  · rintro ⟨e, ⟨he, hne⟩, rfl⟩; exact ⟨⟨e, he, rfl⟩, hne⟩
  · rintro ⟨⟨e, he, rfl⟩, hne⟩; exact ⟨e, ⟨he, hne⟩, rfl⟩

/-- A step that is not `subscribe c` does not add the key `c` to the registry. -/
theorem step_keeps_key_absent (w : World κ) (a : Action κ) (c : String)
    (ha : ∀ cb t, a ≠ Action.subscribe c cb t) (hc : c ∉ mapKeys w.subscriptions) :
    c ∉ mapKeys (step w a).subscriptions := by
  cases a with
  | subscribe k cb t =>
    simp only [step, subscribe_subscriptions, mem_mapKeys_mapSet]
    rintro (h | h)
    · exact ha cb t (by rw [h])
    · exact hc h
  | unsubscribe k =>
    simp only [step, unsubscribe_subscriptions, mem_mapKeys_mapDelete]
    exact fun h => hc h.1
  | connect t => simpa [step] using hc
  | disconnect => simp [step, mapKeys]
  | reconnect => simpa [step] using hc
  | timeout i t =>
    simp only [step]
    split
    · simpa using hc
    · exact hc
  | openEvent i =>
    simp only [step]
    split
    · simpa [onopen] using hc
    · exact hc
  | messageEvent i d => simpa [step] using hc
  | errorEvent i =>
    simp only [step]
    split
    · exact hc
    · simpa [onerror] using hc
    · exact hc
  | closeEvent i =>
    simp only [step]
    split
    · exact hc
    · simpa [onclose] using hc
    · exact hc

theorem run_keeps_key_absent (acts : List (Action κ)) (w : World κ) (c : String)
    (ha : ∀ a ∈ acts, ∀ cb t, a ≠ Action.subscribe c cb t)
    (hc : c ∉ mapKeys w.subscriptions) :
    c ∉ mapKeys (run w acts).subscriptions := by
  induction acts generalizing w with
  | nil => simpa [run] using hc
  | cons a rest ih =>
    have h1 := step_keeps_key_absent w a c (ha a (List.mem_cons_self _ _)) hc
    have := ih (step w a) (fun b hb => ha b (List.mem_cons_of_mem _ hb)) h1
    simpa [run] using this

/-- Every call made by the subscription scan comes from an entry of the registry. -/
theorem mem_dispatch (B : Builtins ν) (reg : Registry κ) (base : String) (p q : ν)
    (call : Call κ ν) (h : call ∈ dispatch B reg base p q) :
    (call.payload.id, call.callback) ∈ reg ∧
      coinIdToSymbol B call.payload.id = SymbolResult.symbol base ∧
      call.payload.symbol = base ∧ call.payload.current_price = p ∧
      call.payload.price_change_percentage_24h = q := by
  unfold dispatch at h
  rw [List.mem_filterMap] at h
  obtain ⟨e, he, hcall⟩ := h
  split at hcall
  · rename_i expected hexp
    split at hcall
    · rename_i hb
      simp only [Option.some.injEq] at hcall
      subst hcall; subst hb
      exact ⟨he, hexp, rfl, rfl, rfl⟩
    · simp at hcall
  · simp at hcall

theorem mem_handleTicker (B : Builtins ν) (reg : Registry κ) (t : JSVal) (call : Call κ ν)
    (h : call ∈ (handleTicker B reg t).calls) : (call.payload.id, call.callback) ∈ reg := by
  unfold handleTicker at h
  split at h
  · simp at h
  · split at h
    · exact (mem_dispatch B reg _ _ _ call h).1
    · simp at h

theorem mem_forEachTicker (B : Builtins ν) (reg : Registry κ) (ts : List JSVal)
    (call : Call κ ν) (h : call ∈ (forEachTicker B reg ts).calls) :
    (call.payload.id, call.callback) ∈ reg := by
  induction ts with
  | nil => simp [forEachTicker] at h
  | cons t rest ih =>
    simp only [forEachTicker] at h
    split at h
    · exact mem_handleTicker B reg t call h
    · simp only [List.mem_append] at h
      rcases h with h | h
      · exact mem_handleTicker B reg t call h
      · exact ih h

theorem mem_handleMessage (B : Builtins ν) (reg : Registry κ) (data : JSVal)
    (call : Call κ ν) (h : call ∈ (handleMessage B reg data).calls) :
    (call.payload.id, call.callback) ∈ reg := by
  unfold handleMessage at h
  split at h
  · exact mem_forEachTicker B reg _ call h
  · simp at h
  · simp at h
  · split at h
    · split at h
      · exact (mem_dispatch B reg _ _ _ call h).1
      · simp at h
    · simp at h

end Lemmas

section Claims

variable {κ ν : Type}

/-- C1 (registry-connection bracketing), evaluated where it fails: after
`subscribe("bitcoin")`, `unsubscribe("bitcoin")`, `subscribe("ethereum")` with no socket
event in between, the registry holds `ethereum` while the manager holds no socket at all;
the flag `isConnecting` left set by the first `connect()` makes the second one return at
once. -/
theorem C1_bracketing_fails_after_teardown_while_connecting :
    (run (World.init Nat)
        [Action.subscribe "bitcoin" 1 false, Action.unsubscribe "bitcoin",
          Action.subscribe "ethereum" 2 false]).subscriptions = [("ethereum", 2)] ∧
      (run (World.init Nat)
        [Action.subscribe "bitcoin" 1 false, Action.unsubscribe "bitcoin",
          Action.subscribe "ethereum" 2 false]).ws = none ∧
      (run (World.init Nat)
        [Action.subscribe "bitcoin" 1 false, Action.unsubscribe "bitcoin",
          Action.subscribe "ethereum" 2 false]).isConnecting = true ∧
      openOrConnecting (run (World.init Nat)
        [Action.subscribe "bitcoin" 1 false, Action.unsubscribe "bitcoin",
          Action.subscribe "ethereum" 2 false]) = false ∧
      (run (World.init Nat)
        [Action.subscribe "bitcoin" 1 false, Action.unsubscribe "bitcoin",
          Action.subscribe "ethereum" 2 false]).sockets = [ReadyState.CLOSING] := by
  decide

/-- C3 (unsubscribe race): once `unsubscribe(c)` has returned, and through any later
actions of the manager other than a `subscribe(c, _)`, the registry has no entry for `c`;
every call that `handleMessage` (directly or through `onmessage`) makes on any frame comes
from an entry that is in the registry at that moment, so none of them has `id = c`. -/
theorem C3_unsubscribe_race (B : Builtins ν) (w : World κ) (c : String)
    (acts : List (Action κ))
    (hacts : ∀ a ∈ acts, ∀ cb t, a ≠ Action.subscribe c cb t) (data : JSVal) :
    (∀ cb, (c, cb) ∉ (run (unsubscribe w c) acts).subscriptions) ∧
      (∀ call ∈ (handleMessage B (run (unsubscribe w c) acts).subscriptions data).calls,
        (call.payload.id, call.callback) ∈ (run (unsubscribe w c) acts).subscriptions ∧
          call.payload.id ≠ c) ∧
      (∀ call ∈ onmessageCalls B (run (unsubscribe w c) acts).subscriptions (some data),
        call.payload.id ≠ c) := by
  have habs : c ∉ mapKeys (run (unsubscribe w c) acts).subscriptions := by
    apply run_keeps_key_absent acts _ c hacts
    rw [unsubscribe_subscriptions, mem_mapKeys_mapDelete]
    exact fun h => h.2 rfl
  have hno : ∀ cb, (c, cb) ∉ (run (unsubscribe w c) acts).subscriptions := by
    intro cb hmem
    exact habs (List.mem_map.mpr ⟨(c, cb), hmem, rfl⟩)
  have hcall : ∀ call ∈ (handleMessage B (run (unsubscribe w c) acts).subscriptions data).calls,
      (call.payload.id, call.callback) ∈ (run (unsubscribe w c) acts).subscriptions ∧
        call.payload.id ≠ c := by
    intro call h
    have hm := mem_handleMessage B _ data call h
    refine ⟨hm, fun hid => ?_⟩
    rw [hid] at hm
    exact hno _ hm
  exact ⟨hno, hcall, fun call h => (hcall call h).2⟩

/-- C3 at a concrete input: `bitcoin` and `ethereum` are subscribed and the socket is open;
after `unsubscribe("bitcoin")`, a re-subscription of `ethereum` and a batch frame with a
`BTCUSDT` ticker, only the `ethereum` callback is invoked. -/
theorem C3_unsubscribe_race_witness :
    (handleMessage sampleBuiltins
        (run (unsubscribe (run (World.init Nat)
            [Action.subscribe "bitcoin" 1 false, Action.subscribe "ethereum" 2 false,
              Action.openEvent 0]) "bitcoin")
          [Action.subscribe "ethereum" 3 false]).subscriptions
        (JSVal.arr [JSVal.obj [("s", JSVal.str "BTCUSDT"), ("c", JSVal.str "50000")],
          JSVal.obj [("s", JSVal.str "ETHUSDT"), ("c", JSVal.str "3000")]])).calls
      = [⟨3, ⟨"ethereum", "ETH", some 3000, some 0⟩⟩] ∧
    ∀ call ∈ (handleMessage sampleBuiltins
        (run (unsubscribe (run (World.init Nat)
            [Action.subscribe "bitcoin" 1 false, Action.subscribe "ethereum" 2 false,
              Action.openEvent 0]) "bitcoin")
          [Action.subscribe "ethereum" 3 false]).subscriptions
        (JSVal.arr [JSVal.obj [("s", JSVal.str "BTCUSDT"), ("c", JSVal.str "50000")],
          JSVal.obj [("s", JSVal.str "ETHUSDT"), ("c", JSVal.str "3000")]])).calls,
      call.payload.id ≠ "bitcoin" :=
  ⟨by decide,
    fun call h =>
      ((C3_unsubscribe_race sampleBuiltins
        (run (World.init Nat)
          [Action.subscribe "bitcoin" 1 false, Action.subscribe "ethereum" 2 false,
            Action.openEvent 0]) "bitcoin" [Action.subscribe "ethereum" 3 false]
        (by intro a ha cb t; simp at ha; subst ha; simp)
        (JSVal.arr [JSVal.obj [("s", JSVal.str "BTCUSDT"), ("c", JSVal.str "50000")],
          JSVal.obj [("s", JSVal.str "ETHUSDT"), ("c", JSVal.str "3000")]])).2.1 call h).2⟩

end Claims

section StringLemmas

/-- The pattern of `baseSymbol` as a list of characters. -/
theorem usdt_data : "USDT".data = ['U', 'S', 'D', 'T'] := rfl

theorem replaceFirst_usdt_unique (s m : List Char)
    (hs : ['U', 'S', 'D', 'T'] <:+ s)
    (hr : replaceFirst ['U', 'S', 'D', 'T'] [] s = m)
    (hm : ¬ ['U', 'S', 'D', 'T'] <:+ m) : s = m ++ ['U', 'S', 'D', 'T'] := by
  induction s generalizing m with
  | nil => simp at hs
  | cons c cs ih =>
    unfold replaceFirst at hr
    split at hr
    · rename_i hpre
      obtain ⟨t, ht⟩ := hpre
      simp only [List.nil_append, List.length_cons, List.length_nil] at hr
      rw [← ht] at hr hs ⊢
      simp only [List.cons_append, List.nil_append, List.drop_succ_cons, List.drop_zero,
        zero_add] at hr
      subst hr
      -- `USDT ++ t` ends with `USDT` and `t` does not
      by_cases hlen : 4 ≤ t.length
      · exfalso
        apply hm
        exact List.suffix_of_suffix_length_le hs (List.suffix_append _ _) (by simpa using hlen)
      · obtain ⟨u, hu⟩ := hs
        have hul : u.length = t.length := by
          have := congrArg List.length hu
          simp at this
          omega
        match t, u, hlen, hu, hul with
        | [], _, _, _, _ => simp
        | [a], [x], _, hu, _ => simp at hu
        | [a, b], [x, y], _, hu, _ => simp at hu
        | [a, b, d], [x, y, z], _, hu, _ => simp at hu
        | _ :: _ :: _ :: _ :: _, _, hlen, _, _ => simp at hlen
    · rename_i hpre
      rw [List.suffix_cons_iff] at hs
      rcases hs with hs | hs
      · exact absurd (hs ▸ List.prefix_refl _) hpre
      · match m, hr with
        | d :: m1, hr =>
          simp only [List.cons.injEq] at hr
          obtain ⟨rfl, hr⟩ := hr
          have := ih m1 hs hr (fun h => hm (List.suffix_cons_iff.mpr (Or.inr h)))
          rw [this]; simp

end StringLemmas

section RoutingLemmas

variable {κ ν : Type}

theorem baseSymbol_unique (s m : String) (hs : ∃ b : String, s = b ++ "USDT")
    (hb : baseSymbol s = m) (hm : ¬ "USDT".data <:+ m.data) : s = m ++ "USDT" := by
  obtain ⟨b, rfl⟩ := hs
  have h1 : replaceFirst ['U', 'S', 'D', 'T'] [] (b.data ++ ['U', 'S', 'D', 'T']) = m.data := by
    have := congrArg String.data hb
    simpa [baseSymbol, jsReplace, String.data_append, usdt_data] using this
  have h2 := replaceFirst_usdt_unique _ _ (List.suffix_append _ _) h1 (by simpa [usdt_data] using hm)
  apply String.ext
  simpa [String.data_append, usdt_data] using h2

theorem mem_of_lookup_eq_some {β : Type} (l : List (String × β)) (k : String) (v : β)
    (h : l.lookup k = some v) : (k, v) ∈ l := by
  induction l with
  | nil => simp at h
  | cons e rest ih =>
    obtain ⟨k0, v0⟩ := e
    rw [List.lookup_cons] at h
    by_cases hk : k = k0
    · subst hk
      simp at h
      subst h
      exact List.mem_cons_self _ _
    · have : (k == k0) = false := by simpa using hk
      rw [this] at h
      exact List.mem_cons_of_mem _ (ih h)

/-- A symbol returned by the mapper is a value of the table. -/
theorem coinIdToSymbol_mem_table (B : Builtins ν) (c m : String)
    (h : coinIdToSymbol B c = SymbolResult.symbol m) : (B.toLowerCase c, m) ∈ symbolMap := by
  unfold coinIdToSymbol at h
  dsimp only at h
  split at h
  · rename_i s hs
    split at h
    · simp at h
    · simp only [SymbolResult.symbol.injEq] at h
      subst h
      exact mem_of_lookup_eq_some _ _ _ hs
  · split at h <;> simp at h

theorem table_base_of_pair : ∀ e ∈ symbolMap, baseSymbol (e.2 ++ "USDT") = e.2 := by
  decide

theorem table_symbol_not_usdt_suffix : ∀ e ∈ symbolMap, ¬ "USDT".data <:+ e.2.data := by
  decide

/-- For a symbol `m` of the table and a ticker symbol `s` that ends in `USDT`, the base
symbol of `s` is `m` exactly when `s` is `m` followed by `USDT`. -/
theorem baseSymbol_eq_table_iff (B : Builtins ν) (c m s : String)
    (hc : coinIdToSymbol B c = SymbolResult.symbol m) (hs : ∃ b : String, s = b ++ "USDT") :
    baseSymbol s = m ↔ s = m ++ "USDT" := by
  have hmem := coinIdToSymbol_mem_table B c m hc
  constructor
  · intro hb
    exact baseSymbol_unique s m hs hb (table_symbol_not_usdt_suffix _ hmem)
  · intro h
    rw [h]
    exact table_base_of_pair _ hmem

end RoutingLemmas

section DispatchLemmas

variable {κ ν : Type}

theorem dispatch_nil (B : Builtins ν) (base : String) (p q : ν) :
    dispatch B ([] : Registry κ) base p q = [] := rfl

theorem dispatch_cons (B : Builtins ν) (e : String × κ) (rest : Registry κ) (base : String)
    (p q : ν) :
    dispatch B (e :: rest) base p q =
      (match coinIdToSymbol B e.1 with
        | SymbolResult.symbol expected =>
          if base = expected then [(⟨e.2, ⟨e.1, expected, p, q⟩⟩ : Call κ ν)] else []
        | _ => []) ++ dispatch B rest base p q := by
  unfold dispatch
  rw [List.filterMap_cons]
  split
  · rename_i h
    split at h
    · split at h
      · simp at h
      · rename_i hne; simp [hne]
    · simp
  · rename_i b h
    split at h
    · split at h
      · rename_i hb; simp at h; subst h; simp [hb]
      · simp at h
    · simp at h

theorem dispatch_filter_absent (B : Builtins ν) (reg : Registry κ) (c base : String) (p q : ν)
    (hc : c ∉ mapKeys reg) :
    (dispatch B reg base p q).filter (fun call => decide (call.payload.id = c)) = [] := by
  rw [List.filter_eq_nil_iff]
  intro call hcall
  have := (mem_dispatch B reg base p q call hcall).1
  simp only [decide_eq_true_eq]
  intro hid
  exact hc (List.mem_map.mpr ⟨_, this, hid⟩)

/-- Among the calls of one subscription scan, the entry of `c` is called once when the
base symbol is its mapped symbol, and not at all otherwise. -/
theorem dispatch_filter_id (B : Builtins ν) (reg : Registry κ) (hnd : (mapKeys reg).Nodup)
    (c : String) (cb : κ) (m : String) (hmem : (c, cb) ∈ reg)
    (hc : coinIdToSymbol B c = SymbolResult.symbol m) (base : String) (p q : ν) :
    (dispatch B reg base p q).filter (fun call => decide (call.payload.id = c)) =
      if base = m then [⟨cb, ⟨c, m, p, q⟩⟩] else [] := by
  induction reg with
  | nil => simp at hmem
  | cons e rest ih =>
    simp only [mapKeys, List.map_cons, List.nodup_cons] at hnd
    rw [dispatch_cons, List.filter_append]
    rcases List.mem_cons.mp hmem with h | h
    · subst h
      rw [dispatch_filter_absent B rest c base p q hnd.1]
      simp only [hc]
      split <;> simp
    · have hne : e.1 ≠ c := by
        intro he
        apply hnd.1
        rw [he]
        exact List.mem_map.mpr ⟨_, h, rfl⟩
      rw [ih hnd.2 h]
      have : (match coinIdToSymbol B e.1 with
          | SymbolResult.symbol expected =>
            if base = expected then [(⟨e.2, ⟨e.1, expected, p, q⟩⟩ : Call κ ν)] else []
          | _ => []).filter (fun (call : Call κ ν) => decide (call.payload.id = c)) = [] := by
        rw [List.filter_eq_nil_iff]
        intro call hcall
        split at hcall
        · split at hcall
          · simp at hcall; subst hcall; simpa using hne
          · simp at hcall
        · simp at hcall
      rw [this, List.nil_append]

theorem dispatch_eq_nil (B : Builtins ν) (reg : Registry κ) (base : String) (p q : ν)
    (h : ∀ e ∈ reg, coinIdToSymbol B e.1 ≠ SymbolResult.symbol base) :
    dispatch B reg base p q = [] := by
  rw [List.eq_nil_iff_forall_not_mem]
  intro call hcall
  obtain ⟨hmem, hsym, -⟩ := mem_dispatch B reg base p q call hcall
  exact h _ hmem hsym

/-- A ticker whose symbol is a non-empty string is dispatched without an exception. -/
theorem handleTicker_str (B : Builtins ν) (reg : Registry κ) (t : JSVal) (s : String)
    (hs : prop t "s" = JSVal.str s) (hne : s ≠ "") :
    handleTicker B reg t =
      ⟨dispatch B reg (baseSymbol s) (B.parseFloat (orZero (prop t "c")))
        (B.parseFloat (orZero (prop t "P"))), false⟩ := by
  have ht : truthy t = true := by
    cases t <;> simp [prop] at hs
    rfl
  have h2 : truthy (JSVal.str s) = true := by simp [truthy, hne]
  unfold handleTicker
  rw [hs]
  simp only [ht, h2]
  simp

theorem forEachTicker_calls (B : Builtins ν) (reg : Registry κ) (ts : List JSVal)
    (h : ∀ t ∈ ts, (handleTicker B reg t).threw = false) :
    (forEachTicker B reg ts).threw = false ∧
      (forEachTicker B reg ts).calls = ts.flatMap fun t => (handleTicker B reg t).calls := by
  induction ts with
  | nil => simp [forEachTicker]
  | cons t rest ih =>
    have h1 := h t (List.mem_cons_self _ _)
    have h2 := ih (fun u hu => h u (List.mem_cons_of_mem _ hu))
    simp [forEachTicker, h1, h2.1, h2.2]

end DispatchLemmas

section RoutingBatch

variable {κ ν : Type}

theorem usdt_suffix_ne_empty (s : String) (h : ∃ b : String, s = b ++ "USDT") : s ≠ "" := by
  obtain ⟨b, rfl⟩ := h
  intro h
  have := congrArg String.length h
  simp [String.length_append] at this
  have h4 : "USDT".length = 4 := by decide
  omega

/-- The calls one ticker with a symbol ending in `USDT` makes to the entry of `c`. -/
theorem handleTicker_filter_id (B : Builtins ν) (reg : Registry κ)
    (hreg : (mapKeys reg).Nodup) (c : String) (cb : κ) (m : String) (hmem : (c, cb) ∈ reg)
    (hc : coinIdToSymbol B c = SymbolResult.symbol m) (t : JSVal) (s : String)
    (hs : prop t "s" = JSVal.str s) (hu : ∃ b : String, s = b ++ "USDT") :
    (handleTicker B reg t).calls.filter (fun call => decide (call.payload.id = c)) =
      if s = m ++ "USDT" then
        [⟨cb, ⟨c, m, B.parseFloat (orZero (prop t "c")), B.parseFloat (orZero (prop t "P"))⟩⟩]
      else [] := by
  rw [handleTicker_str B reg t s hs (usdt_suffix_ne_empty s hu)]
  simp only []
  rw [dispatch_filter_id B reg hreg c cb m hmem hc]
  have := baseSymbol_eq_table_iff B c m s hc hu
  by_cases h : s = m ++ "USDT"
  · rw [if_pos h, if_pos (this.mpr h)]
  · rw [if_neg h, if_neg (fun hb => h (this.mp hb))]

theorem batch_filter_id (B : Builtins ν) (reg : Registry κ) (hreg : (mapKeys reg).Nodup)
    (c : String) (cb : κ) (m : String) (hmem : (c, cb) ∈ reg)
    (hc : coinIdToSymbol B c = SymbolResult.symbol m) (tickers : List JSVal)
    (syms : List String)
    (hsyms : tickers.map (fun t => prop t "s") = syms.map JSVal.str)
    (hdistinct : syms.Nodup) (husdt : ∀ s ∈ syms, ∃ b : String, s = b ++ "USDT") :
    ((m ++ "USDT") ∉ syms →
      (tickers.flatMap fun t => (handleTicker B reg t).calls).filter
        (fun call => decide (call.payload.id = c)) = []) ∧
    (∀ t ∈ tickers, prop t "s" = JSVal.str (m ++ "USDT") →
      (tickers.flatMap fun t => (handleTicker B reg t).calls).filter
        (fun call => decide (call.payload.id = c)) =
        [⟨cb, ⟨c, m, B.parseFloat (orZero (prop t "c")),
          B.parseFloat (orZero (prop t "P"))⟩⟩]) := by
  induction tickers generalizing syms with
  | nil => simp
  | cons t rest ih =>
    match syms, hsyms, hdistinct, husdt with
    | [], hsyms, _, _ => simp at hsyms
    | s :: srest, hsyms, hdistinct, husdt =>
      simp only [List.map_cons, List.cons.injEq] at hsyms
      obtain ⟨hs, hrest⟩ := hsyms
      rw [List.nodup_cons] at hdistinct
      have ihr := ih srest hrest hdistinct.2 (fun x hx => husdt x (List.mem_cons_of_mem _ hx))
      have hhead := handleTicker_filter_id B reg hreg c cb m hmem hc t s hs
        (husdt s (List.mem_cons_self _ _))
      simp only [List.flatMap_cons, List.filter_append, hhead]
      constructor
      · intro hnot
        rw [List.mem_cons, not_or] at hnot
        rw [if_neg (fun h => hnot.1 h.symm), ihr.1 hnot.2]
        rfl
      · intro t0 ht0 hsym0
        rcases List.mem_cons.mp ht0 with h | h
        · subst h
          rw [hs] at hsym0
          simp only [JSVal.str.injEq] at hsym0
          subst hsym0
          rw [if_pos rfl, ihr.1 hdistinct.1]
          rfl
        · have hin : (m ++ "USDT") ∈ srest := by
            have : JSVal.str (m ++ "USDT") ∈ rest.map (fun t => prop t "s") :=
              List.mem_map.mpr ⟨t0, h, hsym0⟩
            rw [hrest] at this
            obtain ⟨x, hx, hxe⟩ := List.mem_map.mp this
            simp only [JSVal.str.injEq] at hxe
            rw [← hxe]; exact hx
          have hne : s ≠ m ++ "USDT" := fun h => hdistinct.1 (h ▸ hin)
          rw [if_neg hne, ihr.2 t0 h hsym0]
          rfl

end RoutingBatch

section ClaimC2

variable {κ ν : Type}

/-- C2 (tick routing): for a batch frame whose ticker symbols are pairwise distinct strings
ending in `USDT` and any registry (a `Map`, so with distinct keys), `handleMessage` ends
without an exception, its calls are those of the tickers in frame order, each subscribed
`coinId` whose mapped symbol followed by `USDT` is in the batch has its callback invoked
exactly once, with `id = coinId` and the parsed last price and percent change of that
ticker, and a ticker whose base symbol is the mapped symbol of no subscribed coin invokes
no callback. -/
theorem C2_tick_routing (B : Builtins ν) (reg : Registry κ) (hreg : (mapKeys reg).Nodup)
    (tickers : List JSVal) (syms : List String)
    (hsyms : tickers.map (fun t => prop t "s") = syms.map JSVal.str)
    (hdistinct : syms.Nodup) (husdt : ∀ s ∈ syms, ∃ b : String, s = b ++ "USDT") :
    (handleMessage B reg (JSVal.arr tickers)).threw = false ∧
      (handleMessage B reg (JSVal.arr tickers)).calls =
        (tickers.flatMap fun t => (handleTicker B reg t).calls) ∧
      (∀ c cb m t, (c, cb) ∈ reg → coinIdToSymbol B c = SymbolResult.symbol m →
        t ∈ tickers → prop t "s" = JSVal.str (m ++ "USDT") →
        (handleMessage B reg (JSVal.arr tickers)).calls.filter
            (fun call => decide (call.payload.id = c)) =
          [⟨cb, ⟨c, m, B.parseFloat (orZero (prop t "c")),
            B.parseFloat (orZero (prop t "P"))⟩⟩]) ∧
      (∀ t ∈ tickers, ∀ s, prop t "s" = JSVal.str s →
        (∀ e ∈ reg, coinIdToSymbol B e.1 ≠ SymbolResult.symbol (baseSymbol s)) →
        (handleTicker B reg t).calls = []) := by
  have hthrow : ∀ t ∈ tickers, (handleTicker B reg t).threw = false := by
    intro t ht
    have : prop t "s" ∈ tickers.map (fun t => prop t "s") := List.mem_map.mpr ⟨t, ht, rfl⟩
    rw [hsyms] at this
    obtain ⟨s, hs, hse⟩ := List.mem_map.mp this
    rw [handleTicker_str B reg t s hse.symm (usdt_suffix_ne_empty s (husdt s hs))]
  have hfe := forEachTicker_calls B reg tickers hthrow
  have hcalls : (handleMessage B reg (JSVal.arr tickers)).calls =
      (tickers.flatMap fun t => (handleTicker B reg t).calls) := by
    simp only [handleMessage]; exact hfe.2
  refine ⟨by simp only [handleMessage]; exact hfe.1, hcalls, ?_, ?_⟩
  · intro c cb m t hmem hc ht hs
    rw [hcalls]
    exact (batch_filter_id B reg hreg c cb m hmem hc tickers syms hsyms hdistinct husdt).2 t ht hs
  · intro t ht s hs hno
    have : prop t "s" ∈ tickers.map (fun t => prop t "s") := List.mem_map.mpr ⟨t, ht, rfl⟩
    rw [hsyms] at this
    obtain ⟨s0, hs0, hse⟩ := List.mem_map.mp this
    rw [hs] at hse
    simp only [JSVal.str.injEq] at hse
    subst hse
    rw [handleTicker_str B reg t s0 hs (usdt_suffix_ne_empty s0 (husdt s0 hs0))]
    exact dispatch_eq_nil B reg _ _ _ hno

/-- C2 at the input of the specification: the batch `BTCUSDT: 50000`, `ETHUSDT: 3000`,
`DOGEUSDT: 7` with `bitcoin` and `ethereum` subscribed. -/
theorem C2_tick_routing_witness :
    (handleMessage sampleBuiltins sampleRegistry sampleFrame).calls =
        [⟨1, ⟨"bitcoin", "BTC", some 50000, some 2⟩⟩,
          ⟨2, ⟨"ethereum", "ETH", some 3000, some 1⟩⟩] ∧
      (handleMessage sampleBuiltins sampleRegistry sampleFrame).calls.filter
          (fun call => decide (call.payload.id = "bitcoin")) =
        [⟨1, ⟨"bitcoin", "BTC", some 50000, some 2⟩⟩] ∧
      (handleMessage sampleBuiltins sampleRegistry sampleFrame).calls.filter
          (fun call => decide (call.payload.id = "ethereum")) =
        [⟨2, ⟨"ethereum", "ETH", some 3000, some 1⟩⟩] ∧
      (handleTicker sampleBuiltins sampleRegistry dogeTicker).calls = [] :=
  have h := C2_tick_routing sampleBuiltins sampleRegistry (by decide)
    [btcTicker, ethTicker, dogeTicker] ["BTCUSDT", "ETHUSDT", "DOGEUSDT"] rfl (by decide)
    (by
      intro s hs
      simp only [List.mem_cons, List.mem_singleton, List.not_mem_nil, or_false] at hs
      rcases hs with rfl | rfl | rfl
      · exact ⟨"BTC", by decide⟩
      · exact ⟨"ETH", by decide⟩
      · exact ⟨"DOGE", by decide⟩)
  ⟨by decide,
    h.2.2.1 "bitcoin" 1 "BTC" btcTicker (by decide) (by decide) (by simp) rfl,
    h.2.2.1 "ethereum" 2 "ETH" ethTicker (by decide) (by decide) (by simp) rfl,
    h.2.2.2 dogeTicker (by simp) "DOGEUSDT" rfl (by decide)⟩

end ClaimC2

section ScheduleLemmas

variable {κ : Type}

theorem reconnect_attempts_lt (w : World κ) (h : w.reconnectAttempts < maxReconnectAttempts) :
    (reconnect w).reconnectAttempts = w.reconnectAttempts + 1 ∧
      (reconnect w).timers =
        w.timers ++ [⟨reconnectDelay * (w.reconnectAttempts + 1), false⟩] ∧
      (reconnect w).sockets = w.sockets ∧ (reconnect w).ws = w.ws ∧
      (reconnect w).isConnecting = w.isConnecting := by
  unfold reconnect
  rw [if_neg (by omega)]
  exact ⟨rfl, rfl, rfl, rfl, rfl⟩

theorem reconnect_attempts_ge (w : World κ) (h : maxReconnectAttempts ≤ w.reconnectAttempts) :
    reconnect w = w := by
  unfold reconnect
  rw [if_pos h]

theorem connect_no_throw_attempts (w : World κ) :
    (connect w false).reconnectAttempts = w.reconnectAttempts ∧
      (connect w false).timers = w.timers := by
  unfold connect
  split
  · exact ⟨rfl, rfl⟩
  · simp

theorem unsubscribe_attempts (w : World κ) (c : String) :
    (unsubscribe w c).reconnectAttempts = w.reconnectAttempts ∧
      (unsubscribe w c).timers = w.timers ∧
      (unsubscribe w c).isConnecting = w.isConnecting := by
  unfold unsubscribe
  dsimp only
  split
  · split <;> exact ⟨rfl, rfl, rfl⟩
  · exact ⟨rfl, rfl, rfl⟩

theorem disconnect_attempts (w : World κ) :
    (disconnect w).reconnectAttempts = w.reconnectAttempts ∧
      (disconnect w).timers = w.timers := by
  unfold disconnect
  dsimp only
  split <;> exact ⟨rfl, rfl⟩

/-- A calm action leaves the attempt counter alone and schedules no timer. -/
theorem step_calm (w : World κ) (a : Action κ) (ha : a.calm = true) :
    (step w a).reconnectAttempts = w.reconnectAttempts ∧
      (step w a).timers.length = w.timers.length := by
  cases a with
  | subscribe c cb t =>
    simp only [Action.calm, Bool.not_eq_true'] at ha
    subst ha
    simp only [step, subscribe]
    split
    · have := connect_no_throw_attempts
        ({ w with subscriptions := mapSet w.subscriptions c cb } : World κ)
      exact ⟨this.1, by rw [this.2]⟩
    · exact ⟨rfl, rfl⟩
  | unsubscribe c =>
    have := unsubscribe_attempts w c
    exact ⟨this.1, by simp only [step]; rw [this.2.1]⟩
  | connect t =>
    simp only [Action.calm, Bool.not_eq_true'] at ha
    subst ha
    have := connect_no_throw_attempts w
    exact ⟨this.1, by simp only [step]; rw [this.2]⟩
  | disconnect =>
    have := disconnect_attempts w
    exact ⟨this.1, by simp only [step]; rw [this.2]⟩
  | reconnect => simp [Action.calm] at ha
  | timeout i t =>
    simp only [Action.calm, Bool.not_eq_true'] at ha
    subst ha
    simp only [step]
    split
    · rename_i d hd
      have := connect_no_throw_attempts
        ({ w with timers := w.timers.set i ⟨d, true⟩ } : World κ)
      exact ⟨this.1, by rw [this.2]; simp⟩
    · exact ⟨rfl, rfl⟩
  | openEvent i => simp [Action.calm] at ha
  | messageEvent i d => exact ⟨rfl, rfl⟩
  | errorEvent i =>
    simp only [step]
    split <;> exact ⟨rfl, rfl⟩
  | closeEvent i => simp [Action.calm] at ha

theorem run_cons (w : World κ) (a : Action κ) (rest : List (Action κ)) :
    run w (a :: rest) = run (step w a) rest := rfl

theorem run_nil (w : World κ) : run w [] = w := rfl

theorem run_append (w : World κ) (xs ys : List (Action κ)) :
    run w (xs ++ ys) = run (run w xs) ys := by
  simp [run, List.foldl_append]

/-- A close event on a socket that is not closed yet runs `onclose`. -/
theorem step_close_enabled (w : World κ) (i : Nat) (h : closeEnabled w i = true) :
    step w (Action.closeEvent i) =
      onclose { w with sockets := w.sockets.set i ReadyState.CLOSED } := by
  unfold closeEnabled at h
  simp only [step]
  split at h
  · simp at h
  · rfl
  · simp at h

theorem step_close_disabled (w : World κ) (i : Nat) (h : closeEnabled w i = false) :
    step w (Action.closeEvent i) = w := by
  unfold closeEnabled at h
  simp only [step]
  split at h
  · rfl
  · simp at h
  · rfl

theorem onclose_attempts_lt (w : World κ) (h : w.reconnectAttempts < maxReconnectAttempts) :
    (onclose w).reconnectAttempts = w.reconnectAttempts + 1 ∧
      (onclose w).timers =
        w.timers ++ [⟨reconnectDelay * (w.reconnectAttempts + 1), false⟩] ∧
      (onclose w).isConnecting = false := by
  have := reconnect_attempts_lt ({ w with isConnecting := false } : World κ) h
  exact ⟨this.1, this.2.1, this.2.2.2.2⟩

theorem onclose_attempts_ge (w : World κ) (h : maxReconnectAttempts ≤ w.reconnectAttempts) :
    (onclose w).reconnectAttempts = w.reconnectAttempts ∧ (onclose w).timers = w.timers ∧
      (onclose w).isConnecting = false := by
  unfold onclose
  rw [reconnect_attempts_ge ({ w with isConnecting := false } : World κ) h]
  exact ⟨rfl, rfl, rfl⟩

/-- Through calm actions and close events the counter counts the close events, up to the
maximum. -/
theorem run_attempts_closeCount (acts : List (Action κ)) (w : World κ)
    (hacts : ∀ a ∈ acts, a.calm = true ∨ a.isClose = true)
    (hle : w.reconnectAttempts ≤ maxReconnectAttempts) :
    (run w acts).reconnectAttempts =
      min (w.reconnectAttempts + closeCount w acts) maxReconnectAttempts := by
  induction acts generalizing w with
  | nil => simp [run, closeCount, hle]
  | cons a rest ih =>
    have hrest : ∀ b ∈ rest, b.calm = true ∨ b.isClose = true :=
      fun b hb => hacts b (List.mem_cons_of_mem _ hb)
    rw [run_cons]
    rcases hacts a (List.mem_cons_self _ _) with hcalm | hclose
    · have hs := (step_calm w a hcalm).1
      rw [ih (step w a) hrest (by rw [hs]; exact hle), hs]
      have : closeCount w (a :: rest) = closeCount (step w a) rest := by
        cases a <;> simp [closeCount, Action.calm] at hcalm ⊢
      rw [this]
    · cases a with
      | closeEvent i =>
        by_cases hen : closeEnabled w i = true
        · have hstep := step_close_enabled w i hen
          have hcc : closeCount w (Action.closeEvent i :: rest) =
              1 + closeCount (step w (Action.closeEvent i)) rest := by
            simp [closeCount, hen]
          by_cases hlt : w.reconnectAttempts < maxReconnectAttempts
          · have h1 : (step w (Action.closeEvent i)).reconnectAttempts =
                w.reconnectAttempts + 1 := by
              rw [hstep]
              exact (onclose_attempts_lt
                ({ w with sockets := w.sockets.set i ReadyState.CLOSED } : World κ) hlt).1
            rw [ih _ hrest (by rw [h1]; omega), h1, hcc]
            congr 1; omega
          · have h1 : (step w (Action.closeEvent i)).reconnectAttempts =
                w.reconnectAttempts := by
              rw [hstep]
              exact (onclose_attempts_ge
                ({ w with sockets := w.sockets.set i ReadyState.CLOSED } : World κ)
                (by simp only []; omega)).1
            rw [ih _ hrest (by rw [h1]; exact hle), h1, hcc]
            omega
        · have hen2 : closeEnabled w i = false := by simpa using hen
          have hstep := step_close_disabled w i hen2
          have hcc : closeCount w (Action.closeEvent i :: rest) =
              closeCount (step w (Action.closeEvent i)) rest := by
            simp [closeCount, hen2]
          rw [ih _ hrest (by rw [hstep]; exact hle), hcc, hstep]
      | _ => simp [Action.isClose] at hclose

end ScheduleLemmas

section ClaimsC4C5

variable {κ : Type}

theorem run_calm_attempts (acts : List (Action κ)) (w : World κ)
    (hacts : ∀ a ∈ acts, a.calm = true) :
    (run w acts).reconnectAttempts = w.reconnectAttempts := by
  induction acts generalizing w with
  | nil => rfl
  | cons a rest ih =>
    rw [run_cons, ih (step w a) (fun b hb => hacts b (List.mem_cons_of_mem _ hb))]
    exact (step_calm w a (hacts a (List.mem_cons_self _ _))).1

theorem onclose_of_attempts (w : World κ) (n : Nat) (hn : w.reconnectAttempts = n)
    (hlt : n < maxReconnectAttempts) :
    (onclose w).reconnectAttempts = n + 1 ∧
      (onclose w).timers = w.timers ++ [⟨reconnectDelay * (n + 1), false⟩] := by
  subst hn
  have := onclose_attempts_lt w hlt
  exact ⟨this.1, this.2.1⟩

/-- C4 (linear backoff): start where the attempt counter is 0 and let any calm actions and
close events follow, with no open event, no direct `reconnect()` call and no throwing
constructor among them. If `k - 1` close events have occurred and `k` is at most
`maxReconnectAttempts`, the next close event (the `k`-th) sets the counter to `k` and
schedules one timer, whose delay is `reconnectDelay * k = 3000 * k`: the product is taken
with the counter already incremented. -/
theorem C4_linear_backoff (w : World κ) (acts : List (Action κ)) (i k : Nat)
    (h0 : w.reconnectAttempts = 0)
    (hacts : ∀ a ∈ acts, a.calm = true ∨ a.isClose = true)
    (hk : closeCount w acts + 1 = k) (hk5 : k ≤ maxReconnectAttempts)
    (hen : closeEnabled (run w acts) i = true) :
    (step (run w acts) (Action.closeEvent i)).reconnectAttempts = k ∧
      (step (run w acts) (Action.closeEvent i)).timers =
        (run w acts).timers ++ [⟨reconnectDelay * k, false⟩] ∧
      reconnectDelay * k = 3000 * k ∧
      reconnectDelay * k =
        reconnectDelay * (step (run w acts) (Action.closeEvent i)).reconnectAttempts := by
  have hrun := run_attempts_closeCount acts w hacts (by rw [h0]; exact Nat.zero_le _)
  rw [h0, Nat.zero_add] at hrun
  have hatt : (run w acts).reconnectAttempts = k - 1 := by
    rw [hrun]; omega
  have hk1 : k - 1 + 1 = k := by omega
  rw [step_close_enabled _ i hen]
  have h := onclose_of_attempts
    ({ run w acts with sockets := (run w acts).sockets.set i ReadyState.CLOSED } : World κ)
    (k - 1) hatt (by omega)
  rw [hk1] at h
  exact ⟨h.1, h.2, rfl, by rw [h.1]⟩

/-- C4 at a concrete input: a subscription opens a socket, which closes; each timer that
fires opens a new socket, which closes again. The third close sets the counter to 3 and
the timers scheduled so far have delays 3000, 6000 and 9000. -/
theorem C4_linear_backoff_witness :
    (step (run (World.init Nat)
        [Action.subscribe "bitcoin" 1 false, Action.closeEvent 0, Action.timeout 0 false,
          Action.closeEvent 1, Action.timeout 1 false]) (Action.closeEvent 2)).reconnectAttempts
      = 3 ∧
    (step (run (World.init Nat)
        [Action.subscribe "bitcoin" 1 false, Action.closeEvent 0, Action.timeout 0 false,
          Action.closeEvent 1, Action.timeout 1 false]) (Action.closeEvent 2)).timers
      = [⟨3000, true⟩, ⟨6000, true⟩, ⟨9000, false⟩] :=
  have h := C4_linear_backoff (World.init Nat)
    [Action.subscribe "bitcoin" 1 false, Action.closeEvent 0, Action.timeout 0 false,
      Action.closeEvent 1, Action.timeout 1 false] 2 3 rfl
    (by
      intro a ha
      simp only [List.mem_cons, List.mem_singleton, List.not_mem_nil, or_false] at ha
      rcases ha with rfl | rfl | rfl | rfl | rfl <;> simp [Action.calm, Action.isClose])
    (by decide) (by decide) (by decide)
  ⟨h.1, h.2.1.trans (by decide)⟩

/-- C5 (a successful open resets the backoff): whatever the attempt counter was, the
`onopen` handler leaves `reconnectAttempts = 0` and `isConnecting = false`, and so does the
open event of a connecting socket; after any calm actions that follow, the next close
event sets the counter to 1 and schedules its timer with delay 3000. -/
theorem C5_open_resets_backoff (w : World κ) (i : Nat)
    (hi : w.sockets[i]? = some ReadyState.CONNECTING) (acts : List (Action κ))
    (hacts : ∀ a ∈ acts, a.calm = true) (j : Nat)
    (hen : closeEnabled (run (step w (Action.openEvent i)) acts) j = true) :
    (onopen w).reconnectAttempts = 0 ∧ (onopen w).isConnecting = false ∧
      (step w (Action.openEvent i)).reconnectAttempts = 0 ∧
      (step w (Action.openEvent i)).isConnecting = false ∧
      (step (run (step w (Action.openEvent i)) acts) (Action.closeEvent j)).reconnectAttempts
        = 1 ∧
      (step (run (step w (Action.openEvent i)) acts) (Action.closeEvent j)).timers =
        (run (step w (Action.openEvent i)) acts).timers ++ [⟨3000, false⟩] := by
  have hstep : step w (Action.openEvent i) =
      onopen { w with sockets := w.sockets.set i ReadyState.OPEN } := by
    simp only [step]; rw [if_pos hi]
  have h0 : (step w (Action.openEvent i)).reconnectAttempts = 0 := by rw [hstep]; rfl
  have hatt := run_calm_attempts acts (step w (Action.openEvent i)) hacts
  rw [h0] at hatt
  refine ⟨rfl, rfl, h0, by rw [hstep]; rfl, ?_, ?_⟩
  · rw [step_close_enabled _ j hen]
    exact (onclose_of_attempts
      ({ run (step w (Action.openEvent i)) acts with
          sockets := (run (step w (Action.openEvent i)) acts).sockets.set j
            ReadyState.CLOSED } : World κ) 0 hatt (by decide)).1
  · rw [step_close_enabled _ j hen]
    exact (onclose_of_attempts
      ({ run (step w (Action.openEvent i)) acts with
          sockets := (run (step w (Action.openEvent i)) acts).sockets.set j
            ReadyState.CLOSED } : World κ) 0 hatt (by decide)).2

/-- C5 at a concrete input: two failed attempts (counter 2), then the third socket opens, a
frame arrives and a second coin is subscribed; the close that follows schedules 3000 again. -/
theorem C5_open_resets_backoff_witness :
    (run (World.init Nat)
        [Action.subscribe "bitcoin" 1 false, Action.closeEvent 0, Action.timeout 0 false,
          Action.closeEvent 1, Action.timeout 1 false]).reconnectAttempts = 2 ∧
    (step (run (World.init Nat)
        [Action.subscribe "bitcoin" 1 false, Action.closeEvent 0, Action.timeout 0 false,
          Action.closeEvent 1, Action.timeout 1 false]) (Action.openEvent 2)).reconnectAttempts
      = 0 ∧
    (step (run (step (run (World.init Nat)
        [Action.subscribe "bitcoin" 1 false, Action.closeEvent 0, Action.timeout 0 false,
          Action.closeEvent 1, Action.timeout 1 false]) (Action.openEvent 2))
        [Action.messageEvent 2 (some sampleFrame), Action.subscribe "ethereum" 2 false])
        (Action.closeEvent 2)).timers
      = [⟨3000, true⟩, ⟨6000, true⟩, ⟨3000, false⟩] :=
  have h := C5_open_resets_backoff (run (World.init Nat)
      [Action.subscribe "bitcoin" 1 false, Action.closeEvent 0, Action.timeout 0 false,
        Action.closeEvent 1, Action.timeout 1 false]) 2 (by decide)
    [Action.messageEvent 2 (some sampleFrame), Action.subscribe "ethereum" 2 false]
    (by
      intro a ha
      simp only [List.mem_cons, List.mem_singleton, List.not_mem_nil, or_false] at ha
      rcases ha with rfl | rfl <;> rfl)
    2 (by decide)
  ⟨by decide, h.2.2.1, h.2.2.2.2.2.trans (by decide)⟩

end ClaimsC4C5

section BoundLemmas

variable {κ : Type}

theorem reconnect_potential (w : World κ) :
    schedulePotential (reconnect w) = schedulePotential w := by
  unfold reconnect schedulePotential
  split
  · rfl
  · simp only [List.length_append, List.length_singleton]
    omega

theorem connect_potential (w : World κ) (t : Bool) :
    schedulePotential (connect w t) = schedulePotential w := by
  unfold connect
  split
  · rfl
  · split
    · rw [reconnect_potential]; rfl
    · rfl

/-- Every action other than an open event keeps the sum of the timers scheduled and the
attempts left. -/
theorem step_potential (w : World κ) (a : Action κ) (ha : a.isOpen = false) :
    schedulePotential (step w a) = schedulePotential w := by
  cases a with
  | subscribe c cb t =>
    simp only [step, subscribe]
    split
    · rw [connect_potential]; rfl
    · rfl
  | unsubscribe c =>
    have := unsubscribe_attempts w c
    simp only [step, schedulePotential, this.1, this.2.1]
  | connect t => exact connect_potential w t
  | disconnect =>
    have := disconnect_attempts w
    simp only [step, schedulePotential, this.1, this.2]
  | reconnect => exact reconnect_potential w
  | timeout i t =>
    simp only [step]
    split
    · rw [connect_potential]; simp [schedulePotential]
    · rfl
  | openEvent i => simp [Action.isOpen] at ha
  | messageEvent i d => rfl
  | errorEvent i =>
    simp only [step]
    split <;> rfl
  | closeEvent i =>
    simp only [step]
    split
    · rfl
    · unfold onclose; rw [reconnect_potential]; rfl
    · rfl

theorem run_potential (acts : List (Action κ)) (w : World κ)
    (hacts : ∀ a ∈ acts, a.isOpen = false) :
    schedulePotential (run w acts) = schedulePotential w := by
  induction acts generalizing w with
  | nil => rfl
  | cons a rest ih =>
    rw [run_cons, ih (step w a) (fun b hb => hacts b (List.mem_cons_of_mem _ hb))]
    exact step_potential w a (hacts a (List.mem_cons_self _ _))

theorem mem_modify_closeState (l : List ReadyState) (n : Nat) (x : ReadyState)
    (h : x ∈ l.modify closeState n) : x ∈ l ∨ ∃ y ∈ l, x = closeState y := by
  induction l generalizing n with
  | nil => simp at h
  | cons a rest ih =>
    cases n with
    | zero =>
      rw [List.modify_zero_cons] at h
      rcases List.mem_cons.mp h with h | h
      · exact Or.inr ⟨a, List.mem_cons_self _ _, h⟩
      · exact Or.inl (List.mem_cons_of_mem _ h)
    | succ n =>
      rw [List.modify_succ_cons] at h
      rcases List.mem_cons.mp h with h | h
      · exact Or.inl (h ▸ List.mem_cons_self _ _)
      · rcases ih n h with h | ⟨y, hy, hxy⟩
        · exact Or.inl (List.mem_cons_of_mem _ h)
        · exact Or.inr ⟨y, List.mem_cons_of_mem _ hy, hxy⟩

theorem closed_after_modify (l : List ReadyState) (n : Nat)
    (h : ∀ s ∈ l, s = ReadyState.CLOSING ∨ s = ReadyState.CLOSED) :
    ∀ s ∈ l.modify closeState n, s = ReadyState.CLOSING ∨ s = ReadyState.CLOSED := by
  intro s hs
  rcases mem_modify_closeState l n s hs with h1 | ⟨y, hy, rfl⟩
  · exact h s h1
  · rcases h y hy with rfl | rfl
    · exact Or.inl rfl
    · exact Or.inr rfl

theorem closed_after_set (l : List ReadyState) (n : Nat)
    (h : ∀ s ∈ l, s = ReadyState.CLOSING ∨ s = ReadyState.CLOSED) :
    ∀ s ∈ l.set n ReadyState.CLOSED, s = ReadyState.CLOSING ∨ s = ReadyState.CLOSED := by
  intro s hs
  rcases List.mem_or_eq_of_mem_set hs with h1 | h1
  · exact h s h1
  · exact Or.inr h1

theorem mem_of_getElem?_eq_some {α : Type} (l : List α) (i : Nat) (a : α)
    (h : l[i]? = some a) : a ∈ l :=
  List.mem_iff_getElem?.mpr ⟨i, h⟩

theorem exhausted_not_open (w : World κ) (hw : exhausted w) :
    wsIsOpen w = false ∧ openOrConnecting w = false := by
  obtain ⟨-, -, -, hs⟩ := hw
  unfold wsIsOpen openOrConnecting
  cases hws : w.ws with
  | none => exact ⟨rfl, rfl⟩
  | some i =>
    simp only [decide_eq_false_iff_not, not_or]
    have : ∀ s, w.sockets[i]? = some s → s = ReadyState.CLOSING ∨ s = ReadyState.CLOSED :=
      fun s h => hs s (mem_of_getElem?_eq_some _ _ _ h)
    refine ⟨fun h => ?_, fun h => ?_, fun h => ?_⟩ <;>
      · rcases this _ h with h1 | h1 <;> simp at h1

/-- In an exhausted state, an action that is neither `subscribe` nor `connect` creates no
socket, schedules no timer and leaves the state exhausted. -/
theorem step_exhausted (w : World κ) (a : Action κ) (ha : a.asksConnection = false)
    (hw : exhausted w) :
    exhausted (step w a) ∧ (step w a).timers = w.timers ∧
      (step w a).sockets.length = w.sockets.length := by
  obtain ⟨h1, h2, h3, h4⟩ := hw
  cases a with
  | subscribe c cb t => simp [Action.asksConnection] at ha
  | connect t => simp [Action.asksConnection] at ha
  | unsubscribe c =>
    simp only [step, unsubscribe]
    split
    · split
      · exact ⟨⟨h1, h2, h3, closed_after_modify _ _ h4⟩, rfl, by simp⟩
      · exact ⟨⟨h1, h2, h3, h4⟩, rfl, rfl⟩
    · exact ⟨⟨h1, h2, h3, h4⟩, rfl, rfl⟩
  | disconnect =>
    simp only [step, disconnect]
    split
    · exact ⟨⟨h1, rfl, h3, closed_after_modify _ _ h4⟩, rfl, by simp⟩
    · exact ⟨⟨h1, rfl, h3, h4⟩, rfl, rfl⟩
  | reconnect =>
    simp only [step]
    rw [reconnect_attempts_ge w h1]
    exact ⟨⟨h1, h2, h3, h4⟩, rfl, rfl⟩
  | timeout i t =>
    simp only [step]
    split
    · rename_i d hd
      have := h3 _ (mem_of_getElem?_eq_some _ _ _ hd)
      simp at this
    · exact ⟨⟨h1, h2, h3, h4⟩, rfl, rfl⟩
  | openEvent i =>
    simp only [step]
    split
    · rename_i hc
      rcases h4 _ (mem_of_getElem?_eq_some _ _ _ hc) with h | h <;> exact absurd h (by decide)
    · exact ⟨⟨h1, h2, h3, h4⟩, rfl, rfl⟩
  | messageEvent i d => exact ⟨⟨h1, h2, h3, h4⟩, rfl, rfl⟩
  | errorEvent i =>
    simp only [step]
    split
    · exact ⟨⟨h1, h2, h3, h4⟩, rfl, rfl⟩
    · exact ⟨⟨h1, rfl, h3, h4⟩, rfl, rfl⟩
    · exact ⟨⟨h1, h2, h3, h4⟩, rfl, rfl⟩
  | closeEvent i =>
    simp only [step]
    split
    · exact ⟨⟨h1, h2, h3, h4⟩, rfl, rfl⟩
    · unfold onclose
      rw [reconnect_attempts_ge
        ({ w with sockets := w.sockets.set i ReadyState.CLOSED, isConnecting := false } :
          World κ) h1]
      exact ⟨⟨h1, rfl, h3, closed_after_set _ _ h4⟩, rfl, by simp⟩
    · exact ⟨⟨h1, h2, h3, h4⟩, rfl, rfl⟩

theorem run_exhausted (acts : List (Action κ)) (w : World κ)
    (hacts : ∀ a ∈ acts, a.asksConnection = false) (hw : exhausted w) :
    exhausted (run w acts) ∧ (run w acts).timers = w.timers ∧
      (run w acts).sockets.length = w.sockets.length := by
  induction acts generalizing w with
  | nil => exact ⟨hw, rfl, rfl⟩
  | cons a rest ih =>
    have hs := step_exhausted w a (hacts a (List.mem_cons_self _ _)) hw
    have hr := ih (step w a) (fun b hb => hacts b (List.mem_cons_of_mem _ hb)) hs.1
    rw [run_cons]
    exact ⟨hr.1, hr.2.1.trans hs.2.1, hr.2.2.trans hs.2.2⟩

/-- A `subscribe` in an exhausted state opens a new socket and keeps the counter. -/
theorem subscribe_exhausted (w : World κ) (c : String) (cb : κ) (hw : exhausted w) :
    openOrConnecting (subscribe w c cb false) = true ∧
      (subscribe w c cb false).sockets = w.sockets ++ [ReadyState.CONNECTING] ∧
      (subscribe w c cb false).reconnectAttempts = w.reconnectAttempts ∧
      (subscribe w c cb false).timers = w.timers := by
  have hno := (exhausted_not_open w hw).1
  have hno1 : wsIsOpen ({ w with subscriptions := mapSet w.subscriptions c cb } : World κ)
      = false := hno
  have hno2 : ∀ (s : Registry κ) (b : Bool),
      wsIsOpen ({ w with subscriptions := s, isConnecting := b } : World κ) = false :=
    fun _ _ => hno
  obtain ⟨-, h2, -, -⟩ := hw
  have hsub : subscribe w c cb false =
      { w with
        subscriptions := mapSet w.subscriptions c cb
        isConnecting := true
        ws := some w.sockets.length
        sockets := w.sockets ++ [ReadyState.CONNECTING] } := by
    unfold subscribe
    simp only [hno1, Bool.not_false, Bool.or_true, if_true]
    unfold connect
    simp only [h2, hno2, Bool.or_false, Bool.false_eq_true, if_false]
  rw [hsub]
  refine ⟨?_, rfl, rfl, rfl⟩
  simp [openOrConnecting]

end BoundLemmas

section ClaimsC9C10

variable {κ : Type}

/-- C9 (teardown is an expected close), evaluated where it fails: `bitcoin` is subscribed and
the socket opens; `unsubscribe("bitcoin")` empties the registry, closes the socket and
clears `ws`. The close event of that socket still runs `onclose`, which calls
`reconnect()`: the counter becomes 1 and a timer of 3000 ms is scheduled; when it fires,
`connect()` opens a second socket although the registry is empty. -/
theorem C9_teardown_close_triggers_reconnect :
    (run (World.init Nat)
        [Action.subscribe "bitcoin" 1 false, Action.openEvent 0,
          Action.unsubscribe "bitcoin"]).reconnectAttempts = 0 ∧
    (run (World.init Nat)
        [Action.subscribe "bitcoin" 1 false, Action.openEvent 0,
          Action.unsubscribe "bitcoin"]).timers = [] ∧
    (run (World.init Nat)
        [Action.subscribe "bitcoin" 1 false, Action.openEvent 0,
          Action.unsubscribe "bitcoin"]).sockets = [ReadyState.CLOSING] ∧
    (run (World.init Nat)
        [Action.subscribe "bitcoin" 1 false, Action.openEvent 0,
          Action.unsubscribe "bitcoin", Action.closeEvent 0]).reconnectAttempts = 1 ∧
    (run (World.init Nat)
        [Action.subscribe "bitcoin" 1 false, Action.openEvent 0,
          Action.unsubscribe "bitcoin", Action.closeEvent 0]).timers = [⟨3000, false⟩] ∧
    (run (World.init Nat)
        [Action.subscribe "bitcoin" 1 false, Action.openEvent 0,
          Action.unsubscribe "bitcoin", Action.closeEvent 0,
          Action.timeout 0 false]).subscriptions = [] ∧
    (run (World.init Nat)
        [Action.subscribe "bitcoin" 1 false, Action.openEvent 0,
          Action.unsubscribe "bitcoin", Action.closeEvent 0,
          Action.timeout 0 false]).sockets = [ReadyState.CLOSED, ReadyState.CONNECTING] ∧
    openOrConnecting (run (World.init Nat)
        [Action.subscribe "bitcoin" 1 false, Action.openEvent 0,
          Action.unsubscribe "bitcoin", Action.closeEvent 0,
          Action.timeout 0 false]) = true := by
  decide

/-- C10 (reconnection is bounded). (1) With `reconnectAttempts` at or above
`maxReconnectAttempts`, a close event (and the handler `onclose` itself) schedules no timer
and leaves the counter as it is. (2) From a state with counter 0, any actions without an
open event schedule at most `maxReconnectAttempts` timers in all. (3) Once the attempts
are used up and nothing is pending, no action other than `subscribe` or `connect` creates
a socket or a timer, and the manager holds no open or connecting socket. (4) A `subscribe`
in such a state opens a new socket, the counter unchanged. -/
theorem C10_reconnection_bounded (w1 : World κ) (i : Nat)
    (h1 : maxReconnectAttempts ≤ w1.reconnectAttempts)
    (w2 : World κ) (acts2 : List (Action κ)) (h2 : w2.reconnectAttempts = 0)
    (hacts2 : ∀ a ∈ acts2, a.isOpen = false)
    (w3 : World κ) (acts3 : List (Action κ)) (h3 : exhausted w3)
    (hacts3 : ∀ a ∈ acts3, a.asksConnection = false) (c : String) (cb : κ) :
    ((step w1 (Action.closeEvent i)).timers = w1.timers ∧
        (step w1 (Action.closeEvent i)).reconnectAttempts = w1.reconnectAttempts ∧
        (onclose w1).timers = w1.timers ∧
        (onclose w1).reconnectAttempts = w1.reconnectAttempts) ∧
      (run w2 acts2).timers.length ≤ w2.timers.length + maxReconnectAttempts ∧
      (exhausted (run w3 acts3) ∧ openOrConnecting (run w3 acts3) = false ∧
        (run w3 acts3).timers = w3.timers ∧
        (run w3 acts3).sockets.length = w3.sockets.length) ∧
      (openOrConnecting (subscribe (run w3 acts3) c cb false) = true ∧
        (subscribe (run w3 acts3) c cb false).sockets =
          (run w3 acts3).sockets ++ [ReadyState.CONNECTING] ∧
        (subscribe (run w3 acts3) c cb false).reconnectAttempts =
          (run w3 acts3).reconnectAttempts) := by
  refine ⟨?_, ?_, ?_, ?_⟩
  · have hoc := onclose_attempts_ge w1 h1
    refine ⟨?_, ?_, hoc.2.1, hoc.1⟩
    · by_cases hen : closeEnabled w1 i = true
      · rw [step_close_enabled w1 i hen]
        exact (onclose_attempts_ge
          ({ w1 with sockets := w1.sockets.set i ReadyState.CLOSED } : World κ) h1).2.1
      · rw [step_close_disabled w1 i (by simpa using hen)]
    · by_cases hen : closeEnabled w1 i = true
      · rw [step_close_enabled w1 i hen]
        exact (onclose_attempts_ge
          ({ w1 with sockets := w1.sockets.set i ReadyState.CLOSED } : World κ) h1).1
      · rw [step_close_disabled w1 i (by simpa using hen)]
  · have hp := run_potential acts2 w2 hacts2
    unfold schedulePotential at hp
    rw [h2] at hp
    omega
  · have hr := run_exhausted acts3 w3 hacts3 h3
    exact ⟨hr.1, (exhausted_not_open _ hr.1).2, hr.2.1, hr.2.2⟩
  · have hr := run_exhausted acts3 w3 hacts3 h3
    have hs := subscribe_exhausted (run w3 acts3) c cb hr.1
    exact ⟨hs.1, hs.2.1, hs.2.2.1⟩

/-- C10 at a concrete input: a socket that fails six times in a row. The sixth close
schedules nothing; five timers exist in all; afterwards an unsubscribe, a late close event
and an error event leave the manager without a live socket; a new subscription opens the
seventh socket with the counter still at 5. -/
theorem C10_reconnection_bounded_witness :
    (run (World.init Nat) exhaustingTrace).reconnectAttempts = 5 ∧
      (step (run (World.init Nat) exhaustingTrace) (Action.closeEvent 5)).timers =
        (run (World.init Nat) exhaustingTrace).timers ∧
      (run (World.init Nat) exhaustingTrace).timers.length ≤ 0 + 5 ∧
      openOrConnecting (run (run (World.init Nat) exhaustingTrace)
        [Action.unsubscribe "bitcoin", Action.closeEvent 5, Action.errorEvent 2]) = false ∧
      (subscribe (run (run (World.init Nat) exhaustingTrace)
        [Action.unsubscribe "bitcoin", Action.closeEvent 5, Action.errorEvent 2])
        "ethereum" 2 false).sockets.length = 7 ∧
      (subscribe (run (run (World.init Nat) exhaustingTrace)
        [Action.unsubscribe "bitcoin", Action.closeEvent 5, Action.errorEvent 2])
        "ethereum" 2 false).reconnectAttempts = 5 :=
  have h := C10_reconnection_bounded (run (World.init Nat) exhaustingTrace) 5 (by decide)
    (World.init Nat) exhaustingTrace rfl (by decide)
    (run (World.init Nat) exhaustingTrace)
    [Action.unsubscribe "bitcoin", Action.closeEvent 5, Action.errorEvent 2] (by decide)
    (by decide) "ethereum" 2
  ⟨by decide, h.1.1, h.2.1, h.2.2.1.2.1, by rw [h.2.2.2.2.1]; decide,
    h.2.2.2.2.2.trans (by decide)⟩

end ClaimsC9C10

section ClaimC8

variable {ν : Type}

theorem lookup_eq_none_of_not_mem {β : Type} (l : List (String × β)) (k : String)
    (h : k ∉ l.map Prod.fst) : l.lookup k = none := by
  induction l with
  | nil => rfl
  | cons e rest ih =>
    obtain ⟨k0, v0⟩ := e
    simp only [List.map_cons, List.mem_cons, not_or] at h
    rw [List.lookup_cons]
    have : (k == k0) = false := by simpa using h.1
    rw [this]
    exact ih h.2

theorem table_lookup_of_pair : ∀ e ∈ symbolMap, symbolMap.lookup e.1 = some e.2 := by
  decide

theorem table_symbol_ne_empty : ∀ e ∈ symbolMap, e.2 ≠ "" := by
  decide

/-- C8 as stated fails: `"Bitcoin"` is not a key of the table, and the mapper returns the
symbol `BTC` for it, because the argument is lower-cased before the lookup. -/
theorem C8_not_a_key_yet_mapped :
    "Bitcoin" ∉ symbolMap.map Prod.fst ∧
      coinIdToSymbol sampleBuiltins "Bitcoin" = SymbolResult.symbol "BTC" := by
  decide

/-- C8 (mapping totality), amended: when `toLowerCase` leaves the keys of the table as they
are, the mapper returns for every key of the table the non-empty feed symbol of that key;
for every string whose lower-cased form is neither a key of the table nor a property name
of `Object.prototype` it returns `null`; and the result is a function of the lower-cased
argument alone. -/
theorem C8_mapping_totality (B : Builtins ν)
    (hlow : ∀ e ∈ symbolMap, B.toLowerCase e.1 = e.1) :
    (∀ e ∈ symbolMap, coinIdToSymbol B e.1 = SymbolResult.symbol e.2 ∧ e.2 ≠ "") ∧
      (∀ c : String, B.toLowerCase c ∉ symbolMap.map Prod.fst →
        B.toLowerCase c ∉ objectPrototypeKeys → coinIdToSymbol B c = SymbolResult.null) ∧
      (∀ c d : String, B.toLowerCase c = B.toLowerCase d →
        coinIdToSymbol B c = coinIdToSymbol B d) := by
  refine ⟨?_, ?_, ?_⟩
  · intro e he
    have hne := table_symbol_ne_empty e he
    refine ⟨?_, hne⟩
    unfold coinIdToSymbol
    simp only [hlow e he, table_lookup_of_pair e he, if_neg hne]
  · intro c hk hp
    unfold coinIdToSymbol
    simp only [lookup_eq_none_of_not_mem symbolMap _ hk, if_neg hp]
  · intro c d h
    unfold coinIdToSymbol
    simp only [h]

/-- C8 at concrete inputs: `bitcoin` gives `BTC`, `unknown-coin` gives `null`, and
`BITCOIN` gives what `bitcoin` gives. -/
theorem C8_mapping_totality_witness :
    coinIdToSymbol sampleBuiltins "bitcoin" = SymbolResult.symbol "BTC" ∧
      coinIdToSymbol sampleBuiltins "unknown-coin" = SymbolResult.null ∧
      coinIdToSymbol sampleBuiltins "BITCOIN" = coinIdToSymbol sampleBuiltins "bitcoin" :=
  have h := C8_mapping_totality sampleBuiltins (by decide)
  ⟨(h.1 ("bitcoin", "BTC") (by decide)).1, h.2.1 "unknown-coin" (by decide) (by decide),
    h.2.2 "BITCOIN" "bitcoin" (by decide)⟩

end ClaimC8

section ClaimC6

variable {ν : Type}

theorem priceHook_runCleanup_price (s : World Closure × PriceHook ν) :
    (PriceHook.runCleanup s).2.price = s.2.price := by
  unfold PriceHook.runCleanup
  split <;> rfl

theorem priceHook_runEffect_enabled (owner : Nat) (s : World Closure × PriceHook ν)
    (coinId : String) (hc : coinId ≠ "") (ip : Option ν) (t : Bool) :
    (PriceHook.runEffect owner s coinId ip true t).2.price =
        (if ip.isSome then ip else s.2.price) ∧
      (PriceHook.runEffect owner s coinId ip true t).2.deps = some (coinId, true, ip) ∧
      (PriceHook.runEffect owner s coinId ip true t).2.cleanup = some coinId := by
  unfold PriceHook.runEffect
  simp [hc]

variable [DecidableEq ν]

/-- A REST refresh that changes `initialPrice` resets the price to it. -/
theorem priceHook_rest_changed (owner : Nat) (coinId : String) (hc : coinId ≠ "")
    (s : World Closure × PriceHook ν) (cur : Option ν) (p : ν) (t : Bool)
    (hdeps : s.2.deps = some (coinId, true, cur)) (hchg : cur ≠ some p) :
    (PriceHook.event owner coinId s (BinderEvent.rest p t)).2.price = some p ∧
      (PriceHook.event owner coinId s (BinderEvent.rest p t)).2.deps =
        some (coinId, true, some p) ∧
      (PriceHook.event owner coinId s (BinderEvent.rest p t)).2.cleanup = some coinId := by
  have hne : ¬ (coinId, true, cur) = (coinId, true, some p) := by
    intro h
    simp only [Prod.mk.injEq, true_and] at h
    exact hchg h
  have he := priceHook_runEffect_enabled owner (PriceHook.runCleanup s) coinId hc (some p) t
  simp only [PriceHook.event, PriceHook.render, hdeps, if_neg hne]
  exact ⟨by rw [he.1]; rfl, he.2.1, he.2.2⟩

/-- A REST refresh that repeats the previous `initialPrice` changes nothing. -/
theorem priceHook_rest_unchanged (owner : Nat) (coinId : String)
    (s : World Closure × PriceHook ν) (p : ν) (t : Bool)
    (hdeps : s.2.deps = some (coinId, true, some p)) :
    PriceHook.event owner coinId s (BinderEvent.rest p t) = s := by
  simp only [PriceHook.event, PriceHook.render, hdeps, if_true]

/-- A tick for the bound coin overwrites the price. -/
theorem priceHook_tick (owner : Nat) (coinId : String) (s : World Closure × PriceHook ν)
    (data : Update ν) (hcl : s.2.cleanup = some coinId) (hid : data.payload.id = coinId) :
    (PriceHook.event owner coinId s (BinderEvent.tick data)).2.price =
        some data.payload.current_price ∧
      (PriceHook.event owner coinId s (BinderEvent.tick data)).2.deps = s.2.deps ∧
      (PriceHook.event owner coinId s (BinderEvent.tick data)).2.cleanup = s.2.cleanup := by
  refine ⟨?_, ?_, ?_⟩ <;> simp [PriceHook.event, hcl, PriceHook.callback, hid]

theorem priceHook_fold_price (owner : Nat) (coinId : String) (hc : coinId ≠ "")
    (evs : List (BinderEvent ν)) (s : World Closure × PriceHook ν) (cur : Option ν)
    (hdeps : s.2.deps = some (coinId, true, cur)) (hcl : s.2.cleanup = some coinId)
    (hne : evs ≠ []) (hchg : List.Chain (fun a b => a ≠ b) cur (restPrices evs))
    (hticks : ∀ data, BinderEvent.tick data ∈ evs → data.payload.id = coinId) :
    (evs.foldl (PriceHook.event owner coinId) s).2.price = lastPrice evs := by
  induction evs generalizing s cur with
  | nil => exact absurd rfl hne
  | cons e rest ih =>
    have hstep : ∃ cur2,
        (PriceHook.event owner coinId s e).2.price = some e.price ∧
        (PriceHook.event owner coinId s e).2.deps = some (coinId, true, cur2) ∧
        (PriceHook.event owner coinId s e).2.cleanup = some coinId ∧
        List.Chain (fun a b => a ≠ b) cur2 (restPrices rest) := by
      cases e with
      | rest p t =>
        simp only [restPrices, List.chain_cons] at hchg
        have h := priceHook_rest_changed owner coinId hc s cur p t hdeps hchg.1
        exact ⟨some p, h.1, h.2.1, h.2.2, hchg.2⟩
      | tick data =>
        simp only [restPrices] at hchg
        have h := priceHook_tick owner coinId s data hcl
          (hticks data (List.mem_cons_self _ _))
        exact ⟨cur, h.1, h.2.1.trans hdeps, h.2.2.trans hcl, hchg⟩
    obtain ⟨cur2, hp, hd, hcl2, hch2⟩ := hstep
    rw [List.foldl_cons]
    cases rest with
    | nil => simpa [lastPrice] using hp
    | cons e2 rest2 =>
      rw [ih (PriceHook.event owner coinId s e) cur2 hd hcl2 (List.cons_ne_nil _ _) hch2
        (fun data hm => hticks data (List.mem_cons_of_mem _ hm))]
      rfl

/-- C6 as stated fails: after REST 100, a tick of 105 and a second REST refresh that again
delivers 100, the exposed price is still 105, while the last event carries 100: the effect
does not run again when `initialPrice` is unchanged. -/
theorem C6_repeated_rest_price_keeps_tick :
    (PriceHook.runEvents 0 "bitcoin" none false
        [BinderEvent.rest 100 false, sampleTick "bitcoin" 105,
          BinderEvent.rest 100 false]).2.price = some 105 ∧
      lastPrice [BinderEvent.rest 100 false, sampleTick "bitcoin" 105,
          BinderEvent.rest 100 false] = some 100 := by
  decide

/-- C6 (merge precedence), amended: for an enabled binder bound to a non-empty `coinId`
and every non-empty sequence of REST refreshes and ticks for that coin in which each REST
refresh delivers an `initialPrice` different from the previous one, the exposed price is
the price carried by the last event; and a REST refresh that repeats the previous
`initialPrice` leaves the binder as it is. -/
theorem C6_merge_last_writer (owner : Nat) (coinId : String) (hc : coinId ≠ "")
    (init : Option ν) (mountThrows : Bool) (evs : List (BinderEvent ν)) (hne : evs ≠ [])
    (hchg : List.Chain (fun a b => a ≠ b) init (restPrices evs))
    (hticks : ∀ data, BinderEvent.tick data ∈ evs → data.payload.id = coinId) :
    (PriceHook.runEvents owner coinId init mountThrows evs).2.price = lastPrice evs ∧
      (∀ (s : World Closure × PriceHook ν) (p : ν) (t : Bool),
        s.2.deps = some (coinId, true, some p) →
        PriceHook.event owner coinId s (BinderEvent.rest p t) = s) := by
  refine ⟨?_, fun s p t h => priceHook_rest_unchanged owner coinId s p t h⟩
  unfold PriceHook.runEvents
  have he := priceHook_runEffect_enabled owner
    (World.init Closure, { PriceHook.unmounted ν with price := init }) coinId hc init
    mountThrows
  apply priceHook_fold_price owner coinId hc evs _ init _ _ hne hchg hticks
  · simp only [PriceHook.render, PriceHook.unmounted]
    exact he.2.1
  · simp only [PriceHook.render, PriceHook.unmounted]
    exact he.2.2

end ClaimC6

/-- C6 at the input of the specification: REST 100, tick 105, REST 98 gives 98, and a
following tick of 110 gives 110. -/
theorem C6_merge_last_writer_witness :
    (PriceHook.runEvents 0 "bitcoin" none false
        [BinderEvent.rest 100 false, sampleTick "bitcoin" 105,
          BinderEvent.rest 98 false]).2.price = some 98 ∧
      (PriceHook.runEvents 0 "bitcoin" none false
        [BinderEvent.rest 100 false, sampleTick "bitcoin" 105, BinderEvent.rest 98 false,
          sampleTick "bitcoin" 110]).2.price = some 110 :=
  ⟨by decide,
    (C6_merge_last_writer 0 "bitcoin" (by decide) none false
      [BinderEvent.rest 100 false, sampleTick "bitcoin" 105, BinderEvent.rest 98 false,
        sampleTick "bitcoin" 110] (by simp) (by simp [restPrices, sampleTick])
      (by
        intro data h
        simp only [sampleTick, List.mem_cons, List.mem_singleton, BinderEvent.tick.injEq,
          List.not_mem_nil, or_false, false_or, reduceCtorEq] at h
        rcases h with rfl | rfl <;> rfl)).1⟩

section MultiBinderLemmas

theorem mapKeys_mapSet {κ : Type} (reg : Registry κ) (k : String) (v : κ) :
    mapKeys (mapSet reg k v) = if k ∈ mapKeys reg then mapKeys reg else mapKeys reg ++ [k] := by
  induction reg with
  | nil => simp [mapSet, mapKeys]
  | cons e rest ih =>
    obtain ⟨k0, v0⟩ := e
    unfold mapSet
    by_cases h : k0 = k
    · subst h; simp [mapKeys]
    · rw [if_neg h]
      simp only [mapKeys, List.map_cons, List.mem_cons] at ih ⊢
      rw [ih]
      have hk : ¬ k = k0 := fun h2 => h h2.symm
      by_cases hm : k ∈ List.map Prod.fst rest
      · simp [hm]
      · simp [hm, hk]

/-- The registry after `subscribe`, for any outcome of `connect()`. -/
theorem subscribeAll_subscriptions (owner : Nat) (t : Bool) (ids : List String)
    (s : World Closure × Registry Closure) :
    (subscribeAll owner t ids s).1.subscriptions =
        ids.foldl (fun r id => mapSet r id ⟨owner, id⟩) s.1.subscriptions ∧
      (subscribeAll owner t ids s).2 =
        ids.foldl (fun r id => mapSet r id ⟨owner, id⟩) s.2 := by
  induction ids generalizing s with
  | nil => exact ⟨rfl, rfl⟩
  | cons id rest ih =>
    have h := ih (subscribe s.1 id ⟨owner, id⟩ t, mapSet s.2 id ⟨owner, id⟩)
    simp only [subscribeAll, List.foldl_cons]
    rw [h.1, h.2, subscribe_subscriptions]
    exact ⟨rfl, rfl⟩

theorem foldl_mapSet_keys_length (owner : Nat) (ids : List String) (reg : Registry Closure) :
    (mapKeys (ids.foldl (fun r id => mapSet r id ⟨owner, id⟩) reg)).length ≤
      (mapKeys reg).length + ids.length := by
  induction ids generalizing reg with
  | nil => simp
  | cons id rest ih =>
    rw [List.foldl_cons]
    have h1 := ih (mapSet reg id ⟨owner, id⟩)
    have h2 : (mapKeys (mapSet reg id ⟨owner, id⟩)).length ≤ (mapKeys reg).length + 1 := by
      rw [mapKeys_mapSet]
      split <;> simp
    simp only [List.length_cons]
    omega

theorem foldl_mapSet_keys_nodup (owner : Nat) (ids : List String) (reg : Registry Closure)
    (hnd : ids.Nodup) (hdis : ∀ id ∈ ids, id ∉ mapKeys reg) :
    mapKeys (ids.foldl (fun r id => mapSet r id ⟨owner, id⟩) reg) = mapKeys reg ++ ids := by
  induction ids generalizing reg with
  | nil => simp
  | cons id rest ih =>
    rw [List.nodup_cons] at hnd
    rw [List.foldl_cons]
    have hk : mapKeys (mapSet reg id ⟨owner, id⟩) = mapKeys reg ++ [id] := by
      rw [mapKeys_mapSet, if_neg (hdis id (List.mem_cons_self _ _))]
    rw [ih (mapSet reg id ⟨owner, id⟩) hnd.2, hk]
    · simp
    · intro x hx
      rw [hk, List.mem_append, List.mem_singleton, not_or]
      exact ⟨hdis x (List.mem_cons_of_mem _ hx), fun h => hnd.1 (h ▸ hx)⟩

theorem unsubscribeAll_subscriptions (ks : List String) (w : World Closure) :
    (unsubscribeAll w ks).subscriptions = ks.foldl mapDelete w.subscriptions := by
  induction ks generalizing w with
  | nil => rfl
  | cons k rest ih =>
    simp only [unsubscribeAll, List.foldl_cons] at ih ⊢
    rw [ih (unsubscribe w k), unsubscribe_subscriptions]

theorem foldl_mapDelete_eq_filter {κ : Type} (ks : List String) (reg : Registry κ) :
    ks.foldl mapDelete reg = reg.filter (fun e => decide (e.1 ∉ ks)) := by
  induction ks generalizing reg with
  | nil => simp
  | cons k rest ih =>
    rw [List.foldl_cons, ih, mapDelete, List.filter_filter]
    congr 1
    funext e
    simp only [List.mem_cons, not_or, ne_eq, Bool.decide_and, decide_not]
    rw [Bool.and_comm]

theorem unsubscribeAll_own_keys (w : World Closure) :
    (unsubscribeAll w (mapKeys w.subscriptions)).subscriptions = [] := by
  rw [unsubscribeAll_subscriptions, foldl_mapDelete_eq_filter, List.filter_eq_nil_iff]
  intro e he
  simp only [decide_eq_true_eq, not_not]
  exact List.mem_map.mpr ⟨e, he, rfl⟩

end MultiBinderLemmas

section ClaimC7

variable {ν : Type}

theorem pricesHook_runEffect_empty (owner : Nat) (s : World Closure × PricesHook ν)
    (ids : List String) (ip : List (String × PriceEntry ν)) (en t : Bool)
    (h1 : s.1.subscriptions = []) (h2 : s.2.callbacksRef = []) :
    (PricesHook.runEffect owner s ids ip en t).1.subscriptions =
        (PricesHook.runEffect owner s ids ip en t).2.callbacksRef ∧
      ((PricesHook.runEffect owner s ids ip en t).2.cleanup = false →
        (PricesHook.runEffect owner s ids ip en t).2.callbacksRef = []) ∧
      (PricesHook.runEffect owner s ids ip en t).2.deps ≠ none ∧
      (mapKeys (PricesHook.runEffect owner s ids ip en t).1.subscriptions).length ≤
        ids.length ∧
      (en = true → ids ≠ [] → ids.Nodup →
        mapKeys (PricesHook.runEffect owner s ids ip en t).1.subscriptions = ids) := by
  unfold PricesHook.runEffect
  dsimp only
  split
  · rename_i hc
    refine ⟨h1.trans h2.symm, fun _ => h2, by simp, by simp [h1, mapKeys], ?_⟩
    intro hen hne _
    simp only [hen, Bool.not_true, Bool.false_or, decide_eq_true_eq] at hc
    exact absurd (List.length_eq_zero.mp hc) hne
  · have hs := subscribeAll_subscriptions owner t ids (s.1, s.2.callbacksRef)
    simp only [] at hs
    refine ⟨?_, by simp, by simp, ?_, ?_⟩
    · rw [hs.1, hs.2, h1, h2]
    · rw [hs.1, h1]
      simpa [mapKeys] using foldl_mapSet_keys_length owner ids []
    · intro _ _ hnd
      rw [hs.1, h1]
      simpa [mapKeys] using foldl_mapSet_keys_nodup owner ids [] hnd (by simp [mapKeys])

theorem pricesHook_runCleanup_empty (s : World Closure × PricesHook ν)
    (h1 : s.1.subscriptions = s.2.callbacksRef)
    (h2 : s.2.cleanup = false → s.2.callbacksRef = []) :
    (PricesHook.runCleanup s).1.subscriptions = [] ∧
      (PricesHook.runCleanup s).2.callbacksRef = [] := by
  unfold PricesHook.runCleanup
  split
  · refine ⟨?_, rfl⟩
    simp only []
    rw [← h1]
    exact unsubscribeAll_own_keys s.1
  · rename_i hc
    have := h2 (by simpa using hc)
    exact ⟨h1.trans this, this⟩

/-- One render keeps the registry equal to the map of the hook's own callbacks and its
size within the larger of the previous size and the length of the id list. -/
theorem pricesHook_render_inv (owner : Nat) (s : World Closure × PricesHook ν)
    (ids : List String) (ip : List (String × PriceEntry ν)) (en t : Bool) (n : Nat)
    (h1 : s.1.subscriptions = s.2.callbacksRef)
    (h2 : s.2.cleanup = false → s.2.callbacksRef = [])
    (h3 : s.2.deps = none → s.2.cleanup = false)
    (h4 : (mapKeys s.1.subscriptions).length ≤ n) (hn : ids.length ≤ n) :
    (PricesHook.render owner s ids ip en t).1.subscriptions =
        (PricesHook.render owner s ids ip en t).2.callbacksRef ∧
      ((PricesHook.render owner s ids ip en t).2.cleanup = false →
        (PricesHook.render owner s ids ip en t).2.callbacksRef = []) ∧
      ((PricesHook.render owner s ids ip en t).2.deps = none →
        (PricesHook.render owner s ids ip en t).2.cleanup = false) ∧
      (mapKeys (PricesHook.render owner s ids ip en t).1.subscriptions).length ≤ n := by
  unfold PricesHook.render
  split
  · rename_i hd
    have hcb := h2 (h3 hd)
    have he := pricesHook_runEffect_empty owner (s.1, { s.2 with prices := ip }) ids ip en t
      (h1.trans hcb) hcb
    exact ⟨he.1, he.2.1, fun h => absurd h he.2.2.1, le_trans he.2.2.2.1 hn⟩
  · split
    · rename_i d hd _
      exact ⟨h1, h2, fun h => by rw [hd] at h; simp at h, h4⟩
    · have hc := pricesHook_runCleanup_empty s h1 h2
      have he := pricesHook_runEffect_empty owner (PricesHook.runCleanup s) ids ip en t
        hc.1 hc.2
      exact ⟨he.1, he.2.1, fun h => absurd h he.2.2.1, le_trans he.2.2.2.1 hn⟩

theorem dashboardCoinIds_length (coins : List String) :
    (dashboardCoinIds coins).length ≤ 50 := by
  unfold dashboardCoinIds
  rw [List.length_take]
  exact Nat.min_le_left _ _

theorem dashboardRun_inv (owner : Nat) (renders : List (DashboardProps ν))
    (s : World Closure × PricesHook ν)
    (h1 : s.1.subscriptions = s.2.callbacksRef)
    (h2 : s.2.cleanup = false → s.2.callbacksRef = [])
    (h3 : s.2.deps = none → s.2.cleanup = false)
    (h4 : (mapKeys s.1.subscriptions).length ≤ 50) :
    (mapKeys (renders.foldl
      (fun s r => dashboardRender owner s r.coinIdsOfCoins r.initialPrices r.realtimeEnabled
        r.ctorThrows) s).1.subscriptions).length ≤ 50 := by
  induction renders generalizing s with
  | nil => exact h4
  | cons r rest ih =>
    rw [List.foldl_cons]
    have h := pricesHook_render_inv owner s (dashboardCoinIds r.coinIdsOfCoins)
      r.initialPrices r.realtimeEnabled r.ctorThrows 50 h1 h2 h3 h4
      (dashboardCoinIds_length _)
    exact ih _ h.1 h.2.1 h.2.2.1 h.2.2.2

set_option maxRecDepth 1000000 in
/-- C7 as stated fails: `useRealtimePrices` given sixty distinct ids subscribes all sixty;
the sixtieth id is registered although it is not among the first fifty. -/
theorem C7_hook_subscribes_sixty :
    (mapKeys (PricesHook.render 7 (World.init Closure, PricesHook.unmounted Nat) sixtyIds []
        true false).1.subscriptions).length = 60 ∧
      "coin60" ∈ mapKeys (PricesHook.render 7 (World.init Closure, PricesHook.unmounted Nat)
        sixtyIds [] true false).1.subscriptions ∧
      "coin60" ∉ sixtyIds.take 50 := by
  decide

/-- C7 (bounded multi-subscribe), amended: the cap is the `slice(0, 50)` of `Dashboard`,
not the hook. After any sequence of renders of a `Dashboard` whose binder is the only user
of the manager, at most 50 ids are registered; the first render with a non-empty list of
distinct coin ids registers exactly its first 50 ids; while that render subscribes them one
by one there are never more than 50; and `useRealtimePrices` itself, given the same list,
registers every id of it. -/
theorem C7_dashboard_bounded_subscribe (owner : Nat) (renders : List (DashboardProps ν))
    (coins : List String) (ip : List (String × PriceEntry ν)) (t : Bool)
    (hnodup : coins.Nodup) (hne : coins ≠ []) :
    (mapKeys (dashboardRun owner renders).1.subscriptions).length ≤ 50 ∧
      mapKeys (dashboardRender owner (World.init Closure, PricesHook.unmounted ν) coins ip
        true t).1.subscriptions = coins.take 50 ∧
      (∀ n : Nat, (mapKeys (subscribeAll owner t ((dashboardCoinIds coins).take n)
        (World.init Closure, [])).1.subscriptions).length ≤ 50) ∧
      mapKeys (PricesHook.render owner (World.init Closure, PricesHook.unmounted ν) coins ip
        true t).1.subscriptions = coins := by
  refine ⟨?_, ?_, ?_, ?_⟩
  · exact dashboardRun_inv owner renders _ rfl (fun _ => rfl) (fun _ => rfl) (by simp [World.init, mapKeys])
  · have hne2 : coins.take 50 ≠ [] := by
      cases coins with
      | nil => exact absurd rfl hne
      | cons c rest => simp
    have he := pricesHook_runEffect_empty owner
      (World.init Closure, { PricesHook.unmounted ν with prices := ip }) (coins.take 50) ip
      true t rfl rfl
    exact he.2.2.2.2 rfl hne2 (hnodup.sublist (List.take_sublist _ _))
  · intro n
    have hs := subscribeAll_subscriptions owner t ((dashboardCoinIds coins).take n)
      (World.init Closure, [])
    rw [hs.1]
    have hl := foldl_mapSet_keys_length owner ((dashboardCoinIds coins).take n)
      (World.init Closure).subscriptions
    have h50 := dashboardCoinIds_length coins
    have : ((dashboardCoinIds coins).take n).length ≤ 50 := by
      rw [List.length_take]; omega
    simp only [World.init, mapKeys, List.map_nil, List.length_nil, Nat.zero_add] at hl ⊢
    omega
  · have he := pricesHook_runEffect_empty owner
      (World.init Closure, { PricesHook.unmounted ν with prices := ip }) coins ip
      true t rfl rfl
    exact he.2.2.2.2 rfl hne hnodup

/-- C7 at the input of the specification: sixty coins are loaded and `Dashboard` renders
once; exactly the first fifty ids are registered. -/
theorem C7_dashboard_bounded_subscribe_witness :
    sixtyIds.length = 60 ∧
      mapKeys (dashboardRender 7 (World.init Closure, PricesHook.unmounted Nat) sixtyIds []
        true false).1.subscriptions = sixtyIds.take 50 ∧
      (mapKeys (dashboardRun 7
        [(⟨sixtyIds, [], true, false⟩ : DashboardProps Nat), ⟨sixtyIds.drop 30, [], true, false⟩,
          ⟨sixtyIds, [], false, false⟩]).1.subscriptions).length ≤ 50 :=
  have h := C7_dashboard_bounded_subscribe 7
    [(⟨sixtyIds, [], true, false⟩ : DashboardProps Nat), ⟨sixtyIds.drop 30, [], true, false⟩,
      ⟨sixtyIds, [], false, false⟩] sixtyIds [] false (by decide) (by decide)
  ⟨by decide, h.2.1, h.1⟩

end ClaimC7

section RegistryWellFormed

variable {κ : Type}

theorem mapSet_nodup (reg : Registry κ) (k : String) (v : κ) (h : (mapKeys reg).Nodup) :
    (mapKeys (mapSet reg k v)).Nodup := by
  rw [mapKeys_mapSet]
  split
  · exact h
  · rename_i hk
    rw [List.nodup_append]
    refine ⟨h, List.nodup_singleton _, ?_⟩
    intro a ha hb
    rw [List.mem_singleton] at hb
    exact hk (hb ▸ ha)

theorem mapDelete_nodup (reg : Registry κ) (k : String) (h : (mapKeys reg).Nodup) :
    (mapKeys (mapDelete reg k)).Nodup := by
  unfold mapDelete mapKeys at *
  exact (List.Nodup.sublist (List.Sublist.map _ (List.filter_sublist _)) h)

theorem step_nodup (w : World κ) (a : Action κ) (h : (mapKeys w.subscriptions).Nodup) :
    (mapKeys (step w a).subscriptions).Nodup := by
  cases a with
  | subscribe k cb t =>
    simp only [step, subscribe_subscriptions]; exact mapSet_nodup _ _ _ h
  | unsubscribe k =>
    simp only [step, unsubscribe_subscriptions]; exact mapDelete_nodup _ _ h
  | connect t => simpa [step] using h
  | disconnect => simp [step, mapKeys]
  | reconnect => simpa [step] using h
  | timeout i t =>
    simp only [step]
    split
    · simpa using h
    · exact h
  | openEvent i =>
    simp only [step]
    split
    · simpa [onopen] using h
    · exact h
  | messageEvent i d => simpa [step] using h
  | errorEvent i =>
    simp only [step]
    split
    · exact h
    · simpa [onerror] using h
    · exact h
  | closeEvent i =>
    simp only [step]
    split
    · exact h
    · simpa [onclose] using h
    · exact h

/-- Every registry the manager can reach has pairwise distinct keys. -/
theorem run_init_nodup (acts : List (Action κ)) :
    (mapKeys (run (World.init κ) acts).subscriptions).Nodup := by
  have : ∀ (w : World κ), (mapKeys w.subscriptions).Nodup →
      (mapKeys (run w acts).subscriptions).Nodup := by
    induction acts with
    | nil => exact fun w h => h
    | cons a rest ih => exact fun w h => ih (step w a) (step_nodup w a h)
  exact this _ (by simp [World.init, mapKeys])

end RegistryWellFormed

section ClaimC11

variable {κ : Type}

/-- With a constructor that succeeds, a second `connect()` right after a `connect()`
changes nothing: the first call either returned at the guard or set `isConnecting`. -/
theorem connect_twice (w : World κ) (t : Bool) :
    connect (connect w false) t = connect w false := by
  have hnoop : ∀ (v : World κ) (b : Bool),
      (v.isConnecting = true ∨ wsIsOpen v = true) → connect v b = v := by
    intro v b h
    unfold connect
    rw [if_pos (by simpa using h)]
  by_cases h : w.isConnecting = true ∨ wsIsOpen w = true
  · rw [hnoop w false h]
    exact hnoop w t h
  · apply hnoop
    left
    unfold connect
    rw [if_neg (by simpa using h)]
    simp

end ClaimC11

/-- C11 (`connect` is a no-op exactly when the connection is open or connecting), evaluated
where it fails. The guard of `connect()` tests the flag `isConnecting`, not the held socket.
First trace: `subscribe("bitcoin")`, open event, `unsubscribe("bitcoin")`,
`subscribe("ethereum")`, then the close event of the first socket, whose handler clears the
flag; the manager now holds socket 1, still CONNECTING, with `isConnecting` false, and
`connect()` creates socket 2 beside it and holds that one instead. Second trace:
`subscribe("bitcoin")`, `unsubscribe("bitcoin")`; the manager holds no socket, the only
socket is CLOSING, `isConnecting` is still set, and `connect()` creates nothing and changes
no field. -/
theorem C11_connect_guard_ignores_held_socket :
    ((run (World.init Nat)
        [Action.subscribe "bitcoin" 1 false, Action.openEvent 0,
          Action.unsubscribe "bitcoin", Action.subscribe "ethereum" 2 false,
          Action.closeEvent 0]).ws = some 1 ∧
      (run (World.init Nat)
        [Action.subscribe "bitcoin" 1 false, Action.openEvent 0,
          Action.unsubscribe "bitcoin", Action.subscribe "ethereum" 2 false,
          Action.closeEvent 0]).sockets = [ReadyState.CLOSED, ReadyState.CONNECTING] ∧
      (run (World.init Nat)
        [Action.subscribe "bitcoin" 1 false, Action.openEvent 0,
          Action.unsubscribe "bitcoin", Action.subscribe "ethereum" 2 false,
          Action.closeEvent 0]).isConnecting = false ∧
      openOrConnecting (run (World.init Nat)
        [Action.subscribe "bitcoin" 1 false, Action.openEvent 0,
          Action.unsubscribe "bitcoin", Action.subscribe "ethereum" 2 false,
          Action.closeEvent 0]) = true ∧
      (connect (run (World.init Nat)
        [Action.subscribe "bitcoin" 1 false, Action.openEvent 0,
          Action.unsubscribe "bitcoin", Action.subscribe "ethereum" 2 false,
          Action.closeEvent 0]) false).sockets =
        [ReadyState.CLOSED, ReadyState.CONNECTING, ReadyState.CONNECTING] ∧
      (connect (run (World.init Nat)
        [Action.subscribe "bitcoin" 1 false, Action.openEvent 0,
          Action.unsubscribe "bitcoin", Action.subscribe "ethereum" 2 false,
          Action.closeEvent 0]) false).ws = some 2 ∧
      (connect (run (World.init Nat)
        [Action.subscribe "bitcoin" 1 false, Action.openEvent 0,
          Action.unsubscribe "bitcoin", Action.subscribe "ethereum" 2 false,
          Action.closeEvent 0]) false).isConnecting = true) ∧
    ((run (World.init Nat)
        [Action.subscribe "bitcoin" 1 false, Action.unsubscribe "bitcoin"]).ws = none ∧
      (run (World.init Nat)
        [Action.subscribe "bitcoin" 1 false, Action.unsubscribe "bitcoin"]).sockets =
        [ReadyState.CLOSING] ∧
      (run (World.init Nat)
        [Action.subscribe "bitcoin" 1 false, Action.unsubscribe "bitcoin"]).isConnecting =
        true ∧
      openOrConnecting (run (World.init Nat)
        [Action.subscribe "bitcoin" 1 false, Action.unsubscribe "bitcoin"]) = false ∧
      (connect (run (World.init Nat)
        [Action.subscribe "bitcoin" 1 false, Action.unsubscribe "bitcoin"]) false).ws =
        none ∧
      (connect (run (World.init Nat)
        [Action.subscribe "bitcoin" 1 false, Action.unsubscribe "bitcoin"]) false).sockets =
        [ReadyState.CLOSING] ∧
      openOrConnecting (connect (run (World.init Nat)
        [Action.subscribe "bitcoin" 1 false, Action.unsubscribe "bitcoin"]) false) =
        false) := by
  decide

section ClaimC12

variable {κ ν : Type}

theorem mapSet_mapSet (reg : Registry κ) (c : String) (f g : κ) :
    mapSet (mapSet reg c f) c g = mapSet reg c g := by
  induction reg with
  | nil => simp [mapSet]
  | cons e rest ih =>
    obtain ⟨k0, v0⟩ := e
    by_cases h : k0 = c
    · simp [mapSet, h]
    · simp [mapSet, h, ih]

theorem mem_mapSet_self (reg : Registry κ) (c : String) (g : κ) :
    (c, g) ∈ mapSet reg c g := by
  induction reg with
  | nil => simp [mapSet]
  | cons e rest ih =>
    obtain ⟨k0, v0⟩ := e
    by_cases h : k0 = c
    · simp [mapSet, h]
    · simp only [mapSet, if_neg h]
      exact List.mem_cons_of_mem _ ih

/-- In a map with distinct keys, an entry after `set(c, g)` is the new entry or an old
entry under another key. -/
theorem mem_mapSet_cases (reg : Registry κ) (hnd : (mapKeys reg).Nodup) (c : String) (g : κ)
    (e : String × κ) (he : e ∈ mapSet reg c g) : e = (c, g) ∨ (e ∈ reg ∧ e.1 ≠ c) := by
  induction reg with
  | nil => simpa [mapSet] using he
  | cons e0 rest ih =>
    obtain ⟨k0, v0⟩ := e0
    simp only [mapKeys, List.map_cons, List.nodup_cons] at hnd
    by_cases h : k0 = c
    · subst h
      simp only [mapSet, if_true, List.mem_cons] at he
      rcases he with h1 | h1
      · exact Or.inl h1
      · refine Or.inr ⟨List.mem_cons_of_mem _ h1, fun hk => hnd.1 ?_⟩
        rw [← hk]
        exact List.mem_map.mpr ⟨e, h1, rfl⟩
    · simp only [mapSet, if_neg h, List.mem_cons] at he
      rcases he with h1 | h1
      · exact Or.inr ⟨by rw [h1]; exact List.mem_cons_self _ _, by rw [h1]; exact h⟩
      · rcases ih hnd.2 h1 with h2 | h2
        · exact Or.inl h2
        · exact Or.inr ⟨List.mem_cons_of_mem _ h2.1, h2.2⟩

theorem mapSet_filter_key (reg : Registry κ) (hnd : (mapKeys reg).Nodup) (c : String)
    (g : κ) : (mapSet reg c g).filter (fun e => decide (e.1 = c)) = [(c, g)] := by
  induction reg with
  | nil => simp [mapSet]
  | cons e0 rest ih =>
    obtain ⟨k0, v0⟩ := e0
    simp only [mapKeys, List.map_cons, List.nodup_cons] at hnd
    by_cases h : k0 = c
    · subst h
      simp only [mapSet, if_true]
      rw [List.filter_cons_of_pos (by simp)]
      congr 1
      rw [List.filter_eq_nil_iff]
      intro e he
      simp only [decide_eq_true_eq]
      intro hk
      exact hnd.1 (hk ▸ List.mem_map.mpr ⟨e, he, rfl⟩)
    · simp only [mapSet, if_neg h]
      rw [List.filter_cons_of_neg (by simpa using h)]
      exact ih hnd.2

/-- A frame that is a single ticker with a non-empty string symbol is dispatched without
an exception. -/
theorem handleMessage_single_str (B : Builtins ν) (reg : Registry κ) (data : JSVal)
    (s : String) (hs : prop data "s" = JSVal.str s) (hne : s ≠ "") :
    handleMessage B reg data =
      ⟨dispatch B reg (baseSymbol s) (B.parseFloat (orZero (prop data "c")))
        (B.parseFloat (orZero (prop data "P"))), false⟩ := by
  have h2 : truthy (JSVal.str s) = true := by simp [truthy, hne]
  cases data with
  | obj fields =>
    simp only [handleMessage]
    rw [hs]
    simp only [h2, if_true]
  | _ => simp [prop] at hs

end ClaimC12

section ClaimC12Main

variable {κ ν : Type}

/-- C12 (re-subscribing replaces): in a manager whose registry is a `Map` (distinct keys),
after `subscribe(c, f)` then `subscribe(c, g)` the registry has exactly one entry for `c`,
mapped to `g`; it has the same keys and the same size as after the first `subscribe`; and
on a later single-ticker frame whose base symbol is the mapped symbol of `c`, the entry of
`c` is invoked exactly once, with callback `g`, while a call of `f` can only come from `f`
being `g` itself or from an entry that the registry already held under another key. -/
theorem C12_resubscribe_replaces (B : Builtins ν) (w : World κ)
    (hreg : (mapKeys w.subscriptions).Nodup) (c : String) (f g : κ) (t1 t2 : Bool)
    (m : String) (hm : coinIdToSymbol B c = SymbolResult.symbol m)
    (data : JSVal) (s : String) (hs : prop data "s" = JSVal.str s) (hne : s ≠ "")
    (hbase : baseSymbol s = m) :
    (subscribe (subscribe w c f t1) c g t2).subscriptions.filter
          (fun e => decide (e.1 = c)) = [(c, g)] ∧
      mapKeys (subscribe (subscribe w c f t1) c g t2).subscriptions =
        mapKeys (subscribe w c f t1).subscriptions ∧
      (subscribe (subscribe w c f t1) c g t2).subscriptions.length =
        (subscribe w c f t1).subscriptions.length ∧
      (handleMessage B (subscribe (subscribe w c f t1) c g t2).subscriptions data).calls.filter
          (fun call => decide (call.payload.id = c)) =
        [⟨g, ⟨c, m, B.parseFloat (orZero (prop data "c")),
          B.parseFloat (orZero (prop data "P"))⟩⟩] ∧
      (∀ call ∈
          (handleMessage B (subscribe (subscribe w c f t1) c g t2).subscriptions data).calls,
        call.callback = f → f = g ∨ ∃ d, d ≠ c ∧ (d, f) ∈ w.subscriptions) := by
  have hsub : (subscribe (subscribe w c f t1) c g t2).subscriptions =
      mapSet w.subscriptions c g := by
    rw [subscribe_subscriptions, subscribe_subscriptions, mapSet_mapSet]
  have hkeys : mapKeys (mapSet w.subscriptions c g) = mapKeys (mapSet w.subscriptions c f) := by
    rw [mapKeys_mapSet, mapKeys_mapSet]
  rw [hsub, subscribe_subscriptions]
  refine ⟨mapSet_filter_key _ hreg c g, hkeys, ?_, ?_, ?_⟩
  · have := congrArg List.length hkeys
    simpa [mapKeys] using this
  · rw [handleMessage_single_str B _ data s hs hne]
    simp only []
    rw [dispatch_filter_id B _ (mapSet_nodup _ c g hreg) c g m (mem_mapSet_self _ c g) hm,
      if_pos hbase]
  · intro call hcall hf
    have hmem := mem_handleMessage B _ data call hcall
    rcases mem_mapSet_cases _ hreg c g _ hmem with h | h
    · left
      rw [← hf]
      exact (Prod.mk.inj h).2
    · right
      exact ⟨call.payload.id, h.2, by rw [← hf]; exact h.1⟩

/-- C12 at a concrete input: `bitcoin` is subscribed with callback 1, then with callback 9;
the registry still has two entries and a `BTCUSDT` ticker invokes callback 9 once. -/
theorem C12_resubscribe_replaces_witness :
    (subscribe (subscribe ⟨none, sampleRegistry, 0, false, [], []⟩ "bitcoin" 1 false)
        "bitcoin" 9 false).subscriptions = [("bitcoin", 9), ("ethereum", 2)] ∧
      (handleMessage sampleBuiltins
        (subscribe (subscribe ⟨none, sampleRegistry, 0, false, [], []⟩ "bitcoin" 1 false)
          "bitcoin" 9 false).subscriptions btcTicker).calls.filter
          (fun call => decide (call.payload.id = "bitcoin")) =
        [⟨9, ⟨"bitcoin", "BTC", some 50000, some 2⟩⟩] :=
  ⟨by decide,
    (C12_resubscribe_replaces sampleBuiltins ⟨none, sampleRegistry, 0, false, [], []⟩
      (by decide) "bitcoin" 1 9 false false "BTC" (by decide) btcTicker "BTCUSDT" rfl
      (by decide) (by decide)).2.2.2.1⟩

end ClaimC12Main

section ClaimC13

variable {ν : Type}

theorem unsubscribeAll_removes (w : World Closure) (ks : List String) (c : String)
    (hc : c ∈ ks) : c ∉ mapKeys (unsubscribeAll w ks).subscriptions := by
  rw [unsubscribeAll_subscriptions, foldl_mapDelete_eq_filter]
  intro h
  obtain ⟨e, he, hk⟩ := List.mem_map.mp h
  rw [List.mem_filter] at he
  have := he.2
  simp only [decide_eq_true_eq] at this
  exact this (hk ▸ hc)

/-- C13 as stated fails: a list-view binder (instance 1) and a detail-view binder
(instance 2) both subscribe `bitcoin`; the registry then holds only the callback of the
detail view. When the detail view is released its cleanup unsubscribes `bitcoin`: the
registry is empty and a `BTCUSDT` ticker invokes no callback, although the list view is
still mounted. -/
theorem C13_release_unsubscribes_other_binder :
    (PriceHook.render 2
        ((PricesHook.render 1 (World.init Closure, PricesHook.unmounted Nat) ["bitcoin"] []
          true false).1, PriceHook.unmounted Nat)
        "bitcoin" none true false).1.subscriptions = [("bitcoin", ⟨2, "bitcoin"⟩)] ∧
      (PricesHook.render 1 (World.init Closure, PricesHook.unmounted Nat) ["bitcoin"] []
          true false).2.cleanup = true ∧
      (PriceHook.runCleanup (PriceHook.render 2
        ((PricesHook.render 1 (World.init Closure, PricesHook.unmounted Nat) ["bitcoin"] []
          true false).1, PriceHook.unmounted Nat)
        "bitcoin" none true false)).1.subscriptions = [] ∧
      (handleMessage sampleBuiltins
        (PriceHook.runCleanup (PriceHook.render 2
          ((PricesHook.render 1 (World.init Closure, PricesHook.unmounted Nat) ["bitcoin"] []
            true false).1, PriceHook.unmounted Nat)
          "bitcoin" none true false)).1.subscriptions btcTicker).calls = [] := by
  decide

/-- C13 (two binders on one coin), amended: the registry keeps one callback per `coinId`.
After a first binder subscribes `c` with `f` and a second one subscribes `c` with `g`, the
only entry for `c` is that of `g`; the cleanup of a per-coin binder bound to `c` is
`unsubscribe(c)` and the cleanup of a multi-coin binder that owns `c` removes `c` as well;
after `unsubscribe(c)` no entry for `c` is left and no frame invokes a callback with
`id = c`, for either binder, until `c` is subscribed again. -/
theorem C13_shared_coin_single_entry (B : Builtins ν) (w : World Closure)
    (hreg : (mapKeys w.subscriptions).Nodup) (c : String) (f g : Closure) (t1 t2 : Bool)
    (data : JSVal) (h1 : PriceHook ν) (hact1 : h1.cleanup = some c)
    (href : h1.callbackRef.isSome = true) (h2 : PricesHook ν) (hact2 : h2.cleanup = true)
    (hown : c ∈ mapKeys h2.callbacksRef) :
    (subscribe (subscribe w c f t1) c g t2).subscriptions.filter
          (fun e => decide (e.1 = c)) = [(c, g)] ∧
      (PriceHook.runCleanup (subscribe (subscribe w c f t1) c g t2, h1)).1 =
        unsubscribe (subscribe (subscribe w c f t1) c g t2) c ∧
      c ∉ mapKeys (PricesHook.runCleanup
        (subscribe (subscribe w c f t1) c g t2, h2)).1.subscriptions ∧
      (∀ cb, (c, cb) ∉ (unsubscribe (subscribe (subscribe w c f t1) c g t2) c).subscriptions) ∧
      (∀ call ∈ (handleMessage B
          (unsubscribe (subscribe (subscribe w c f t1) c g t2) c).subscriptions data).calls,
        call.payload.id ≠ c) := by
  have hsub : (subscribe (subscribe w c f t1) c g t2).subscriptions =
      mapSet w.subscriptions c g := by
    rw [subscribe_subscriptions, subscribe_subscriptions, mapSet_mapSet]
  have hno : ∀ cb,
      (c, cb) ∉ (unsubscribe (subscribe (subscribe w c f t1) c g t2) c).subscriptions := by
    intro cb hmem
    rw [unsubscribe_subscriptions, mem_mapDelete] at hmem
    exact hmem.2 rfl
  refine ⟨?_, ?_, ?_, hno, ?_⟩
  · rw [hsub]
    exact mapSet_filter_key _ hreg c g
  · simp only [PriceHook.runCleanup, hact1, href, if_true]
  · simp only [PricesHook.runCleanup, hact2, if_true]
    exact unsubscribeAll_removes _ _ c hown
  · intro call hcall hid
    have hmem := mem_handleMessage B _ data call hcall
    rw [hid] at hmem
    exact hno _ hmem

/-- C13 at a concrete input: on the fresh manager, `bitcoin` is subscribed by instance 1 and
then by instance 2; the entry is that of instance 2, and after `unsubscribe("bitcoin")` a
`BTCUSDT` ticker reaches nobody. -/
theorem C13_shared_coin_single_entry_witness :
    (subscribe (subscribe (World.init Closure) "bitcoin" ⟨1, "bitcoin"⟩ false) "bitcoin"
        ⟨2, "bitcoin"⟩ false).subscriptions = [("bitcoin", ⟨2, "bitcoin"⟩)] ∧
      ∀ call ∈ (handleMessage sampleBuiltins
          (unsubscribe (subscribe (subscribe (World.init Closure) "bitcoin" ⟨1, "bitcoin"⟩
            false) "bitcoin" ⟨2, "bitcoin"⟩ false) "bitcoin").subscriptions btcTicker).calls,
        call.payload.id ≠ "bitcoin" :=
  ⟨by decide,
    (C13_shared_coin_single_entry sampleBuiltins (World.init Closure) (by decide) "bitcoin"
      ⟨1, "bitcoin"⟩ ⟨2, "bitcoin"⟩ false false btcTicker
      ⟨none, none, false, some ⟨2, "bitcoin"⟩, none, some "bitcoin"⟩
      rfl rfl
      ⟨[], false, [("bitcoin", ⟨1, "bitcoin"⟩)], none, true⟩
      rfl (by decide)).2.2.2.2⟩

end ClaimC13

/-- C14 (suffix stripping), evaluated where it fails: `replace('USDT', '')` removes the
first occurrence of `USDT`, not a trailing one. For the symbol `USDTTRY`, which does not
end in `USDT`, the base symbol matched is `TRY`; for `USDTBTC` it is `BTC`, so such a
ticker is delivered to the subscriber of `bitcoin`. On `BTCUSDT` both rules give `BTC`. -/
theorem C14_replace_strips_first_occurrence :
    baseSymbol "USDTTRY" = "TRY" ∧ stripUsdtSuffix "USDTTRY" = "USDTTRY" ∧
      baseSymbol "USDTBTC" = "BTC" ∧ stripUsdtSuffix "USDTBTC" = "USDTBTC" ∧
      (handleMessage sampleBuiltins sampleRegistry
        (JSVal.obj [("s", JSVal.str "USDTBTC"), ("c", JSVal.str "1")])).calls =
        [⟨1, ⟨"bitcoin", "BTC", some 1, some 0⟩⟩] ∧
      baseSymbol "BTCUSDT" = "BTC" ∧ stripUsdtSuffix "BTCUSDT" = "BTC" := by
  decide

section ThrowingCallbacks

variable {κ ν : Type}

theorem dispatchWith_calls_subset (B : Builtins ν) (throws : Call κ ν → Bool) (base : String)
    (p q : ν) (reg : Registry κ) (call : Call κ ν)
    (h : call ∈ (dispatchWith B throws base p q reg).calls) :
    call ∈ dispatch B reg base p q := by
  induction reg with
  | nil => simp [dispatchWith] at h
  | cons e rest ih =>
    rw [dispatch_cons]
    unfold dispatchWith at h
    split at h
    · rename_i expected hexp
      try simp only [hexp]
      split at h
      · rename_i hb
        try rw [if_pos hb]
        dsimp only at h
        split at h
        · simp only [List.mem_singleton] at h
          subst h
          exact List.mem_append_left _ (List.mem_singleton.mpr rfl)
        · simp only [List.mem_cons] at h
          rcases h with h | h
          · subst h
            exact List.mem_append_left _ (List.mem_singleton.mpr rfl)
          · exact List.mem_append_right _ (ih h)
      · exact List.mem_append_right _ (ih h)
    · exact List.mem_append_right _ (ih h)

theorem handleTickerWith_calls_subset (B : Builtins ν) (throws : Call κ ν → Bool)
    (reg : Registry κ) (t : JSVal) (call : Call κ ν)
    (h : call ∈ (handleTickerWith B throws reg t).calls) :
    call ∈ (handleTicker B reg t).calls := by
  unfold handleTickerWith at h
  unfold handleTicker
  split
  · rename_i hc
    rw [if_pos hc] at h
    exact h
  · rename_i hc
    rw [if_neg hc] at h
    split
    · rename_i symbol hs
      simp only [hs] at h
      exact dispatchWith_calls_subset B throws _ _ _ reg call h
    · rename_i hns
      split at h
      · rename_i symbol hs
        exact absurd hs (hns symbol)
      · simp at h

theorem forEachTickerWith_calls_subset (B : Builtins ν) (throws : Call κ ν → Bool)
    (reg : Registry κ) (ts : List JSVal) (call : Call κ ν)
    (h : call ∈ (forEachTickerWith B throws reg ts).calls) :
    (call.payload.id, call.callback) ∈ reg ∧
      coinIdToSymbol B call.payload.id = SymbolResult.symbol call.payload.symbol := by
  induction ts with
  | nil => simp [forEachTickerWith] at h
  | cons t rest ih =>
    have hone : ∀ c2 ∈ (handleTickerWith B throws reg t).calls,
        (c2.payload.id, c2.callback) ∈ reg ∧
          coinIdToSymbol B c2.payload.id = SymbolResult.symbol c2.payload.symbol := by
      intro c2 hc2
      have h3 := handleTickerWith_calls_subset B throws reg t c2 hc2
      unfold handleTicker at h3
      split at h3
      · simp at h3
      · split at h3
        · have := mem_dispatch B reg _ _ _ c2 h3
          exact ⟨this.1, by rw [this.2.2.1]; exact this.2.1⟩
        · simp at h3
    simp only [forEachTickerWith] at h
    split at h
    · exact hone call h
    · simp only [List.mem_append] at h
      rcases h with h | h
      · exact hone call h
      · exact ih h

/-- Every invocation made by `handleMessage`, also when callbacks may throw, comes from an
entry of the registry whose coin id the mapper sends to the symbol of the payload. -/
theorem handleMessageWith_call (B : Builtins ν) (throws : Call κ ν → Bool)
    (reg : Registry κ) (data : JSVal) (call : Call κ ν)
    (h : call ∈ (handleMessageWith B throws reg data).calls) :
    (call.payload.id, call.callback) ∈ reg ∧
      coinIdToSymbol B call.payload.id = SymbolResult.symbol call.payload.symbol := by
  unfold handleMessageWith at h
  split at h
  · exact forEachTickerWith_calls_subset B throws reg _ call h
  · simp at h
  · simp at h
  · split at h
    · split at h
      · have := mem_dispatch B reg _ _ _ call
          (dispatchWith_calls_subset B throws _ _ _ reg call h)
        exact ⟨this.1, by rw [this.2.2.1]; exact this.2.1⟩
      · simp at h
    · simp at h

theorem dispatchWith_no_throw (B : Builtins ν) (base : String) (p q : ν)
    (reg : Registry κ) :
    dispatchWith B (fun _ => false) base p q reg = ⟨dispatch B reg base p q, false⟩ := by
  induction reg with
  | nil => rfl
  | cons e rest ih =>
    rw [dispatch_cons]
    unfold dispatchWith
    split
    · split
      · simp [ih]
      · simp [ih]
    · simp [ih]

theorem handleTickerWith_no_throw (B : Builtins ν) (reg : Registry κ) (t : JSVal) :
    handleTickerWith B (fun _ => false) reg t = handleTicker B reg t := by
  unfold handleTickerWith handleTicker
  split
  · rfl
  · split
    · exact dispatchWith_no_throw B _ _ _ reg
    · rfl

theorem forEachTickerWith_no_throw (B : Builtins ν) (reg : Registry κ) (ts : List JSVal) :
    forEachTickerWith B (fun _ => false) reg ts = forEachTicker B reg ts := by
  induction ts with
  | nil => rfl
  | cons t rest ih =>
    simp only [forEachTickerWith, forEachTicker, handleTickerWith_no_throw, ih]

/-- With callbacks that never throw, `handleMessageWith` is `handleMessage`. -/
theorem handleMessageWith_no_throw (B : Builtins ν) (reg : Registry κ) (data : JSVal) :
    handleMessageWith B (fun _ => false) reg data = handleMessage B reg data := by
  unfold handleMessageWith handleMessage
  split
  · exact forEachTickerWith_no_throw B reg _
  · rfl
  · rfl
  · split
    · split
      · exact dispatchWith_no_throw B _ _ _ reg
      · rfl
    · rfl

end ThrowingCallbacks

section ClaimsC15C16

variable {κ ν : Type}

/-- C15 (malformed frames are dropped silently): whatever the frame (`parsed` is the result
of `JSON.parse`, `none` for text that is not JSON) and whichever callbacks throw, no
exception leaves `onmessage` and the manager is left as it was, so a frame that follows is
handled as if the first had not arrived. Text that is not JSON, `null`, a number, a
string and an object without a symbol invoke no callback; in a batch, a `null` entry and
a ticker without a symbol are skipped. -/
theorem C15_malformed_frames_dropped (B : Builtins ν) (throws : Call κ ν → Bool)
    (w : World κ) (i : Nat) (parsed next : Option JSVal) :
    (onmessage B throws w parsed).raised = false ∧
      (onmessage B throws w parsed).world = w ∧
      step w (Action.messageEvent i parsed) = w ∧
      onmessage B throws (onmessage B throws w parsed).world next =
        onmessage B throws w next ∧
      (onmessage B throws w none).calls = [] ∧
      (onmessage B throws w (some JSVal.null)).calls = [] ∧
      (∀ q, (onmessage B throws w (some (JSVal.num q))).calls = []) ∧
      (∀ s, (onmessage B throws w (some (JSVal.str s))).calls = []) ∧
      (∀ fields, fields.lookup "s" = none →
        (onmessage B throws w (some (JSVal.obj fields))).calls = []) ∧
      (∀ items, forEachTickerWith B throws w.subscriptions (JSVal.null :: items) =
        forEachTickerWith B throws w.subscriptions items) ∧
      (∀ fields items, fields.lookup "s" = none →
        forEachTickerWith B throws w.subscriptions (JSVal.obj fields :: items) =
          forEachTickerWith B throws w.subscriptions items) := by
  have hworld : ∀ (v : World κ) (x : Option JSVal), (onmessage B throws v x).world = v := by
    intro v x
    cases x <;> rfl
  refine ⟨?_, hworld w parsed, rfl, by rw [hworld], rfl, rfl, fun q => rfl, fun s => rfl,
    ?_, ?_, ?_⟩
  · cases parsed <;> rfl
  · intro fields hf
    simp [onmessage, handleMessageWith, prop, hf, truthy]
  · intro items
    simp [forEachTickerWith, handleTickerWith, truthy]
  · intro fields items hf
    simp [forEachTickerWith, handleTickerWith, prop, hf, truthy]

/-- C15 at concrete inputs: with `bitcoin` and `ethereum` subscribed and a `bitcoin`
callback that throws, the sample batch invokes that callback, the exception is caught,
and a second frame is then handled as on the untouched manager; a batch with a `null`
entry before the `ETHUSDT` ticker still reaches `ethereum`. -/
theorem C15_malformed_frames_dropped_witness :
    (onmessage sampleBuiltins (fun call => decide (call.callback = 1))
        ⟨none, sampleRegistry, 0, false, [], []⟩ (some sampleFrame)).calls =
        [⟨1, ⟨"bitcoin", "BTC", some 50000, some 2⟩⟩] ∧
      (onmessage sampleBuiltins (fun call => decide (call.callback = 1))
        ⟨none, sampleRegistry, 0, false, [], []⟩ (some sampleFrame)).raised = false ∧
      (onmessage sampleBuiltins (fun call => decide (call.callback = 1))
        (onmessage sampleBuiltins (fun call => decide (call.callback = 1))
          ⟨none, sampleRegistry, 0, false, [], []⟩ (some sampleFrame)).world
        (some (JSVal.arr [JSVal.null, ethTicker]))).calls =
        [⟨2, ⟨"ethereum", "ETH", some 3000, some 1⟩⟩] :=
  have h := C15_malformed_frames_dropped sampleBuiltins
    (fun (call : Call Nat (Option Nat)) => decide (call.callback = 1))
    ⟨none, sampleRegistry, 0, false, [], []⟩ 0 (some sampleFrame)
    (some (JSVal.arr [JSVal.null, ethTicker]))
  ⟨by decide, h.1, (congrArg HandlerResult.calls h.2.2.2.1).trans (by decide)⟩

theorem mem_mapSet_or (reg : Registry κ) (c : String) (g : κ) (e : String × κ)
    (he : e ∈ mapSet reg c g) : e = (c, g) ∨ e ∈ reg := by
  induction reg with
  | nil => simpa [mapSet] using he
  | cons e0 rest ih =>
    obtain ⟨k0, v0⟩ := e0
    by_cases h : k0 = c
    · simp only [mapSet, if_pos h, List.mem_cons] at he
      rcases he with h1 | h1
      · exact Or.inl h1
      · exact Or.inr (List.mem_cons_of_mem _ h1)
    · simp only [mapSet, if_neg h, List.mem_cons] at he
      rcases he with h1 | h1
      · exact Or.inr (h1 ▸ List.mem_cons_self _ _)
      · rcases ih h1 with h2 | h2
        · exact Or.inl h2
        · exact Or.inr (List.mem_cons_of_mem _ h2)

/-- C16 (unsupported coins never receive updates): when the mapper returns `null` for `c`,
then after `subscribe(c, f)` no frame, single or batch, makes `handleMessage` invoke a
callback with `id = c`, whether or not callbacks throw; an invocation of `f` can only come
from an entry that already held `f` under another coin id. -/
theorem C16_unsupported_never_invoked (B : Builtins ν) (throws : Call κ ν → Bool)
    (w : World κ) (c : String) (hc : coinIdToSymbol B c = SymbolResult.null) (f : κ)
    (t : Bool) (data : JSVal) :
    (∀ call ∈ (handleMessage B (subscribe w c f t).subscriptions data).calls,
        call.payload.id ≠ c ∧
          (call.callback = f → ∃ d, d ≠ c ∧ (d, f) ∈ w.subscriptions)) ∧
      (∀ call ∈ (handleMessageWith B throws (subscribe w c f t).subscriptions data).calls,
        call.payload.id ≠ c ∧
          (call.callback = f → ∃ d, d ≠ c ∧ (d, f) ∈ w.subscriptions)) := by
  have key : ∀ call ∈ (handleMessageWith B throws (subscribe w c f t).subscriptions data).calls,
      call.payload.id ≠ c ∧
        (call.callback = f → ∃ d, d ≠ c ∧ (d, f) ∈ w.subscriptions) := by
    intro call hcall
    have h := handleMessageWith_call B throws _ data call hcall
    have hid : call.payload.id ≠ c := by
      intro hid
      rw [hid, hc] at h
      exact absurd h.2 (by simp)
    refine ⟨hid, fun hf => ?_⟩
    rw [subscribe_subscriptions] at h
    rcases mem_mapSet_or _ c f _ h.1 with h1 | h1
    · exact absurd (Prod.mk.inj h1).1 hid
    · exact ⟨call.payload.id, hid, hf ▸ h1⟩
  refine ⟨?_, key⟩
  intro call hcall
  have hk : ∀ call ∈
      (handleMessageWith B (fun _ => false) (subscribe w c f t).subscriptions data).calls,
      call.payload.id ≠ c ∧
        (call.callback = f → ∃ d, d ≠ c ∧ (d, f) ∈ w.subscriptions) := by
    intro call hcall
    have h := handleMessageWith_call B (fun _ => false) _ data call hcall
    have hid : call.payload.id ≠ c := by
      intro hid
      rw [hid, hc] at h
      exact absurd h.2 (by simp)
    refine ⟨hid, fun hf => ?_⟩
    rw [subscribe_subscriptions] at h
    rcases mem_mapSet_or _ c f _ h.1 with h1 | h1
    · exact absurd (Prod.mk.inj h1).1 hid
    · exact ⟨call.payload.id, hid, hf ▸ h1⟩
  rw [← handleMessageWith_no_throw] at hcall
  exact hk call hcall

/-- C16 at a concrete input: `unknown-coin` has no mapping; subscribed next to `bitcoin` and
`ethereum`, it gets no call from the sample batch. -/
theorem C16_unsupported_never_invoked_witness :
    coinIdToSymbol sampleBuiltins "unknown-coin" = SymbolResult.null ∧
      (handleMessage sampleBuiltins
        (subscribe ⟨none, sampleRegistry, 0, false, [], []⟩ "unknown-coin" 7
          false).subscriptions sampleFrame).calls =
        [⟨1, ⟨"bitcoin", "BTC", some 50000, some 2⟩⟩,
          ⟨2, ⟨"ethereum", "ETH", some 3000, some 1⟩⟩] ∧
      ∀ call ∈ (handleMessage sampleBuiltins
          (subscribe ⟨none, sampleRegistry, 0, false, [], []⟩ "unknown-coin" 7
            false).subscriptions sampleFrame).calls,
        call.payload.id ≠ "unknown-coin" :=
  ⟨by decide, by decide,
    fun call h =>
      ((C16_unsupported_never_invoked sampleBuiltins (fun _ => false)
        ⟨none, sampleRegistry, 0, false, [], []⟩ "unknown-coin" (by decide) 7 false
        sampleFrame).1 call h).1⟩

end ClaimsC15C16

section ClaimsC17C18

variable {κ ν : Type}

/-- C17 as stated fails: `unknown-coin` has no mapping; a per-coin binder bound to it
subscribes and opens the socket like any other, and once the socket is open the next
`checkConnection` sets its `isConnected` to `true`. -/
theorem C17_unsupported_coin_reports_connected :
    coinIdToSymbol sampleBuiltins "unknown-coin" = SymbolResult.null ∧
      (PriceHook.render 1 (World.init Closure, PriceHook.unmounted Nat) "unknown-coin" none
        true false).2.isConnected = false ∧
      isConnected (step (PriceHook.render 1 (World.init Closure, PriceHook.unmounted Nat)
        "unknown-coin" none true false).1 (Action.openEvent 0)) = true ∧
      (PriceHook.checkConnection
        (step (PriceHook.render 1 (World.init Closure, PriceHook.unmounted Nat)
            "unknown-coin" none true false).1 (Action.openEvent 0),
          (PriceHook.render 1 (World.init Closure, PriceHook.unmounted Nat) "unknown-coin"
            none true false).2)).2.isConnected = true := by
  decide

/-- C17 (connectivity of a binder), amended: the `isConnected` a per-coin binder reports is
the value of the manager's `isConnected()` at the moment it was sampled, whatever the coin
id and whether or not it has a feed symbol: the effect samples it right after
`subscribe`, and each `checkConnection` of an active binder samples it again. -/
theorem C17_binder_mirrors_connection (owner : Nat) (w : World Closure) (h : PriceHook ν)
    (c : String) (hc : c ≠ "") (hact : h.cleanup = some c) (ip : Option ν) (t : Bool) :
    (PriceHook.checkConnection (w, h)).2.isConnected = isConnected w ∧
      (PriceHook.runEffect owner (w, h) c ip true t).2.isConnected =
        isConnected (subscribe w c ⟨owner, c⟩ t) ∧
      (PriceHook.runEffect owner (w, h) c ip true t).1 = subscribe w c ⟨owner, c⟩ t := by
  refine ⟨?_, ?_, ?_⟩
  · simp only [PriceHook.checkConnection, hact]
  · simp [PriceHook.runEffect, hc]
  · simp [PriceHook.runEffect, hc]

/-- C17 at a concrete input: the binder of `unknown-coin`, once its socket is open, reports
what `isConnected()` returns, which is `true`. -/
theorem C17_binder_mirrors_connection_witness :
    (PriceHook.checkConnection
        (step (PriceHook.render 1 (World.init Closure, PriceHook.unmounted Nat)
            "unknown-coin" none true false).1 (Action.openEvent 0),
          (PriceHook.render 1 (World.init Closure, PriceHook.unmounted Nat) "unknown-coin"
            none true false).2)).2.isConnected =
      isConnected (step (PriceHook.render 1 (World.init Closure, PriceHook.unmounted Nat)
        "unknown-coin" none true false).1 (Action.openEvent 0)) :=
  (C17_binder_mirrors_connection 1
    (step (PriceHook.render 1 (World.init Closure, PriceHook.unmounted Nat)
      "unknown-coin" none true false).1 (Action.openEvent 0))
    (PriceHook.render 1 (World.init Closure, PriceHook.unmounted Nat) "unknown-coin"
      none true false).2 "unknown-coin" (by decide) rfl none false).1

/-- C18 (`unsubscribe` removes one entry and tears down only on empty): after
`unsubscribe(c)` the registry is the old one without the entries of key `c`, the others in
their order; when it is then empty and a socket was held, `close()` has been called on
that socket and `ws` is `null`; when it is not empty, `ws` and the sockets are unchanged;
the counter, the flag `isConnecting` and the timers are unchanged in every case. -/
theorem C18_unsubscribe_effect (w : World κ) (c : String) :
    (unsubscribe w c).subscriptions = w.subscriptions.filter (fun e => decide (e.1 ≠ c)) ∧
      (∀ e, e ∈ (unsubscribe w c).subscriptions ↔ e ∈ w.subscriptions ∧ e.1 ≠ c) ∧
      (∀ i, w.ws = some i → (unsubscribe w c).subscriptions = [] →
        (unsubscribe w c).ws = none ∧
          (unsubscribe w c).sockets = w.sockets.modify closeState i) ∧
      ((unsubscribe w c).subscriptions ≠ [] →
        (unsubscribe w c).ws = w.ws ∧ (unsubscribe w c).sockets = w.sockets) ∧
      (w.ws = none → (unsubscribe w c).ws = none ∧ (unsubscribe w c).sockets = w.sockets) ∧
      (unsubscribe w c).reconnectAttempts = w.reconnectAttempts ∧
      (unsubscribe w c).isConnecting = w.isConnecting ∧
      (unsubscribe w c).timers = w.timers := by
  have hs := unsubscribe_subscriptions w c
  have ha := unsubscribe_attempts w c
  refine ⟨hs, ?_, ?_, ?_, ?_, ha.1, ha.2.2, ha.2.1⟩
  · intro e
    rw [hs]
    exact mem_mapDelete _ c e
  · intro i hi hempty
    rw [hs] at hempty
    constructor <;> simp [unsubscribe, hi, hempty]
  · intro hne
    rw [hs] at hne
    have hlen : ¬ (mapDelete w.subscriptions c).length = 0 := by
      intro h
      exact hne (List.length_eq_zero.mp h)
    unfold unsubscribe
    dsimp only
    split
    · rw [if_neg hlen]
      exact ⟨rfl, rfl⟩
    · exact ⟨rfl, rfl⟩
  · intro hnone
    constructor <;> simp [unsubscribe, hnone]

/-- C18 at a concrete input: with `bitcoin` and `ethereum` subscribed on an open socket,
`unsubscribe("bitcoin")` keeps the socket, and `unsubscribe("ethereum")` after it closes
the socket and clears `ws`. -/
theorem C18_unsubscribe_effect_witness :
    (unsubscribe (run (World.init Nat)
        [Action.subscribe "bitcoin" 1 false, Action.subscribe "ethereum" 2 false,
          Action.openEvent 0]) "bitcoin").subscriptions = [("ethereum", 2)] ∧
      (unsubscribe (run (World.init Nat)
        [Action.subscribe "bitcoin" 1 false, Action.subscribe "ethereum" 2 false,
          Action.openEvent 0]) "bitcoin").ws = some 0 ∧
      (unsubscribe (unsubscribe (run (World.init Nat)
        [Action.subscribe "bitcoin" 1 false, Action.subscribe "ethereum" 2 false,
          Action.openEvent 0]) "bitcoin") "ethereum").ws = none ∧
      (unsubscribe (unsubscribe (run (World.init Nat)
        [Action.subscribe "bitcoin" 1 false, Action.subscribe "ethereum" 2 false,
          Action.openEvent 0]) "bitcoin") "ethereum").sockets = [ReadyState.CLOSING] :=
  ⟨by decide,
    ((C18_unsubscribe_effect (run (World.init Nat)
      [Action.subscribe "bitcoin" 1 false, Action.subscribe "ethereum" 2 false,
        Action.openEvent 0]) "bitcoin").2.2.2.1 (by decide)).1,
    ((C18_unsubscribe_effect (unsubscribe (run (World.init Nat)
      [Action.subscribe "bitcoin" 1 false, Action.subscribe "ethereum" 2 false,
        Action.openEvent 0]) "bitcoin") "ethereum").2.2.1 0 (by decide) (by decide)).1,
    by decide⟩

end ClaimsC17C18

/-- C19 (a subscribe always gets a connection attempted), evaluated where it fails: by
`subscribe` and `unsubscribe` calls alone, `subscribe("bitcoin")`,
`unsubscribe("bitcoin")`, `subscribe("ethereum")` leaves `ethereum` in the registry and
`ws = null`: the second `subscribe` calls `connect()`, which returns at once because
`isConnecting` is still set from the first attempt. -/
theorem C19_subscribe_leaves_no_socket :
    "ethereum" ∈ mapKeys (subscribe (unsubscribe (subscribe (World.init Nat) "bitcoin" 1
        false) "bitcoin") "ethereum" 2 false).subscriptions ∧
      (unsubscribe (subscribe (World.init Nat) "bitcoin" 1 false) "bitcoin").isConnecting
        = true ∧
      (subscribe (unsubscribe (subscribe (World.init Nat) "bitcoin" 1 false) "bitcoin")
        "ethereum" 2 false).ws = none ∧
      openOrConnecting (subscribe (unsubscribe (subscribe (World.init Nat) "bitcoin" 1
        false) "bitcoin") "ethereum" 2 false) = false := by
  decide

section ClaimC20

variable {κ : Type}

theorem connect_closedMeansIdle (w : World κ) (t : Bool) (h : closedMeansIdle w) :
    closedMeansIdle (connect w t) := by
  unfold connect
  split
  · exact h
  · split
    · intro i _ _
      unfold reconnect
      split <;> rfl
    · intro i hi hc
      simp only [Option.some.injEq] at hi
      subst hi
      simp at hc

theorem step_closedMeansIdle (w : World κ) (a : Action κ) (h : closedMeansIdle w) :
    closedMeansIdle (step w a) := by
  cases a with
  | subscribe c cb t =>
    simp only [step, subscribe]
    split
    · exact connect_closedMeansIdle _ t h
    · exact h
  | unsubscribe c =>
    simp only [step, unsubscribe]
    split
    · split
      · intro i hi _
        simp at hi
      · exact h
    · exact h
  | connect t => exact connect_closedMeansIdle w t h
  | disconnect =>
    intro i _ _
    simp [step, disconnect]
  | reconnect =>
    simp only [step]
    unfold reconnect
    split
    · exact h
    · exact h
  | timeout i t =>
    simp only [step]
    split
    · exact connect_closedMeansIdle _ t h
    · exact h
  | openEvent i =>
    simp only [step]
    split
    · intro j _ _; rfl
    · exact h
  | messageEvent i d => exact h
  | errorEvent i =>
    simp only [step]
    split
    · exact h
    · intro j _ _; rfl
    · exact h
  | closeEvent i =>
    simp only [step]
    split
    · exact h
    · intro j _ _
      unfold onclose reconnect
      split <;> rfl
    · exact h

theorem reachable_closedMeansIdle (w : World κ) (hw : Reachable w) : closedMeansIdle w := by
  obtain ⟨acts, rfl⟩ := hw
  have : ∀ (v : World κ), closedMeansIdle v → closedMeansIdle (run v acts) := by
    induction acts with
    | nil => exact fun v h => h
    | cons a rest ih => exact fun v h => ih (step v a) (step_closedMeansIdle v a h)
  exact this _ (fun i hi _ => by simp [World.init] at hi)

/-- When no `connect()` is in progress and the held socket is not open, `subscribe` with a
constructor that succeeds opens a new socket. -/
theorem subscribe_opens (w : World κ) (c : String) (cb : κ) (h1 : w.isConnecting = false)
    (h2 : wsIsOpen w = false) :
    subscribe w c cb false =
      { w with
        subscriptions := mapSet w.subscriptions c cb
        isConnecting := true
        ws := some w.sockets.length
        sockets := w.sockets ++ [ReadyState.CONNECTING] } := by
  have hno1 : wsIsOpen ({ w with subscriptions := mapSet w.subscriptions c cb } : World κ)
      = false := h2
  have hno2 : ∀ (s : Registry κ) (b : Bool),
      wsIsOpen ({ w with subscriptions := s, isConnecting := b } : World κ) = false :=
    fun _ _ => h2
  unfold subscribe
  simp only [hno1, Bool.not_false, Bool.or_true, if_true]
  unfold connect
  simp only [h1, hno2, Bool.or_false, Bool.false_eq_true, if_false]

/-- C20 (a new subscription after exhausted reconnects): in every reachable state with
`reconnectAttempts = maxReconnectAttempts` whose held socket is closed, `subscribe(c, f)`
(with a constructor that succeeds) adds one socket in state CONNECTING, holds it, sets
`isConnecting` and leaves the counter at the maximum, so that a close event that follows
schedules no timer and leaves the counter where it is. -/
theorem C20_subscribe_after_exhaustion (w : World κ) (hreach : Reachable w) (i : Nat)
    (hws : w.ws = some i) (hclosed : w.sockets[i]? = some ReadyState.CLOSED)
    (hatt : w.reconnectAttempts = maxReconnectAttempts) (c : String) (f : κ) (j : Nat) :
    (subscribe w c f false).sockets = w.sockets ++ [ReadyState.CONNECTING] ∧
      (subscribe w c f false).ws = some w.sockets.length ∧
      (subscribe w c f false).isConnecting = true ∧
      openOrConnecting (subscribe w c f false) = true ∧
      (subscribe w c f false).reconnectAttempts = maxReconnectAttempts ∧
      (step (subscribe w c f false) (Action.closeEvent j)).timers = w.timers ∧
      (step (subscribe w c f false) (Action.closeEvent j)).reconnectAttempts =
        maxReconnectAttempts := by
  have hidle := reachable_closedMeansIdle w hreach i hws hclosed
  have hopen : wsIsOpen w = false := by
    unfold wsIsOpen
    simp [hws, hclosed]
  have hsub := subscribe_opens w c f hidle hopen
  have hge : maxReconnectAttempts ≤ (subscribe w c f false).reconnectAttempts := by
    rw [hsub]; exact le_of_eq hatt.symm
  have hstep : (step (subscribe w c f false) (Action.closeEvent j)).timers =
        (subscribe w c f false).timers ∧
      (step (subscribe w c f false) (Action.closeEvent j)).reconnectAttempts =
        (subscribe w c f false).reconnectAttempts := by
    by_cases hen : closeEnabled (subscribe w c f false) j = true
    · rw [step_close_enabled _ j hen]
      have := onclose_attempts_ge
        ({ subscribe w c f false with
            sockets := (subscribe w c f false).sockets.set j ReadyState.CLOSED } : World κ)
        hge
      exact ⟨this.2.1, this.1⟩
    · rw [step_close_disabled _ j (by simpa using hen)]
      exact ⟨rfl, rfl⟩
  refine ⟨by rw [hsub], by rw [hsub], by rw [hsub], ?_, by rw [hsub]; exact hatt, ?_, ?_⟩
  · rw [hsub]
    simp [openOrConnecting]
  · rw [hstep.1, hsub]
  · rw [hstep.2, hsub]
    exact hatt

/-- C20 at a concrete input: after six failures in a row the counter is 5 and socket 5 is
closed; a new subscription opens socket 6 with the counter still 5, and the close of
socket 6 adds no timer to the five that exist. -/
theorem C20_subscribe_after_exhaustion_witness :
    (run (World.init Nat) exhaustingTrace).reconnectAttempts = 5 ∧
      (subscribe (run (World.init Nat) exhaustingTrace) "ethereum" 2 false).ws =
        some 6 ∧
      (subscribe (run (World.init Nat) exhaustingTrace) "ethereum" 2
        false).reconnectAttempts = 5 ∧
      (step (subscribe (run (World.init Nat) exhaustingTrace) "ethereum" 2 false)
        (Action.closeEvent 6)).timers.length = 5 :=
  have h := C20_subscribe_after_exhaustion (run (World.init Nat) exhaustingTrace)
    ⟨exhaustingTrace, rfl⟩ 5 (by decide) (by decide) (by decide) "ethereum" 2 6
  ⟨by decide, h.2.1.trans (by decide), h.2.2.2.2.1, by rw [h.2.2.2.2.2.1]; decide⟩

end ClaimC20

section ClaimsC21C22

variable {κ ν : Type}

theorem forEachTicker_single (B : Builtins ν) (reg : Registry κ) (t : JSVal) :
    forEachTicker B reg [t] = handleTicker B reg t := by
  simp only [forEachTicker]
  cases h : handleTicker B reg t with
  | mk calls threw =>
    cases threw <;> simp

theorem forEachTickerWith_single (B : Builtins ν) (throws : Call κ ν → Bool)
    (reg : Registry κ) (t : JSVal) :
    forEachTickerWith B throws reg [t] = handleTickerWith B throws reg t := by
  simp only [forEachTickerWith]
  cases h : handleTickerWith B throws reg t with
  | mk calls threw =>
    cases threw <;> simp

theorem handleTicker_obj (B : Builtins ν) (reg : Registry κ) (fields : List (String × JSVal)) :
    handleTicker B reg (JSVal.obj fields) = handleMessage B reg (JSVal.obj fields) := by
  have h0 : truthy (JSVal.obj fields) = true := rfl
  unfold handleTicker handleMessage
  cases hp : truthy (prop (JSVal.obj fields) "s") <;> simp [h0]

theorem handleTickerWith_obj (B : Builtins ν) (throws : Call κ ν → Bool) (reg : Registry κ)
    (fields : List (String × JSVal)) :
    handleTickerWith B throws reg (JSVal.obj fields) =
      handleMessageWith B throws reg (JSVal.obj fields) := by
  have h0 : truthy (JSVal.obj fields) = true := rfl
  unfold handleTickerWith handleMessageWith
  cases hp : truthy (prop (JSVal.obj fields) "s") <;> simp [h0]

/-- C21 (a single ticker is a batch of one): for every ticker object and every registry,
`handleMessage` on the object and on the array holding just that object make the same
invocations with the same payloads in the same order and end the same way, also when
callbacks may throw; and on every frame that is not an array the invocations are those of
the one-entry batch. -/
theorem C21_single_ticker_as_batch (B : Builtins ν) (throws : Call κ ν → Bool)
    (reg : Registry κ) (fields : List (String × JSVal)) (data : JSVal) :
    (handleMessage B reg (JSVal.obj fields)).calls =
        (handleMessage B reg (JSVal.arr [JSVal.obj fields])).calls ∧
      (handleMessage B reg (JSVal.obj fields)).threw =
        (handleMessage B reg (JSVal.arr [JSVal.obj fields])).threw ∧
      (handleMessageWith B throws reg (JSVal.obj fields)).calls =
        (handleMessageWith B throws reg (JSVal.arr [JSVal.obj fields])).calls ∧
      (handleMessageWith B throws reg (JSVal.obj fields)).threw =
        (handleMessageWith B throws reg (JSVal.arr [JSVal.obj fields])).threw ∧
      ((∀ items, data ≠ JSVal.arr items) →
        (handleMessage B reg data).calls = (handleMessage B reg (JSVal.arr [data])).calls) := by
  have harr : ∀ t, handleMessage B reg (JSVal.arr [t]) = handleTicker B reg t := by
    intro t
    simp only [handleMessage]
    exact forEachTicker_single B reg t
  have harrW : ∀ t, handleMessageWith B throws reg (JSVal.arr [t]) =
      handleTickerWith B throws reg t := by
    intro t
    simp only [handleMessageWith]
    exact forEachTickerWith_single B throws reg t
  have h1 := (harr (JSVal.obj fields)).trans (handleTicker_obj B reg fields)
  have h2 := (harrW (JSVal.obj fields)).trans (handleTickerWith_obj B throws reg fields)
  refine ⟨by rw [h1], by rw [h1], by rw [h2], by rw [h2], ?_⟩
  intro hna
  rw [harr]
  cases data with
  | obj f2 => rw [handleTicker_obj]
  | arr items => exact absurd rfl (hna items)
  | undefined => simp [handleMessage, handleTicker, truthy]
  | null => simp [handleMessage, handleTicker, truthy]
  | bool b => simp [handleMessage, handleTicker, truthy, prop]
  | num q => simp [handleMessage, handleTicker, truthy, prop]
  | str s => simp [handleMessage, handleTicker, truthy, prop]

/-- C21 at a concrete input: the `BTCUSDT` ticker alone and the batch of that ticker both
invoke the callback of `bitcoin` once with price 50000. -/
theorem C21_single_ticker_as_batch_witness :
    (handleMessage sampleBuiltins sampleRegistry btcTicker).calls =
        [⟨1, ⟨"bitcoin", "BTC", some 50000, some 2⟩⟩] ∧
      (handleMessage sampleBuiltins sampleRegistry (JSVal.arr [btcTicker])).calls =
        (handleMessage sampleBuiltins sampleRegistry btcTicker).calls :=
  ⟨by decide,
    (C21_single_ticker_as_batch sampleBuiltins (fun _ => false) sampleRegistry
      [("s", JSVal.str "BTCUSDT"), ("c", JSVal.str "50000"), ("P", JSVal.str "2")]
      JSVal.null).1.symm⟩

theorem lookup_mapSet {β : Type} (m : Registry β) (c d : String) (v : β) :
    (mapSet m c v).lookup d = if d = c then some v else m.lookup d := by
  induction m with
  | nil =>
    simp only [mapSet, List.lookup_cons, List.lookup_nil]
    by_cases h : d = c
    · have hb : (d == c) = true := by simpa using h
      rw [hb, if_pos h]
    · have hb : (d == c) = false := by simpa using h
      rw [hb, if_neg h]
  | cons e rest ih =>
    obtain ⟨k0, v0⟩ := e
    by_cases hk : k0 = c
    · subst hk
      simp only [mapSet, if_true, List.lookup_cons]
      by_cases h : d = k0
      · have hb : (d == k0) = true := by simpa using h
        rw [hb, if_pos h]
      · have hb : (d == k0) = false := by simpa using h
        rw [hb, if_neg h]
    · simp only [mapSet, if_neg hk, List.lookup_cons, ih]
      by_cases h : d = k0
      · have hb : (d == k0) = true := by simpa using h
        have hdc : ¬ d = c := fun h2 => hk (h ▸ h2)
        rw [hb, if_neg hdc, if_neg hdc]
      · have hb : (d == k0) = false := by simpa using h
        rw [hb]

/-- C22 (each callback updates only its own entry): when the callback registered for `c`
receives an update with `id = c`, the new `prices` object has under `c` the price, percent
change and time stamp of the update and under every other key what it had; an update with
another `id` leaves the binder as it is. -/
theorem C22_callback_updates_own_entry (h : PricesHook ν) (c : String) (data : Update ν) :
    (data.payload.id = c →
        (PricesHook.callback c h data).prices.lookup c =
            some ⟨some data.payload.current_price,
              some data.payload.price_change_percentage_24h, some data.last_updated⟩ ∧
          (∀ d, d ≠ c → (PricesHook.callback c h data).prices.lookup d = h.prices.lookup d) ∧
          (PricesHook.callback c h data).callbacksRef = h.callbacksRef ∧
          (PricesHook.callback c h data).deps = h.deps) ∧
      (data.payload.id ≠ c → PricesHook.callback c h data = h) := by
  constructor
  · intro hid
    have hcb : PricesHook.callback c h data =
        { h with
          prices := mapSet h.prices c
            ⟨some data.payload.current_price, some data.payload.price_change_percentage_24h,
              some data.last_updated⟩ } := by
      simp only [PricesHook.callback, if_pos hid]
    rw [hcb]
    refine ⟨?_, ?_, rfl, rfl⟩
    · exact (lookup_mapSet _ c c _).trans (if_pos rfl)
    · intro d hd
      exact (lookup_mapSet _ c d _).trans (if_neg hd)
  · intro hid
    simp only [PricesHook.callback, if_neg hid]

end ClaimsC21C22

/-- C22 at a concrete input: with entries for `bitcoin` and `ethereum`, an update for
`bitcoin` with price 105 rewrites the `bitcoin` entry and keeps the `ethereum` entry. -/
theorem C22_callback_updates_own_entry_witness :
    ((PricesHook.callback "bitcoin"
        (⟨[("bitcoin", ⟨some 100, some 1, none⟩), ("ethereum", ⟨some 3000, some 2, none⟩)],
          true, [], none, true⟩ : PricesHook Nat)
        ⟨⟨"bitcoin", "BTC", 105, 3⟩, "2024-01-01T00:00:00.000Z"⟩).prices.lookup
        "bitcoin").map (fun e => e.price) = some (some 105) ∧
      (PricesHook.callback "bitcoin"
        (⟨[("bitcoin", ⟨some 100, some 1, none⟩), ("ethereum", ⟨some 3000, some 2, none⟩)],
          true, [], none, true⟩ : PricesHook Nat)
        ⟨⟨"bitcoin", "BTC", 105, 3⟩, "2024-01-01T00:00:00.000Z"⟩).prices.lookup "ethereum" =
      (⟨[("bitcoin", ⟨some 100, some 1, none⟩), ("ethereum", ⟨some 3000, some 2, none⟩)],
          true, [], none, true⟩ : PricesHook Nat).prices.lookup "ethereum" :=
  have h := (C22_callback_updates_own_entry
    (⟨[("bitcoin", ⟨some 100, some 1, none⟩), ("ethereum", ⟨some 3000, some 2, none⟩)],
      true, [], none, true⟩ : PricesHook Nat) "bitcoin"
    ⟨⟨"bitcoin", "BTC", 105, 3⟩, "2024-01-01T00:00:00.000Z"⟩).1 rfl
  ⟨by rw [h.1]; rfl, h.2.1 "ethereum" (by decide)⟩

section ClaimC25

/-- The characters that `join(',')` puts after the first element. -/
theorem intercalate_go_data (acc : String) (l : List String) :
    (String.intercalate.go acc "," l).data =
      acc.data ++ l.flatMap (fun x => ',' :: x.data) := by
  induction l generalizing acc with
  | nil => simp [String.intercalate.go]
  | cons a rest ih =>
    rw [String.intercalate.go, ih]
    simp [String.data_append]

theorem intercalate_cons_data (a : String) (l : List String) :
    (String.intercalate "," (a :: l)).data =
      a.data ++ l.flatMap (fun x => ',' :: x.data) := by
  rw [String.intercalate, intercalate_go_data]

/-- Two comma-free words followed by an empty rest or by a rest that starts with a comma
are equal, and so are the rests, when the concatenations are equal. -/
theorem split_at_comma (a b r1 r2 : List Char) (ha : ',' ∉ a) (hb : ',' ∉ b)
    (h1 : r1 = [] ∨ ∃ r, r1 = ',' :: r) (h2 : r2 = [] ∨ ∃ r, r2 = ',' :: r)
    (h : a ++ r1 = b ++ r2) : a = b ∧ r1 = r2 := by
  induction a generalizing b with
  | nil =>
    cases b with
    | nil => exact ⟨rfl, by simpa using h⟩
    | cons y b2 =>
      exfalso
      rcases h1 with h1 | ⟨r, h1⟩
      · rw [h1] at h; simp at h
      · rw [h1] at h
        simp only [List.nil_append, List.cons_append, List.cons.injEq] at h
        exact hb (h.1 ▸ List.mem_cons_self _ _)
  | cons x a2 ih =>
    cases b with
    | nil =>
      exfalso
      rcases h2 with h2 | ⟨r, h2⟩
      · rw [h2] at h; simp at h
      · rw [h2] at h
        simp only [List.nil_append, List.cons_append, List.cons.injEq] at h
        exact ha (h.1 ▸ List.mem_cons_self _ _)
    | cons y b2 =>
      simp only [List.cons_append, List.cons.injEq] at h
      have := ih b2 (fun hm => ha (List.mem_cons_of_mem _ hm))
        (fun hm => hb (List.mem_cons_of_mem _ hm)) h.2
      exact ⟨by rw [h.1, this.1], this.2⟩

theorem flatMap_comma_shape (l : List String) :
    l.flatMap (fun x => ',' :: x.data) = [] ∨
      ∃ r, l.flatMap (fun x => ',' :: x.data) = ',' :: r := by
  cases l with
  | nil => exact Or.inl rfl
  | cons a rest => exact Or.inr ⟨_, rfl⟩

theorem flatMap_comma_injective (l1 l2 : List String)
    (h1 : ∀ x ∈ l1, ',' ∉ x.data) (h2 : ∀ x ∈ l2, ',' ∉ x.data)
    (h : l1.flatMap (fun x => ',' :: x.data) = l2.flatMap (fun x => ',' :: x.data)) :
    l1 = l2 := by
  induction l1 generalizing l2 with
  | nil =>
    cases l2 with
    | nil => rfl
    | cons b bs => simp at h
  | cons a as ih =>
    cases l2 with
    | nil => simp at h
    | cons b bs =>
      simp only [List.flatMap_cons, List.cons_append, List.cons.injEq, true_and] at h
      have hs := split_at_comma a.data b.data _ _ (h1 a (List.mem_cons_self _ _))
        (h2 b (List.mem_cons_self _ _)) (flatMap_comma_shape as) (flatMap_comma_shape bs) h
      have hab : a = b := String.ext hs.1
      have := ih bs (fun x hx => h1 x (List.mem_cons_of_mem _ hx))
        (fun x hx => h2 x (List.mem_cons_of_mem _ hx)) hs.2
      rw [hab, this]

/-- The joined key determines a list of non-empty, comma-free ids. -/
theorem intercalate_comma_injective (l1 l2 : List String)
    (h1 : ∀ x ∈ l1, x ≠ "" ∧ ',' ∉ x.data) (h2 : ∀ x ∈ l2, x ≠ "" ∧ ',' ∉ x.data)
    (h : String.intercalate "," l1 = String.intercalate "," l2) : l1 = l2 := by
  have hne : ∀ (a : String) (l : List String), a ≠ "" →
      String.intercalate "," (a :: l) ≠ String.intercalate "," [] := by
    intro a l ha heq
    have hd := congrArg String.data heq
    rw [intercalate_cons_data] at hd
    simp only [String.intercalate, List.append_eq_nil] at hd
    exact ha (String.ext hd.1)
  cases l1 with
  | nil =>
    cases l2 with
    | nil => rfl
    | cons b bs => exact absurd h.symm (hne b bs (h2 b (List.mem_cons_self _ _)).1)
  | cons a as =>
    cases l2 with
    | nil => exact absurd h (hne a as (h1 a (List.mem_cons_self _ _)).1)
    | cons b bs =>
      have hd := congrArg String.data h
      rw [intercalate_cons_data, intercalate_cons_data] at hd
      have hs := split_at_comma a.data b.data _ _ (h1 a (List.mem_cons_self _ _)).2
        (h2 b (List.mem_cons_self _ _)).2 (flatMap_comma_shape as) (flatMap_comma_shape bs) hd
      have hab : a = b := String.ext hs.1
      have := flatMap_comma_injective as bs
        (fun x hx => (h1 x (List.mem_cons_of_mem _ hx)).2)
        (fun x hx => (h2 x (List.mem_cons_of_mem _ hx)).2) hs.2
      rw [hab, this]

/-- C25 (change detection by the joined list): for lists of non-empty ids without a comma
the key `join(',')` is the same exactly when the lists are equal; so a render of the
multi-coin binder with the same `enabled` flag leaves the binder alone when the list is
the previous one, and runs the cleanup and the effect again when it is another list. -/
theorem C25_joined_key_value_equality {ν : Type} (L1 L2 : List String)
    (h1 : ∀ x ∈ L1, x ≠ "" ∧ ',' ∉ x.data) (h2 : ∀ x ∈ L2, x ≠ "" ∧ ',' ∉ x.data)
    (owner : Nat) (s : World Closure × PricesHook ν) (en : Bool)
    (hdeps : s.2.deps = some (String.intercalate "," L1, en))
    (ip : List (String × PriceEntry ν)) (t : Bool) :
    (String.intercalate "," L1 = String.intercalate "," L2 ↔ L1 = L2) ∧
      (L1 = L2 → PricesHook.render owner s L2 ip en t = s) ∧
      (L1 ≠ L2 → PricesHook.render owner s L2 ip en t =
        PricesHook.runEffect owner (PricesHook.runCleanup s) L2 ip en t) := by
  have hiff : String.intercalate "," L1 = String.intercalate "," L2 ↔ L1 = L2 :=
    ⟨intercalate_comma_injective L1 L2 h1 h2, fun h => by rw [h]⟩
  refine ⟨hiff, ?_, ?_⟩
  · intro h
    subst h
    simp only [PricesHook.render, hdeps, if_true]
  · intro h
    have hne : ¬ (String.intercalate "," L1, en) = (String.intercalate "," L2, en) := by
      intro heq
      exact h (hiff.mp (Prod.mk.inj heq).1)
    simp only [PricesHook.render, hdeps, if_neg hne]

/-- C25 at a concrete input: `bitcoin, ethereum` and `bitcoin, solana` have different
keys, and a binder rendered with the first list ignores a render with the same list. -/
theorem C25_joined_key_value_equality_witness :
    String.intercalate "," ["bitcoin", "ethereum"] = "bitcoin,ethereum" ∧
      (String.intercalate "," ["bitcoin", "ethereum"] =
        String.intercalate "," ["bitcoin", "ethereum"] ↔
          ["bitcoin", "ethereum"] = ["bitcoin", "ethereum"]) ∧
      mapKeys (PricesHook.render 1
        (PricesHook.render 1 (World.init Closure, PricesHook.unmounted Nat)
          ["bitcoin", "ethereum"] [] true false) ["bitcoin", "ethereum"] [] true
        false).1.subscriptions = ["bitcoin", "ethereum"] :=
  have h := @C25_joined_key_value_equality Nat ["bitcoin", "ethereum"]
    ["bitcoin", "ethereum"] (by decide) (by decide) 1
    (PricesHook.render 1 (World.init Closure, PricesHook.unmounted Nat)
      ["bitcoin", "ethereum"] [] true false) true rfl [] false
  ⟨by decide, h.1, by rw [h.2.1 rfl]; decide⟩

end ClaimC25

section ClaimsC23C24

variable {ν : Type}

theorem mem_foldl_mapSet_keys (owner : Nat) (ids : List String) (reg : Registry Closure)
    (k : String) :
    k ∈ mapKeys (ids.foldl (fun r id => mapSet r id ⟨owner, id⟩) reg) ↔
      k ∈ mapKeys reg ∨ k ∈ ids := by
  induction ids generalizing reg with
  | nil => simp
  | cons id rest ih =>
    rw [List.foldl_cons, ih, mem_mapKeys_mapSet, List.mem_cons]
    tauto

/-- From an empty registry, the effect of an enabled binder registers exactly its ids. -/
theorem pricesHook_runEffect_keys (owner : Nat) (s : World Closure × PricesHook ν)
    (ids : List String) (ip : List (String × PriceEntry ν)) (t : Bool)
    (h1 : s.1.subscriptions = []) (k : String) :
    k ∈ mapKeys (PricesHook.runEffect owner s ids ip true t).1.subscriptions ↔ k ∈ ids := by
  unfold PricesHook.runEffect
  dsimp only
  split
  · rename_i hc
    simp only [Bool.not_true, Bool.false_or, decide_eq_true_eq] at hc
    rw [List.length_eq_zero.mp hc, h1]
    simp [mapKeys]
  · have hs := subscribeAll_subscriptions owner t ids (s.1, s.2.callbacksRef)
    simp only [] at hs
    rw [hs.1, h1, mem_foldl_mapSet_keys]
    simp [mapKeys]

theorem pricesHook_runEffect_disabled (owner : Nat) (s : World Closure × PricesHook ν)
    (ids : List String) (ip : List (String × PriceEntry ν)) (t : Bool) :
    (PricesHook.runEffect owner s ids ip false t).1 = s.1 ∧
      (PricesHook.runEffect owner s ids ip false t).2.callbacksRef = s.2.callbacksRef := by
  simp [PricesHook.runEffect]

/-- After any sequence of renders of a binder that is the only user of the manager, the
registry is the map of the binder's own callbacks, which is empty when no cleanup is
pending. -/
theorem pricesHookRun_inv (owner : Nat) (renders : List (PricesProps ν)) :
    (pricesHookRun owner renders).1.subscriptions =
        (pricesHookRun owner renders).2.callbacksRef ∧
      ((pricesHookRun owner renders).2.cleanup = false →
        (pricesHookRun owner renders).2.callbacksRef = []) ∧
      ((pricesHookRun owner renders).2.deps = none →
        (pricesHookRun owner renders).2.cleanup = false) := by
  have key : ∀ (rs : List (PricesProps ν)) (s : World Closure × PricesHook ν),
      s.1.subscriptions = s.2.callbacksRef →
      (s.2.cleanup = false → s.2.callbacksRef = []) →
      (s.2.deps = none → s.2.cleanup = false) →
      (rs.foldl (fun s r => PricesHook.render owner s r.coinIds r.initialPrices r.enabled
          r.ctorThrows) s).1.subscriptions =
        (rs.foldl (fun s r => PricesHook.render owner s r.coinIds r.initialPrices r.enabled
          r.ctorThrows) s).2.callbacksRef ∧
      ((rs.foldl (fun s r => PricesHook.render owner s r.coinIds r.initialPrices r.enabled
          r.ctorThrows) s).2.cleanup = false →
        (rs.foldl (fun s r => PricesHook.render owner s r.coinIds r.initialPrices r.enabled
          r.ctorThrows) s).2.callbacksRef = []) ∧
      ((rs.foldl (fun s r => PricesHook.render owner s r.coinIds r.initialPrices r.enabled
          r.ctorThrows) s).2.deps = none →
        (rs.foldl (fun s r => PricesHook.render owner s r.coinIds r.initialPrices r.enabled
          r.ctorThrows) s).2.cleanup = false) := by
    intro rs
    induction rs with
    | nil => exact fun s h1 h2 h3 => ⟨h1, h2, h3⟩
    | cons r rest ih =>
      intro s h1 h2 h3
      rw [List.foldl_cons]
      have h := pricesHook_render_inv owner s r.coinIds r.initialPrices r.enabled
        r.ctorThrows (max (mapKeys s.1.subscriptions).length r.coinIds.length) h1 h2 h3
        (le_max_left _ _) (le_max_right _ _)
      exact ih _ h.1 h.2.1 h.2.2.1
  exact key renders _ rfl (fun _ => rfl) (fun _ => rfl)

/-- C23 as stated fails: the list changes from the single id `a,b` to the two ids `a` and
`b`; the joined key is `a,b` both times, so the effect does not run again, and the
registry still holds `a,b` and neither `a` nor `b`. -/
theorem C23_same_key_other_list :
    mapKeys (pricesHookRun 1
        [(⟨["a,b"], [], true, false⟩ : PricesProps Nat),
          ⟨["a", "b"], [], true, false⟩]).1.subscriptions = ["a,b"] ∧
      String.intercalate "," ["a,b"] = String.intercalate "," ["a", "b"] ∧
      "a" ∈ ["a", "b"] ∧
      "a" ∉ mapKeys (pricesHookRun 1
        [(⟨["a,b"], [], true, false⟩ : PricesProps Nat),
          ⟨["a", "b"], [], true, false⟩]).1.subscriptions := by
  decide

/-- C23 (subscription set follows the input list), amended: for a binder that is the only
user of the manager and is enabled with list `L1`, a render with a list `L2` whose joined
key differs from that of `L1` leaves registered exactly the ids of `L2`; a render that
disables the binder, and its release, leave the registry empty. -/
theorem C23_subscriptions_follow_list (owner : Nat) (renders : List (PricesProps ν))
    (L1 L2 : List String) (ip : List (String × PriceEntry ν)) (t : Bool)
    (hdeps : (pricesHookRun owner renders).2.deps = some (String.intercalate "," L1, true))
    (hkey : String.intercalate "," L1 ≠ String.intercalate "," L2) :
    (∀ k, k ∈ mapKeys (PricesHook.render owner (pricesHookRun owner renders) L2 ip true
        t).1.subscriptions ↔ k ∈ L2) ∧
      (PricesHook.render owner (pricesHookRun owner renders) L2 ip false
        t).1.subscriptions = [] ∧
      (PricesHook.release (pricesHookRun owner renders)).1.subscriptions = [] := by
  have hinv := pricesHookRun_inv owner renders
  have hc := pricesHook_runCleanup_empty (pricesHookRun owner renders) hinv.1 hinv.2.1
  refine ⟨?_, ?_, hc.1⟩
  · intro k
    have hne : ¬ (String.intercalate "," L1, true) = (String.intercalate "," L2, true) :=
      fun h => hkey (Prod.mk.inj h).1
    simp only [PricesHook.render, hdeps, if_neg hne]
    exact pricesHook_runEffect_keys owner _ L2 ip t hc.1 k
  · have hne : ¬ (String.intercalate "," L1, true) = (String.intercalate "," L2, false) :=
      fun h => by simpa using (Prod.mk.inj h).2
    simp only [PricesHook.render, hdeps, if_neg hne]
    rw [(pricesHook_runEffect_disabled owner _ L2 ip t).1]
    exact hc.1

/-- C23 at a concrete input: the list changes from `bitcoin, ethereum` to
`bitcoin, solana`; afterwards exactly `bitcoin` and `solana` are registered. -/
theorem C23_subscriptions_follow_list_witness :
    mapKeys (PricesHook.render 1
        (pricesHookRun 1 [(⟨["bitcoin", "ethereum"], [], true, false⟩ : PricesProps Nat)])
        ["bitcoin", "solana"] [] true false).1.subscriptions = ["bitcoin", "solana"] ∧
      ∀ k, k ∈ mapKeys (PricesHook.render 1
        (pricesHookRun 1 [(⟨["bitcoin", "ethereum"], [], true, false⟩ : PricesProps Nat)])
        ["bitcoin", "solana"] [] true false).1.subscriptions ↔ k ∈ ["bitcoin", "solana"] :=
  ⟨by decide,
    (C23_subscriptions_follow_list 1
      [(⟨["bitcoin", "ethereum"], [], true, false⟩ : PricesProps Nat)]
      ["bitcoin", "ethereum"] ["bitcoin", "solana"] [] false rfl (by decide)).1⟩

end ClaimsC23C24

section ClaimC24

variable {ν : Type}

/-- What `unsubscribe` does to the held socket: nothing, or `close()` and `ws = null`. -/
theorem unsubscribe_ws_cases {κ : Type} (w : World κ) (c : String) :
    ((unsubscribe w c).ws = w.ws ∧ (unsubscribe w c).sockets = w.sockets) ∨
      (∃ i, w.ws = some i ∧ (unsubscribe w c).ws = none ∧
        (unsubscribe w c).sockets = w.sockets.modify closeState i) := by
  unfold unsubscribe
  dsimp only
  split
  · rename_i i hi
    split
    · exact Or.inr ⟨i, hi, rfl, rfl⟩
    · exact Or.inl ⟨rfl, rfl⟩
  · exact Or.inl ⟨rfl, rfl⟩

theorem unsubscribeAll_ws_cases (ks : List String) (w : World Closure) :
    ((unsubscribeAll w ks).ws = w.ws ∧ (unsubscribeAll w ks).sockets = w.sockets) ∨
      (∃ i, w.ws = some i ∧ (unsubscribeAll w ks).ws = none ∧
        (unsubscribeAll w ks).sockets = w.sockets.modify closeState i) := by
  induction ks generalizing w with
  | nil => exact Or.inl ⟨rfl, rfl⟩
  | cons k rest ih =>
    have hrec : unsubscribeAll w (k :: rest) = unsubscribeAll (unsubscribe w k) rest := rfl
    rw [hrec]
    rcases unsubscribe_ws_cases w k with h1 | ⟨i, hi, hws, hso⟩
    · rcases ih (unsubscribe w k) with h2 | ⟨i, hi, hws, hso⟩
      · exact Or.inl ⟨h2.1.trans h1.1, h2.2.trans h1.2⟩
      · exact Or.inr ⟨i, h1.1 ▸ hi, hws, by rw [hso, h1.2]⟩
    · rcases ih (unsubscribe w k) with h2 | ⟨j, hj, -, -⟩
      · exact Or.inr ⟨i, hi, h2.1.trans hws, h2.2.trans hso⟩
      · rw [hws] at hj
        simp at hj

/-- An `unsubscribe` that leaves the registry empty leaves no socket held. -/
theorem unsubscribe_empty_ws {κ : Type} (w : World κ) (c : String)
    (h : (unsubscribe w c).subscriptions = []) : (unsubscribe w c).ws = none := by
  rw [unsubscribe_subscriptions] at h
  unfold unsubscribe
  dsimp only
  split
  · rw [if_pos (by rw [h]; rfl)]
  · rename_i hn
    exact hn

theorem unsubscribeAll_empty_ws (ks : List String) (w : World Closure) (hks : ks ≠ [])
    (h : (unsubscribeAll w ks).subscriptions = []) : (unsubscribeAll w ks).ws = none := by
  rcases List.eq_nil_or_concat ks with h0 | ⟨init, k, hk⟩
  · exact absurd h0 hks
  · have hrec : unsubscribeAll w ks = unsubscribe (unsubscribeAll w init) k := by
      rw [hk]
      simp [unsubscribeAll, List.foldl_append]
    rw [hrec] at h ⊢
    exact unsubscribe_empty_ws _ k h

/-- C24 as stated fails: the binder is subscribed to `bitcoin` and `ethereum` on an open
socket and its list changes to `bitcoin, solana`. The cleanup unsubscribes both old ids,
`bitcoin` included: the registry is empty, the socket is closed and `ws` is cleared; the
effect then subscribes `bitcoin` again and asks for a second socket. -/
theorem C24_list_change_tears_down :
    (PricesHook.runCleanup
        (step (pricesHookRun 1
          [(⟨["bitcoin", "ethereum"], [], true, false⟩ : PricesProps Nat)]).1
          (Action.openEvent 0),
        (pricesHookRun 1
          [(⟨["bitcoin", "ethereum"], [], true, false⟩ : PricesProps Nat)]).2)
      ).1.subscriptions = [] ∧
    (PricesHook.runCleanup
        (step (pricesHookRun 1
          [(⟨["bitcoin", "ethereum"], [], true, false⟩ : PricesProps Nat)]).1
          (Action.openEvent 0),
        (pricesHookRun 1
          [(⟨["bitcoin", "ethereum"], [], true, false⟩ : PricesProps Nat)]).2)
      ).1.ws = none ∧
    (PricesHook.runCleanup
        (step (pricesHookRun 1
          [(⟨["bitcoin", "ethereum"], [], true, false⟩ : PricesProps Nat)]).1
          (Action.openEvent 0),
        (pricesHookRun 1
          [(⟨["bitcoin", "ethereum"], [], true, false⟩ : PricesProps Nat)]).2)
      ).1.sockets = [ReadyState.CLOSING] ∧
    (PricesHook.render 1
        (step (pricesHookRun 1
          [(⟨["bitcoin", "ethereum"], [], true, false⟩ : PricesProps Nat)]).1
          (Action.openEvent 0),
        (pricesHookRun 1
          [(⟨["bitcoin", "ethereum"], [], true, false⟩ : PricesProps Nat)]).2)
        ["bitcoin", "solana"] [] true false).1.sockets =
      [ReadyState.CLOSING, ReadyState.CONNECTING] ∧
    mapKeys (PricesHook.render 1
        (step (pricesHookRun 1
          [(⟨["bitcoin", "ethereum"], [], true, false⟩ : PricesProps Nat)]).1
          (Action.openEvent 0),
        (pricesHookRun 1
          [(⟨["bitcoin", "ethereum"], [], true, false⟩ : PricesProps Nat)]).2)
        ["bitcoin", "solana"] [] true false).1.subscriptions = ["bitcoin", "solana"] := by
  decide

/-- C24 (what a list change touches), amended: when the list of a binder that is the only
user of the manager changes to one with another joined key, the render runs the cleanup
and then the effect; the cleanup unsubscribes every id the binder owns, those of the new
list included, so that the registry is empty and no socket is held before the effect
subscribes the new list; a socket that was held has had `close()` called on it. -/
theorem C24_list_change_resubscribes_all (owner : Nat) (s : World Closure × PricesHook ν)
    (L1 L2 : List String) (ip : List (String × PriceEntry ν)) (t : Bool)
    (hsub : s.1.subscriptions = s.2.callbacksRef) (hcl : s.2.cleanup = true)
    (hown : s.2.callbacksRef ≠ [])
    (hdeps : s.2.deps = some (String.intercalate "," L1, true))
    (hkey : String.intercalate "," L1 ≠ String.intercalate "," L2) :
    PricesHook.render owner s L2 ip true t =
        PricesHook.runEffect owner (PricesHook.runCleanup s) L2 ip true t ∧
      (PricesHook.runCleanup s).1.subscriptions = [] ∧
      (PricesHook.runCleanup s).1.ws = none ∧
      (∀ i, s.1.ws = some i →
        (PricesHook.runCleanup s).1.sockets = s.1.sockets.modify closeState i) ∧
      (∀ k, k ∈ mapKeys (PricesHook.render owner s L2 ip true t).1.subscriptions ↔
        k ∈ L2) := by
  have hne : ¬ (String.intercalate "," L1, true) = (String.intercalate "," L2, true) :=
    fun h => hkey (Prod.mk.inj h).1
  have hrender : PricesHook.render owner s L2 ip true t =
      PricesHook.runEffect owner (PricesHook.runCleanup s) L2 ip true t := by
    simp only [PricesHook.render, hdeps, if_neg hne]
  have hc := pricesHook_runCleanup_empty s hsub (fun h => by rw [hcl] at h; simp at h)
  have hworld : (PricesHook.runCleanup s).1 = unsubscribeAll s.1 (mapKeys s.2.callbacksRef) := by
    simp only [PricesHook.runCleanup, hcl, if_true]
  have hks : mapKeys s.2.callbacksRef ≠ [] := by
    intro h
    exact hown (List.map_eq_nil_iff.mp h)
  have hws : (PricesHook.runCleanup s).1.ws = none := by
    rw [hworld]
    apply unsubscribeAll_empty_ws _ _ hks
    rw [← hworld]
    exact hc.1
  refine ⟨hrender, hc.1, hws, ?_, ?_⟩
  · intro i hi
    rw [hworld] at hws ⊢
    rcases unsubscribeAll_ws_cases (mapKeys s.2.callbacksRef) s.1 with h1 | ⟨j, hj, -, hso⟩
    · rw [h1.1, hi] at hws
      simp at hws
    · rw [hi] at hj
      simp only [Option.some.injEq] at hj
      rw [hso, hj]
  · intro k
    rw [hrender]
    exact pricesHook_runEffect_keys owner _ L2 ip t hc.1 k

/-- C24 at a concrete input: the binder of `bitcoin, ethereum` on an open socket changes to
`bitcoin, solana`; after the cleanup no socket is held and the old one is closing. -/
theorem C24_list_change_resubscribes_all_witness :
    (PricesHook.runCleanup
        (step (pricesHookRun 1
          [(⟨["bitcoin", "ethereum"], [], true, false⟩ : PricesProps Nat)]).1
          (Action.openEvent 0),
        (pricesHookRun 1
          [(⟨["bitcoin", "ethereum"], [], true, false⟩ : PricesProps Nat)]).2)
      ).1.ws = none ∧
    (PricesHook.runCleanup
        (step (pricesHookRun 1
          [(⟨["bitcoin", "ethereum"], [], true, false⟩ : PricesProps Nat)]).1
          (Action.openEvent 0),
        (pricesHookRun 1
          [(⟨["bitcoin", "ethereum"], [], true, false⟩ : PricesProps Nat)]).2)
      ).1.sockets = [ReadyState.CLOSING] :=
  have h := C24_list_change_resubscribes_all 1
    (step (pricesHookRun 1
        [(⟨["bitcoin", "ethereum"], [], true, false⟩ : PricesProps Nat)]).1
        (Action.openEvent 0),
      (pricesHookRun 1
        [(⟨["bitcoin", "ethereum"], [], true, false⟩ : PricesProps Nat)]).2)
    ["bitcoin", "ethereum"] ["bitcoin", "solana"] [] false (by decide) (by decide)
    (by decide) rfl (by decide)
  ⟨h.2.2.1, (h.2.2.2.1 0 (by decide)).trans (by decide)⟩

end ClaimC24

section ClaimC26

variable {κ ν : Type}

/-- The calls one well-typed batch entry makes to the entry of `c`. -/
theorem handleTicker_filter_matching (B : Builtins ν) (reg : Registry κ)
    (hreg : (mapKeys reg).Nodup) (c : String) (cb : κ) (m : String) (hmem : (c, cb) ∈ reg)
    (hc : coinIdToSymbol B c = SymbolResult.symbol m) (t : JSVal) (ht : symbolWellTyped t) :
    (handleTicker B reg t).threw = false ∧
      (handleTicker B reg t).calls.filter (fun call => decide (call.payload.id = c)) =
        (matchingTickers m [t]).map fun u =>
          (⟨cb, ⟨c, m, B.parseFloat (orZero (prop u "c")),
            B.parseFloat (orZero (prop u "P"))⟩⟩ : Call κ ν) := by
  rcases ht with hf | ⟨s, hs⟩
  · have h1 : handleTicker B reg t = ⟨[], false⟩ := by
      unfold handleTicker
      simp [hf]
    have h2 : matchingTickers m [t] = [] := by
      unfold matchingTickers
      rw [List.filter_eq_nil_iff]
      intro u hu
      rw [List.mem_singleton] at hu
      subst hu
      split
      · rename_i s hs
        rw [hs] at hf
        simp only [truthy, decide_eq_false_iff_not, not_not] at hf
        simp [hf]
      · simp
    rw [h1, h2]
    exact ⟨rfl, rfl⟩
  · by_cases hne : s = ""
    · have hf : truthy (prop t "s") = false := by rw [hs, hne]; simp [truthy]
      have h1 : handleTicker B reg t = ⟨[], false⟩ := by
        unfold handleTicker
        simp [hf]
      have h2 : matchingTickers m [t] = [] := by
        simp [matchingTickers, hs, hne]
      rw [h1, h2]
      exact ⟨rfl, rfl⟩
    · rw [handleTicker_str B reg t s hs hne]
      refine ⟨rfl, ?_⟩
      simp only []
      rw [dispatch_filter_id B reg hreg c cb m hmem hc]
      by_cases hb : baseSymbol s = m
      · have h2 : matchingTickers m [t] = [t] := by
          simp [matchingTickers, hs, hne, hb]
        rw [if_pos hb, h2]
        rfl
      · have h2 : matchingTickers m [t] = [] := by
          simp [matchingTickers, hs, hb]
        rw [if_neg hb, h2]
        rfl

theorem matchingTickers_cons (m : String) (t : JSVal) (ts : List JSVal) :
    matchingTickers m (t :: ts) = matchingTickers m [t] ++ matchingTickers m ts := by
  unfold matchingTickers
  rw [← List.filter_append]
  rfl

theorem forEachTicker_filter_matching (B : Builtins ν) (reg : Registry κ)
    (hreg : (mapKeys reg).Nodup) (c : String) (cb : κ) (m : String) (hmem : (c, cb) ∈ reg)
    (hc : coinIdToSymbol B c = SymbolResult.symbol m) (tickers : List JSVal)
    (hty : ∀ t ∈ tickers, symbolWellTyped t) :
    (forEachTicker B reg tickers).threw = false ∧
      (forEachTicker B reg tickers).calls.filter (fun call => decide (call.payload.id = c)) =
        (matchingTickers m tickers).map fun u =>
          (⟨cb, ⟨c, m, B.parseFloat (orZero (prop u "c")),
            B.parseFloat (orZero (prop u "P"))⟩⟩ : Call κ ν) := by
  induction tickers with
  | nil => exact ⟨rfl, rfl⟩
  | cons t rest ih =>
    have h1 := handleTicker_filter_matching B reg hreg c cb m hmem hc t
      (hty t (List.mem_cons_self _ _))
    have h2 := ih (fun u hu => hty u (List.mem_cons_of_mem _ hu))
    simp only [forEachTicker, h1.1, Bool.false_eq_true, if_false]
    refine ⟨h2.1, ?_⟩
    rw [matchingTickers_cons m t rest, List.map_append, List.filter_append, h1.2, h2.2]

/-- A run of updates for the bound coin leaves the price of the last one. -/
theorem priceHook_fold_last (c : String) (h : PriceHook ν) (us : List (Update ν))
    (u : Update ν) (hlast : us.getLast? = some u) (hid : u.payload.id = c) :
    (us.foldl (PriceHook.callback c) h).price = some u.payload.current_price := by
  obtain ⟨ys, rfl⟩ := List.getLast?_eq_some_iff.mp hlast
  rw [List.foldl_append]
  simp [PriceHook.callback, hid]

/-- C26 (ticks are dispatched in arrival order): for a batch whose entries have a string
symbol or none, and a registry with distinct keys, the calls made to a subscriber whose
coin maps to `m` are, in frame order, one per ticker with base symbol `m`, each with the
parsed price and percent change of its ticker; so a per-coin binder that receives them in
that order ends with the price of the last such ticker. -/
theorem C26_ticks_in_frame_order (B : Builtins ν) (reg : Registry κ)
    (hreg : (mapKeys reg).Nodup) (c : String) (cb : κ) (m : String) (hmem : (c, cb) ∈ reg)
    (hc : coinIdToSymbol B c = SymbolResult.symbol m) (tickers : List JSVal)
    (hty : ∀ t ∈ tickers, symbolWellTyped t) (h : PriceHook ν) (us : List (Update ν))
    (hus : us.map (fun u => u.payload) =
      ((handleMessage B reg (JSVal.arr tickers)).calls.filter
        (fun call => decide (call.payload.id = c))).map (fun call => call.payload))
    (tl : JSVal) (hlast : (matchingTickers m tickers).getLast? = some tl) :
    (handleMessage B reg (JSVal.arr tickers)).threw = false ∧
      (handleMessage B reg (JSVal.arr tickers)).calls.filter
          (fun call => decide (call.payload.id = c)) =
        ((matchingTickers m tickers).map fun u =>
          (⟨cb, ⟨c, m, B.parseFloat (orZero (prop u "c")),
            B.parseFloat (orZero (prop u "P"))⟩⟩ : Call κ ν)) ∧
      (us.foldl (PriceHook.callback c) h).price =
        some (B.parseFloat (orZero (prop tl "c"))) := by
  have hf := forEachTicker_filter_matching B reg hreg c cb m hmem hc tickers hty
  have hcalls : (handleMessage B reg (JSVal.arr tickers)).calls.filter
        (fun call => decide (call.payload.id = c)) =
      ((matchingTickers m tickers).map fun u =>
        (⟨cb, ⟨c, m, B.parseFloat (orZero (prop u "c")),
          B.parseFloat (orZero (prop u "P"))⟩⟩ : Call κ ν)) := by
    simp only [handleMessage]
    exact hf.2
  refine ⟨by simp only [handleMessage]; exact hf.1, hcalls, ?_⟩
  rw [hcalls] at hus
  have hl := congrArg List.getLast? hus
  simp only [List.getLast?_map, hlast, Option.map_some'] at hl
  cases hu : us.getLast? with
  | none => rw [hu] at hl; simp at hl
  | some u =>
    rw [hu] at hl
    simp only [Option.map_some', Option.some.injEq] at hl
    rw [priceHook_fold_last c h us u hu (by rw [hl])]
    rw [hl]

end ClaimC26

/-- C26 at a concrete input: a batch with `BTCUSDT` at 50000, `ETHUSDT`, and `BTCUSDT`
again at 51000; the callback of `bitcoin` is invoked with 50000 and then 51000, and the
binder of `bitcoin` ends with 51000. -/
theorem C26_ticks_in_frame_order_witness :
    (handleMessage sampleBuiltins sampleRegistry
        (JSVal.arr [btcTicker, ethTicker,
          JSVal.obj [("s", JSVal.str "BTCUSDT"), ("c", JSVal.str "51000")]])).calls.filter
        (fun call => decide (call.payload.id = "bitcoin")) =
      [⟨1, ⟨"bitcoin", "BTC", some 50000, some 2⟩⟩,
        ⟨1, ⟨"bitcoin", "BTC", some 51000, some 0⟩⟩] ∧
    ([(⟨⟨"bitcoin", "BTC", some 50000, some 2⟩, "t1"⟩ : Update (Option Nat)),
        ⟨⟨"bitcoin", "BTC", some 51000, some 0⟩, "t2"⟩].foldl (PriceHook.callback "bitcoin")
        (PriceHook.unmounted (Option Nat))).price = some (some 51000) :=
  have h := C26_ticks_in_frame_order sampleBuiltins sampleRegistry (by decide) "bitcoin" 1
    "BTC" (by decide) (by decide)
    [btcTicker, ethTicker, JSVal.obj [("s", JSVal.str "BTCUSDT"), ("c", JSVal.str "51000")]]
    (by
      intro t ht
      simp only [List.mem_cons, List.mem_singleton, List.not_mem_nil, or_false] at ht
      rcases ht with rfl | rfl | rfl
      · exact Or.inr ⟨"BTCUSDT", rfl⟩
      · exact Or.inr ⟨"ETHUSDT", rfl⟩
      · exact Or.inr ⟨"BTCUSDT", rfl⟩)
    (PriceHook.unmounted (Option Nat))
    [(⟨⟨"bitcoin", "BTC", some 50000, some 2⟩, "t1"⟩ : Update (Option Nat)),
      ⟨⟨"bitcoin", "BTC", some 51000, some 0⟩, "t2"⟩]
    (by decide)
    (JSVal.obj [("s", JSVal.str "BTCUSDT"), ("c", JSVal.str "51000")])
    (by simp [matchingTickers, btcTicker, ethTicker, prop, baseSymbol, jsReplace,
      replaceFirst])
  ⟨h.2.1.trans (by decide), h.2.2.trans (by decide)⟩

section ClaimC27

variable {κ ν : Type}

theorem asciiLower_idem (c : Char) : asciiLower (asciiLower c) = asciiLower c := by
  by_cases h : 65 ≤ c.toNat ∧ c.toNat ≤ 90
  · obtain ⟨n, hn⟩ : ∃ n, c.toNat = n := ⟨_, rfl⟩
    have hc : c = Char.ofNat n := by rw [← hn, Char.ofNat_toNat]
    rw [hn] at h
    subst hc
    obtain ⟨h1, h2⟩ := h
    interval_cases n <;> decide
  · have : asciiLower c = c := by
      unfold asciiLower
      rw [if_neg h]
    rw [this, this]

theorem sampleBuiltins_lower_idem (c : String) :
    sampleBuiltins.toLowerCase (sampleBuiltins.toLowerCase c) =
      sampleBuiltins.toLowerCase c := by
  simp only [sampleBuiltins, List.map_map]
  congr 1
  apply List.map_congr_left
  intro ch _
  exact asciiLower_idem ch

theorem mem_mapSet_of_ne (reg : Registry κ) (c : String) (g : κ) (e : String × κ)
    (he : e ∈ reg) (hne : e.1 ≠ c) : e ∈ mapSet reg c g := by
  induction reg with
  | nil => simp at he
  | cons e0 rest ih =>
    obtain ⟨k0, v0⟩ := e0
    by_cases hk : k0 = c
    · simp only [mapSet, if_pos hk]
      rcases List.mem_cons.mp he with h | h
      · rw [h] at hne
        exact absurd hk hne
      · exact List.mem_cons_of_mem _ h
    · simp only [mapSet, if_neg hk]
      rcases List.mem_cons.mp he with h | h
      · rw [h]; exact List.mem_cons_self _ _
      · exact List.mem_cons_of_mem _ (ih h)

/-- C27 (case-insensitive mapper, case-sensitive registry): when `toLowerCase` leaves a
lower-cased string as it is, `coinIdToSymbol(c)` is `coinIdToSymbol` of the lower-cased
`c`; two different keys with the same lower-cased form are two entries of the registry,
and a single ticker whose base symbol is their mapped symbol invokes each of the two
callbacks once, with its own key as `id`. -/
theorem C27_mapper_case_insensitive (B : Builtins ν)
    (hidem : ∀ c, B.toLowerCase (B.toLowerCase c) = B.toLowerCase c)
    (w : World κ) (hreg : (mapKeys w.subscriptions).Nodup) (c1 c2 : String) (f1 f2 : κ)
    (t1 t2 : Bool) (hne : c1 ≠ c2) (hlow : B.toLowerCase c1 = B.toLowerCase c2) (m : String)
    (hm : coinIdToSymbol B c1 = SymbolResult.symbol m) (data : JSVal) (s : String)
    (hs : prop data "s" = JSVal.str s) (hsne : s ≠ "") (hbase : baseSymbol s = m) :
    (∀ c, coinIdToSymbol B c = coinIdToSymbol B (B.toLowerCase c)) ∧
      coinIdToSymbol B c2 = SymbolResult.symbol m ∧
      (c1, f1) ∈ (subscribe (subscribe w c1 f1 t1) c2 f2 t2).subscriptions ∧
      (c2, f2) ∈ (subscribe (subscribe w c1 f1 t1) c2 f2 t2).subscriptions ∧
      (handleMessage B (subscribe (subscribe w c1 f1 t1) c2 f2 t2).subscriptions
          data).calls.filter (fun call => decide (call.payload.id = c1)) =
        [⟨f1, ⟨c1, m, B.parseFloat (orZero (prop data "c")),
          B.parseFloat (orZero (prop data "P"))⟩⟩] ∧
      (handleMessage B (subscribe (subscribe w c1 f1 t1) c2 f2 t2).subscriptions
          data).calls.filter (fun call => decide (call.payload.id = c2)) =
        [⟨f2, ⟨c2, m, B.parseFloat (orZero (prop data "c")),
          B.parseFloat (orZero (prop data "P"))⟩⟩] := by
  have hcase : ∀ c, coinIdToSymbol B c = coinIdToSymbol B (B.toLowerCase c) := by
    intro c
    unfold coinIdToSymbol
    simp only [hidem]
  have hm2 : coinIdToSymbol B c2 = SymbolResult.symbol m := by
    rw [hcase c2, ← hlow, ← hcase c1]
    exact hm
  have hsub : (subscribe (subscribe w c1 f1 t1) c2 f2 t2).subscriptions =
      mapSet (mapSet w.subscriptions c1 f1) c2 f2 := by
    rw [subscribe_subscriptions, subscribe_subscriptions]
  have hnd : (mapKeys (mapSet (mapSet w.subscriptions c1 f1) c2 f2)).Nodup :=
    mapSet_nodup _ _ _ (mapSet_nodup _ _ _ hreg)
  have hin1 : (c1, f1) ∈ mapSet (mapSet w.subscriptions c1 f1) c2 f2 :=
    mem_mapSet_of_ne _ c2 f2 _ (mem_mapSet_self _ c1 f1) hne
  have hin2 : (c2, f2) ∈ mapSet (mapSet w.subscriptions c1 f1) c2 f2 :=
    mem_mapSet_self _ c2 f2
  rw [hsub, handleMessage_single_str B _ data s hs hsne]
  refine ⟨hcase, hm2, hin1, hin2, ?_, ?_⟩
  · simp only []
    rw [dispatch_filter_id B _ hnd c1 f1 m hin1 hm, if_pos hbase]
  · simp only []
    rw [dispatch_filter_id B _ hnd c2 f2 m hin2 hm2, if_pos hbase]

/-- C27 at a concrete input: `bitcoin` (callback 1) and `Bitcoin` (callback 8) are both
subscribed; one `BTCUSDT` ticker invokes both, each with its own key. -/
theorem C27_mapper_case_insensitive_witness :
    (handleMessage sampleBuiltins
        (subscribe (subscribe (World.init Nat) "bitcoin" 1 false) "Bitcoin" 8
          false).subscriptions btcTicker).calls =
      [⟨1, ⟨"bitcoin", "BTC", some 50000, some 2⟩⟩,
        ⟨8, ⟨"Bitcoin", "BTC", some 50000, some 2⟩⟩] ∧
    coinIdToSymbol sampleBuiltins "Bitcoin" = SymbolResult.symbol "BTC" :=
  have h := C27_mapper_case_insensitive sampleBuiltins sampleBuiltins_lower_idem
    (World.init Nat) (by decide) "bitcoin" "Bitcoin" 1 8 false false (by decide) (by decide)
    "BTC" (by decide) btcTicker "BTCUSDT" rfl (by decide) (by decide)
  ⟨by decide, h.2.1⟩

end ClaimC27

section ClaimC28

variable {κ : Type}

theorem reconnect_attempts_le (w : World κ)
    (h : w.reconnectAttempts ≤ maxReconnectAttempts) :
    (reconnect w).reconnectAttempts ≤ maxReconnectAttempts := by
  unfold reconnect
  split
  · exact h
  · simp only []
    omega

theorem connect_attempts_le (w : World κ) (t : Bool)
    (h : w.reconnectAttempts ≤ maxReconnectAttempts) :
    (connect w t).reconnectAttempts ≤ maxReconnectAttempts := by
  unfold connect
  split
  · exact h
  · split
    · exact reconnect_attempts_le _ h
    · exact h

theorem step_attempts_le (w : World κ) (a : Action κ)
    (h : w.reconnectAttempts ≤ maxReconnectAttempts) :
    (step w a).reconnectAttempts ≤ maxReconnectAttempts := by
  cases a with
  | subscribe c cb t =>
    simp only [step, subscribe]
    split
    · exact connect_attempts_le _ t h
    · exact h
  | unsubscribe c =>
    simp only [step]
    rw [(unsubscribe_attempts w c).1]
    exact h
  | connect t => exact connect_attempts_le w t h
  | disconnect =>
    simp only [step]
    rw [(disconnect_attempts w).1]
    exact h
  | reconnect => exact reconnect_attempts_le w h
  | timeout i t =>
    simp only [step]
    split
    · exact connect_attempts_le _ t h
    · exact h
  | openEvent i =>
    simp only [step]
    split
    · exact Nat.zero_le _
    · exact h
  | messageEvent i d => exact h
  | errorEvent i =>
    simp only [step]
    split <;> exact h
  | closeEvent i =>
    simp only [step]
    split
    · exact h
    · exact reconnect_attempts_le _ h
    · exact h

/-- C28 (attempt counter bounds): in every state reached from the initial manager by
method calls, timers and socket events, `reconnectAttempts` is a natural number that is at
most `maxReconnectAttempts`, which is 5. -/
theorem C28_attempts_bounded (w : World κ) (hw : Reachable w) :
    0 ≤ w.reconnectAttempts ∧ w.reconnectAttempts ≤ maxReconnectAttempts ∧
      maxReconnectAttempts = 5 := by
  obtain ⟨acts, rfl⟩ := hw
  have key : ∀ (v : World κ), v.reconnectAttempts ≤ maxReconnectAttempts →
      (run v acts).reconnectAttempts ≤ maxReconnectAttempts := by
    induction acts with
    | nil => exact fun v h => h
    | cons a rest ih => exact fun v h => ih (step v a) (step_attempts_le v a h)
  exact ⟨Nat.zero_le _, key _ (Nat.zero_le _), rfl⟩

/-- C28 at a concrete input: after six failures in a row and one more direct `reconnect()`
the counter is 5. -/
theorem C28_attempts_bounded_witness :
    (run (World.init Nat) (exhaustingTrace ++ [Action.reconnect])).reconnectAttempts = 5 ∧
      (run (World.init Nat) (exhaustingTrace ++ [Action.reconnect])).reconnectAttempts ≤
        maxReconnectAttempts :=
  ⟨by decide,
    (C28_attempts_bounded (run (World.init Nat) (exhaustingTrace ++ [Action.reconnect]))
      ⟨exhaustingTrace ++ [Action.reconnect], rfl⟩).2.1⟩

end ClaimC28

section ClaimC29

variable {κ ν : Type}

theorem orZero_falsy (v : JSVal) (h : truthy v = false) : orZero v = JSVal.num 0 := by
  unfold orZero
  rw [h]
  rfl

/-- C29 (a ticker without a price is not dropped): for a ticker whose symbol matches a
subscribed coin, the callback is invoked once whether or not the fields `c` and `P` are
there; a last-price field that is absent or empty (or otherwise falsy) is delivered as
`parseFloat(0)`, which is 0, and so is such a percent-change field, in the single-ticker
branch and in the batch branch alike. -/
theorem C29_missing_price_is_zero (B : Builtins ν) (reg : Registry κ)
    (hreg : (mapKeys reg).Nodup) (c : String) (cb : κ) (m : String) (hmem : (c, cb) ∈ reg)
    (hc : coinIdToSymbol B c = SymbolResult.symbol m) (t : JSVal) (s : String)
    (hs : prop t "s" = JSVal.str s) (hne : s ≠ "") (hbase : baseSymbol s = m) (zero : ν)
    (hzero : B.parseFloat (JSVal.num 0) = zero) :
    truthy JSVal.undefined = false ∧ truthy (JSVal.str "") = false ∧
      (handleMessage B reg t).calls.filter (fun call => decide (call.payload.id = c)) =
        [⟨cb, ⟨c, m, B.parseFloat (orZero (prop t "c")),
          B.parseFloat (orZero (prop t "P"))⟩⟩] ∧
      (handleMessage B reg (JSVal.arr [t])).calls =  (handleMessage B reg t).calls ∧
      (truthy (prop t "c") = false →
        ∀ call ∈ (handleMessage B reg t).calls, call.payload.current_price = zero) ∧
      (truthy (prop t "P") = false →
        ∀ call ∈ (handleMessage B reg t).calls,
          call.payload.price_change_percentage_24h = zero) := by
  have hsingle := handleMessage_single_str B reg t s hs hne
  have hbatch : handleMessage B reg (JSVal.arr [t]) = handleMessage B reg t := by
    rw [hsingle]
    simp only [handleMessage]
    rw [forEachTicker_single, handleTicker_str B reg t s hs hne]
  refine ⟨rfl, rfl, ?_, by rw [hbatch], ?_, ?_⟩
  · rw [hsingle]
    simp only []
    rw [dispatch_filter_id B reg hreg c cb m hmem hc, if_pos hbase]
  · intro hf call hcall
    rw [hsingle] at hcall
    have := (mem_dispatch B reg _ _ _ call hcall).2.2.2.1
    rw [this, orZero_falsy _ hf, hzero]
  · intro hf call hcall
    rw [hsingle] at hcall
    have := (mem_dispatch B reg _ _ _ call hcall).2.2.2.2
    rw [this, orZero_falsy _ hf, hzero]

/-- C29 at a concrete input: the ticker `BTCUSDT` with an empty `c` and no `P` reaches the
subscriber of `bitcoin` with price 0 and percent change 0. -/
theorem C29_missing_price_is_zero_witness :
    (handleMessage sampleBuiltins sampleRegistry
        (JSVal.obj [("s", JSVal.str "BTCUSDT"), ("c", JSVal.str "")])).calls =
      [⟨1, ⟨"bitcoin", "BTC", some 0, some 0⟩⟩] ∧
    ∀ call ∈ (handleMessage sampleBuiltins sampleRegistry
        (JSVal.obj [("s", JSVal.str "BTCUSDT"), ("c", JSVal.str "")])).calls,
      call.payload.current_price = some 0 :=
  have h := C29_missing_price_is_zero sampleBuiltins sampleRegistry (by decide) "bitcoin" 1
    "BTC" (by decide) (by decide)
    (JSVal.obj [("s", JSVal.str "BTCUSDT"), ("c", JSVal.str "")]) "BTCUSDT" rfl (by decide)
    (by decide) (some 0) (by decide)
  ⟨by decide, h.2.2.2.2.1 (by decide)⟩

end ClaimC29

section ClaimC30

theorem filter_ne_erase (l : List String) (c : String) :
    (l.erase c).filter (fun x => decide (x ≠ c)) = l.filter (fun x => decide (x ≠ c)) := by
  induction l with
  | nil => rfl
  | cons a rest ih =>
    by_cases h : a = c
    · subst h
      rw [List.erase_cons_head, List.filter_cons_of_neg (by simp)]
    · have hb : (a == c) = false := by simpa using h
      rw [List.erase_cons_tail (by simpa using h), List.filter_cons_of_pos (by simpa using h),
        List.filter_cons_of_pos (by simpa using h), ih]

theorem filter_ne_append_self (l : List String) (c : String) :
    (l ++ [c]).filter (fun x => decide (x ≠ c)) = l.filter (fun x => decide (x ≠ c)) := by
  rw [List.filter_append, List.filter_cons_of_neg (by simp)]
  simp

theorem toggleFavorite_present (l : List String) (c : String) (hc : c ∈ l) :
    toggleFavorite (some l) c false = (l.erase c, some (l.erase c)) := by
  simp [toggleFavorite, saveFavorites, getFavorites, hc]

theorem toggleFavorite_absent (l : List String) (c : String) (hc : c ∉ l) :
    toggleFavorite (some l) c false = (l ++ [c], some (l ++ [c])) := by
  simp [toggleFavorite, saveFavorites, getFavorites, hc]

theorem toggleFavorite_list (l : List String) (c : String) (hnd : l.Nodup) :
    (toggleFavorite (some l) c false).2 = some (toggleFavorite (some l) c false).1 ∧
      (c ∈ (toggleFavorite (some l) c false).1 ↔ c ∉ l) ∧
      (toggleFavorite (some l) c false).1.filter (fun x => decide (x ≠ c)) =
        l.filter (fun x => decide (x ≠ c)) ∧
      (toggleFavorite (some l) c false).1.Nodup ∧
      isFavorite (toggleFavorite (some l) c false).2 c = !isFavorite (some l) c ∧
      (∀ x, x ∈ (toggleFavorite (toggleFavorite (some l) c false).2 c false).1 ↔ x ∈ l) ∧
      (toggleFavorite (toggleFavorite (some l) c false).2 c false).1.Nodup := by
  by_cases hc : c ∈ l
  · have hnot : c ∉ l.erase c := fun h => ((List.Nodup.mem_erase_iff hnd).mp h).1 rfl
    have hnd1 : (l.erase c).Nodup := hnd.erase c
    have hnd2 : (l.erase c ++ [c]).Nodup := by
      rw [List.nodup_append]
      refine ⟨hnd1, List.nodup_singleton c, ?_⟩
      intro a ha hb
      rw [List.mem_singleton] at hb
      exact hnot (hb ▸ ha)
    rw [toggleFavorite_present l c hc]
    simp only []
    rw [toggleFavorite_absent (l.erase c) c hnot]
    simp only []
    refine ⟨trivial, ?_, filter_ne_erase l c, hnd1, ?_, ?_, hnd2⟩
    · exact ⟨fun h => absurd h hnot, fun h => absurd hc h⟩
    · simp [isFavorite, getFavorites, hnot, hc]
    · intro x
      rw [List.mem_append, List.mem_singleton, List.Nodup.mem_erase_iff hnd]
      constructor
      · rintro (h | h)
        · exact h.2
        · exact h ▸ hc
      · intro h
        by_cases hx : x = c
        · exact Or.inr hx
        · exact Or.inl ⟨hx, h⟩
  · have hin : c ∈ l ++ [c] := by simp
    have herase : (l ++ [c]).erase c = l := by
      rw [List.erase_append_right _ hc]
      simp
    have hnd2 : (l ++ [c]).Nodup := by
      rw [List.nodup_append]
      refine ⟨hnd, List.nodup_singleton c, ?_⟩
      intro a ha hb
      rw [List.mem_singleton] at hb
      exact hc (hb ▸ ha)
    rw [toggleFavorite_absent l c hc]
    simp only []
    rw [toggleFavorite_present (l ++ [c]) c hin, herase]
    simp only []
    refine ⟨trivial, ?_, filter_ne_append_self l c, hnd2, ?_, fun x => trivial, hnd⟩
    · exact ⟨fun _ => hc, fun _ => hin⟩
    · simp [isFavorite, getFavorites, hc]

/-- C30 (`toggleFavorite` flips membership): for a stored list without duplicates and a
`setItem` that succeeds, the list returned by `toggleFavorite(c)` is the list stored; it
contains `c` exactly when the old list did not, keeps every other id in the same order,
and has no duplicates; `isFavorite(c)` afterwards is the negation of what it was; and a
second `toggleFavorite(c)` gives back a list with the same members as the first one. -/
theorem C30_toggle_flips_membership (store : FavoritesStore) (c : String)
    (hnd : (getFavorites store).Nodup) :
    (toggleFavorite store c false).2 = some (toggleFavorite store c false).1 ∧
      (c ∈ (toggleFavorite store c false).1 ↔ c ∉ getFavorites store) ∧
      (toggleFavorite store c false).1.filter (fun x => decide (x ≠ c)) =
        (getFavorites store).filter (fun x => decide (x ≠ c)) ∧
      (toggleFavorite store c false).1.Nodup ∧
      isFavorite (toggleFavorite store c false).2 c = !isFavorite store c ∧
      (∀ x, x ∈ (toggleFavorite (toggleFavorite store c false).2 c false).1 ↔
        x ∈ getFavorites store) ∧
      (toggleFavorite (toggleFavorite store c false).2 c false).1.Nodup := by
  cases store with
  | none => exact toggleFavorite_list [] c List.nodup_nil
  | some l => exact toggleFavorite_list l c hnd

/-- C30 at a concrete input: with `bitcoin` and `ethereum` stored, toggling `bitcoin`
leaves `ethereum`; toggling it again gives `ethereum, bitcoin`, the same members. -/
theorem C30_toggle_flips_membership_witness :
    (toggleFavorite (some ["bitcoin", "ethereum"]) "bitcoin" false).1 = ["ethereum"] ∧
      (toggleFavorite (toggleFavorite (some ["bitcoin", "ethereum"]) "bitcoin" false).2
        "bitcoin" false).1 = ["ethereum", "bitcoin"] ∧
      isFavorite (toggleFavorite (some ["bitcoin", "ethereum"]) "bitcoin" false).2 "bitcoin" =
        !isFavorite (some ["bitcoin", "ethereum"]) "bitcoin" :=
  ⟨by decide, by decide,
    (C30_toggle_flips_membership (some ["bitcoin", "ethereum"]) "bitcoin"
      (by decide)).2.2.2.2.1⟩

end ClaimC30

end CryptoWS
